import Mathlib

/-!
MogileFS tracker client: connection selection and request codec

A shallow embedding of `mogilefs/net-io.go`.

* Go strings that travel on the wire (commands, argument keys and values, reply
  lines) are byte sequences: `Str = List (Fin 256)`.
* Tracker addresses are only compared and handed to the dialer and to the
  health bookkeeping; they are modelled by `String`.
* A `net.Conn` interface value is `Option Conn`; `none` is the nil interface.
  Calling a method on the nil interface panics, which is the `Outcome.panic`
  result.
* The network is an oracle `Env` whose answers may depend on the whole history
  of events so far; the history is the `log` field of `World`.
* Stateful methods take the client and the world and return the new ones.
-/

set_option autoImplicit false
set_option maxRecDepth 8192

namespace Mogilefs

/-! ## Data model -/

/-- One byte of a Go string. -/
abbrev Byte := Fin 256

/-- A Go string: a sequence of bytes. -/
abbrev Str := List Byte

/-- The bytes of an ASCII literal. -/
def lit (s : String) : Str := s.toList.map (fun c => Fin.ofNat c.toNat)

/-- Go error values. `net` is an error produced by the network layer (dial,
write or read), `text` an error built by `errors.New` or `fmt.Errorf` with the
given message, `escape` a `url.EscapeError` carrying the offending bytes. -/
inductive Error where
  | net (code : Nat)
  | text (msg : Str)
  | escape (s : Str)
  deriving DecidableEq, Repr

/-- A non-nil connection handle: the address it was dialled to and a serial. -/
structure Conn where
  addr : String
  id : Nat
  deriving DecidableEq, Repr

/-- Observable events, oldest first in `World.log`. -/
inductive Event where
  | isBad (addr : String) (res : Bool)
  | dial (addr : String) (ok : Bool)
  | markBad (addr : String)
  | markAlive (addr : String)
  | write (c : Conn) (data : Str)
  | read (c : Conn)
  | close (c : Conn)
  deriving DecidableEq, Repr

/-- The network oracle. `dial log addr` is the outcome of a `net.DialTimeout`
to `addr` after history `log`; `write log c data` the error of `c.Write(data)`
(`none` is nil); `recv log c` the bytes the peer delivers on `c` from now on
together with the error that ends the stream (end-of-stream or a read
failure). -/
structure Env where
  dial : List Event → String → Except Error Conn
  write : List Event → Conn → Str → Option Error
  recv : List Event → Conn → Str × Error

/-- The fields of `MogileFsClient` that `net-io.go` uses (the struct is
declared in another file of the package). -/
structure MogileFsClient where
  trackers : List String
  last_tracker : String
  localConn : Option Conn
  isInitialized : Bool
  reconnectCounter : Nat
  dial_timeout : Nat
  deriving DecidableEq, Repr

/-- Everything outside the client: the tracker health state (`bad`, the set of
blacklisted addresses) and the event history. -/
structure World where
  bad : List String
  log : List Event
  deriving DecidableEq, Repr

/-- Result of a call that may panic. -/
inductive Outcome (α : Type) where
  | ret (a : α)
  | panic
  deriving DecidableEq, Repr

/-! ## Tracker health bookkeeping -/

/-- Modelled from the spec: `trackerIsBad` is declared in another file of the
package. The spec gives it as `isBlacklisted(address) -> bool` over a binary
eligibility per address; the recovery timing is outside the model. The query
is recorded in the history. -/
def trackerIsBad (w : World) (addr : String) : Bool × World :=
  (decide (addr ∈ w.bad), { w with log := w.log ++ [Event.isBad addr (decide (addr ∈ w.bad))] })

/-- Modelled from the spec: `markTrackerAsBad` is declared in another file of
the package. The spec gives it as `blacklist(address)`: the address becomes
blacklisted, no other address changes. -/
def markTrackerAsBad (w : World) (addr : String) : World :=
  { bad := if addr ∈ w.bad then w.bad else addr :: w.bad,
    log := w.log ++ [Event.markBad addr] }

/-- Modelled from the spec: `markTrackerAsAlive` is declared in another file of
the package. The spec gives it as `markEligible(address)`: the address becomes
eligible, no other address changes. -/
def markTrackerAsAlive (w : World) (addr : String) : World :=
  { bad := w.bad.filter (fun a => decide (a ≠ addr)),
    log := w.log ++ [Event.markAlive addr] }

/-! ## Tracker selection -/

/-- `net.DialTimeout("tcp", addr, timeout)`: asks the oracle and records the
attempt. -/
def dialTimeout (env : Env) (w : World) (addr : String) : Except Error Conn × World :=
  (env.dial w.log addr,
    { w with log := w.log ++ [Event.dial addr (env.dial w.log addr).toBool] })

/-- State of the local variables of `getTrackerConnection` while the loops run:
either the function has returned from inside the loop, or the loop goes on with
the named results `conn` and `err` as last assigned. -/
inductive LoopState where
  | returned (conn : Option Conn) (err : Option Error) (m : MogileFsClient) (w : World)
  | running (conn : Option Conn) (err : Option Error) (m : MogileFsClient) (w : World)

/-- The inner loop `for _, host := range m.trackers` (lines 58-76), run over the
hosts still to visit. -/
def trackerLoop (env : Env) (ignoreBlacklist : Bool) :
    List String → Option Conn → Option Error → MogileFsClient → World → LoopState
  | [], conn, err, m, w => .running conn err m w
  | host :: rest, conn, err, m, w =>
    let m1 := { m with last_tracker := host }
    if ignoreBlacklist = false then
      let q := trackerIsBad w m1.last_tracker
      if q.1 = true then
        trackerLoop env ignoreBlacklist rest conn err m1 q.2
      else
        match dialTimeout env q.2 m1.last_tracker with
        | (.ok c, w2) =>
          let m2 := { m1 with localConn := some c, isInitialized := true, reconnectCounter := 0 }
          .returned m2.localConn none m2 w2
        | (.error e, w2) =>
          trackerLoop env ignoreBlacklist rest none (some e) m1 (markTrackerAsBad w2 m1.last_tracker)
    else
      match dialTimeout env w m1.last_tracker with
      | (.ok c, w2) =>
        let m2 := { m1 with localConn := some c, isInitialized := true, reconnectCounter := 0 }
        .returned m2.localConn none m2 w2
      | (.error e, w2) =>
        trackerLoop env ignoreBlacklist rest none (some e) m1 (markTrackerAsBad w2 m1.last_tracker)

/-- The outer loop `for _, ignoreBlacklist := range [2]bool{false, true}`
(lines 57-77). -/
def passLoop (env : Env) :
    List Bool → Option Conn → Option Error → MogileFsClient → World → LoopState
  | [], conn, err, m, w => .running conn err m w
  | ib :: rest, conn, err, m, w =>
    match trackerLoop env ib m.trackers conn err m w with
    | .returned c e m1 w1 => .returned c e m1 w1
    | .running c e m1 w1 => passLoop env rest c e m1 w1

/-- `MogileFsClient.getTrackerConnection` (lines 55-81). The result is the pair
`(conn, err)` with the client and the world after the call. -/
def getTrackerConnection (env : Env) (m : MogileFsClient) (w : World) :
    (Option Conn × Option Error) × MogileFsClient × World :=
  if m.isInitialized = false then
    match passLoop env [false, true] none none m w with
    | .returned c e m1 w1 => ((c, e), m1, w1)
    | .running _ _ m1 w1 => ((m1.localConn, none), m1, w1)
  else
    ((m.localConn, none), m, w)

/-- `MogileFsClient.returnTrackerConnection` (lines 92-99). The connection
argument is not used: the `conn.Close()` call is commented out. -/
def returnTrackerConnection (m : MogileFsClient) (w : World) (_conn : Option Conn)
    (hadError : Bool) : MogileFsClient × World :=
  if hadError = true then
    (m, markTrackerAsBad w m.last_tracker)
  else
    (m, markTrackerAsAlive w m.last_tracker)

/-! ## net/url: query escaping -/

/-- `shouldEscape(c, encodeQueryComponent)`: everything is escaped except the
unreserved characters, that is letters, digits and the marks - _ . ~ -/
def shouldEscape (c : Byte) : Bool :=
  if (97 ≤ c.val ∧ c.val ≤ 122) ∨ (65 ≤ c.val ∧ c.val ≤ 90) ∨ (48 ≤ c.val ∧ c.val ≤ 57) then false
  else if c = 45 ∨ c = 95 ∨ c = 46 ∨ c = 126 then false
  else true

/-- `upperhex[n]` for the table "0123456789ABCDEF". -/
def upperhex (n : Nat) : Byte :=
  if n < 10 then Fin.ofNat (48 + n) else Fin.ofNat (55 + n)

/-- `url.QueryEscape`: a space becomes +, any other byte that must be escaped
becomes % followed by its two upper-case hex digits (`c>>4` and `c&15`). -/
def QueryEscape : Str → Str
  | [] => []
  | c :: rest =>
    if c = 32 then 43 :: QueryEscape rest
    else if shouldEscape c = true then
      37 :: upperhex (c.val >>> 4) :: upperhex (c.val &&& 15) :: QueryEscape rest
    else c :: QueryEscape rest

/-- `ishex`. -/
def ishex (c : Byte) : Bool :=
  if 48 ≤ c.val ∧ c.val ≤ 57 then true
  else if 97 ≤ c.val ∧ c.val ≤ 102 then true
  else if 65 ≤ c.val ∧ c.val ≤ 70 then true
  else false

/-- `unhex`. -/
def unhex (c : Byte) : Nat :=
  if 48 ≤ c.val ∧ c.val ≤ 57 then c.val - 48
  else if 97 ≤ c.val ∧ c.val ≤ 102 then c.val - 97 + 10
  else if 65 ≤ c.val ∧ c.val ≤ 70 then c.val - 65 + 10
  else 0

/-- `url.QueryUnescape`. The Go code validates in a first pass and decodes in a
second; the first pass reports the leftmost % that is not followed by two hex
digits, as `EscapeError` of at most three bytes starting there. Here validation
and decoding go left to right together, which gives the same result. -/
def QueryUnescape : Str → Except Error Str
  | [] => .ok []
  | c :: rest =>
    if c = 37 then
      match rest with
      | h1 :: h2 :: rest2 =>
        if ishex h1 = true ∧ ishex h2 = true then
          match QueryUnescape rest2 with
          | .ok t => .ok (Fin.ofNat ((unhex h1 <<< 4) ||| unhex h2) :: t)
          | .error e => .error e
        else .error (Error.escape ((c :: rest).take 3))
      | _ => .error (Error.escape ((c :: rest).take 3))
    else if c = 43 then
      match QueryUnescape rest with
      | .ok t => .ok (32 :: t)
      | .error e => .error e
    else
      match QueryUnescape rest with
      | .ok t => .ok (c :: t)
      | .error e => .error e

/-! ## net/url: Values -/

/-- `url.Values`, a Go `map[string][]string`: an association list whose keys are
pairwise distinct (`Values.WF`); the order of the entries carries no meaning. -/
abbrev Values := List (Str × List Str)

/-- The keys of a map are pairwise distinct. -/
def Values.WF (m : Values) : Prop := (m.map Prod.fst).Nodup

/-- Map lookup with presence: `vs, ok := m[k]`. -/
def Values.find (m : Values) (k : Str) : Option (List Str) :=
  match m with
  | [] => none
  | (k1, vs) :: rest => if k1 = k then some vs else Values.find rest k

/-- Map lookup `m[k]`: the nil slice for an absent key. -/
def Values.get (m : Values) (k : Str) : List Str := (Values.find m k).getD []

/-- The statement `m[k] = append(m[k], v)`. -/
def Values.add (m : Values) (k v : Str) : Values :=
  match m with
  | [] => [(k, [v])]
  | (k1, vs) :: rest => if k1 = k then (k1, vs ++ [v]) :: rest else (k1, vs) :: Values.add rest k v

/-- Byte-wise lexicographic order on Go strings (`a <= b`). -/
def strLe : Str → Str → Bool
  | [], _ => true
  | _ :: _, [] => false
  | a :: as, b :: bs => if a < b then true else if b < a then false else strLe as bs

/-- The sorted key list of a map. -/
def sortedKeys (v : Values) : List Str :=
  (v.map Prod.fst).insertionSort (fun a b => strLe a b = true)

/-- The inner loop of `Values.Encode` over the values of one key. -/
def encodeVals (keyEscaped : Str) : List Str → Str → Str
  | [], buf => buf
  | v :: vs, buf =>
    let buf1 := if buf.length > 0 then buf ++ [38] else buf
    encodeVals keyEscaped vs (buf1 ++ keyEscaped ++ [61] ++ QueryEscape v)

/-- The outer loop of `Values.Encode` over the sorted keys. -/
def encodeKeys (v : Values) : List Str → Str → Str
  | [], buf => buf
  | k :: ks, buf => encodeKeys v ks (encodeVals (QueryEscape k) (Values.get v k) buf)

/-- `url.Values.Encode`: "key=value" pairs joined by &, keys sorted. -/
def Encode (v : Values) : Str :=
  if v.length = 0 then [] else encodeKeys v (sortedKeys v) []

/-- `strings.Cut(s, sep)` for a one-byte separator, without the found flag. -/
def cut (sep : Byte) : Str → Str × Str
  | [] => ([], [])
  | c :: rest => if c = sep then ([], rest) else ((c :: (cut sep rest).1), (cut sep rest).2)

/-- The body of the loop of `parseQuery` for one piece `key` cut off the query:
the map and the error after it. A piece holding a semicolon is rejected (Go
1.17 and later), an empty piece is skipped, a piece whose key or value does not
unescape is dropped and the first such error kept. -/
def parsePiece (m : Values) (err : Option Error) (key : Str) : Values × Option Error :=
  if (59 : Byte) ∈ key then
    (m, some (Error.text (lit "invalid semicolon separator in query")))
  else if key = [] then (m, err)
  else
    match QueryUnescape (cut 61 key).1 with
    | .error e1 => (m, if err = none then some e1 else err)
    | .ok k =>
      match QueryUnescape (cut 61 key).2 with
      | .error e1 => (m, if err = none then some e1 else err)
      | .ok v => (Values.add m k v, err)

/-- The loop `for query != ""` of `parseQuery`. Each round cuts a piece off the
query, so `fuel` rounds are enough once `fuel` is at least the length of the
query. -/
def parseQueryLoop : Nat → Values → Option Error → Str → Values × Option Error
  | 0, m, err, _ => (m, err)
  | fuel + 1, m, err, query =>
    if query = [] then (m, err)
    else
      let r := parsePiece m err (cut 38 query).1
      parseQueryLoop fuel r.1 r.2 (cut 38 query).2

/-- `defaultMaxParams` of net/url: the largest number of query parameters
`parseQuery` accepts. -/
def defaultMaxParams : Nat := 10000

/-- `urlParamsWithinMax(params)`, with the `urlmaxqueryparams` setting of the
process left unset. -/
def urlParamsWithinMax (params : Nat) : Bool := decide (params ≤ defaultMaxParams)

/-- `url.ParseQuery`: always a non-nil map, with the error met, if any.
`parseQuery` first counts the parameters, `strings.Count(query, "&") + 1`, and
gives up with an error and the map still empty when they exceed the limit. -/
def ParseQuery (query : Str) : Values × Option Error :=
  if urlParamsWithinMax (query.count 38 + 1) = true then
    parseQueryLoop query.length [] none query
  else ([], some (Error.text (lit "number of URL query parameters exceeded limit")))

/-! ## The request codec -/

/-- The pattern `^OK (.*)\r\n$` of `reMogileOk`: the first submatch of
`FindAllStringSubmatch(s, 1)`, or `none` when the result is nil. Both anchors
are text anchors and the dot matches every byte but the line feed, so the line
matches when it is "OK ", then bytes without line feed, then "\r\n" at the very
end. -/
def reMogileOk (s : Str) : Option Str :=
  match s with
  | 79 :: 75 :: 32 :: rest =>
    if 2 ≤ rest.length ∧ rest.drop (rest.length - 2) = [13, 10]
        ∧ (10 : Byte) ∉ rest.take (rest.length - 2) then
      some (rest.take (rest.length - 2))
    else none
  | _ => none

/-- The class `\s` of Go regular expressions: tab, line feed, form feed,
carriage return and space. -/
def isSpaceClass (c : Byte) : Bool :=
  decide (c = 9 ∨ c = 10 ∨ c = 12 ∨ c = 13 ∨ c = 32)

/-- The pattern `^ERR (\S+) ` of `reMogileFail`: the first submatch of
`FindAllStringSubmatch(s, 1)`, or `none` when the result is nil. The line
matches when it starts with "ERR ", then a longest non-empty run of bytes
outside `\s`, then a space; a shorter run cannot be followed by a space. -/
def reMogileFail (s : Str) : Option Str :=
  match s with
  | 69 :: 82 :: 82 :: 32 :: rest =>
    match rest.takeWhile (fun c => !isSpaceClass c), rest.dropWhile (fun c => !isSpaceClass c) with
    | _ :: _, 32 :: _ => some (rest.takeWhile (fun c => !isSpaceClass c))
    | _, _ => none
  | _ => none

/-- `bufio.Reader.ReadString(delim)` on a fresh reader over a stream that
delivers `data` and then ends with `endErr`: the bytes up to and including the
first delimiter and a nil error, or all the bytes and the error when no
delimiter arrives. -/
def readString (delim : Byte) : Str → Error → Str × Option Error
  | [], endErr => ([], some endErr)
  | c :: rest, endErr =>
    if c = delim then ([c], none)
    else ((c :: (readString delim rest endErr).1), (readString delim rest endErr).2)

/-- The classification of the reply, lines 130-147 of `DoRequest`: from the
reply and the values of `values` and `err` so far to `values`, `err` and
`blame_tracker`. -/
def classifyReply (tracker_reply : Str) (values : Option Values) (err : Option Error)
    (blame_tracker : Bool) : Option Values × Option Error × Bool :=
  if tracker_reply.length > 0 then
    match reMogileOk tracker_reply with
    | none =>
      match reMogileFail tracker_reply with
      | none => (values, some (Error.text (lit "internal:invalid tracker reply")), blame_tracker)
      | some tok => (values, some (Error.text (lit "mogilefsd:" ++ tok)), false)
    | some payload =>
      (some (ParseQuery payload).1, (ParseQuery payload).2, false)
  else (values, err, blame_tracker)

/-- The exchange on the connection, lines 122-128 of `DoRequest`, entered with
a nil `err`: the write and, when it succeeds, the one-line read. The result is
`tracker_reply` and `err`. A nil connection panics at the `Write` call. -/
def exchange (env : Env) (w : World) (tracker_conn : Option Conn) (command : Str) :
    Outcome ((Str × Option Error) × World) :=
  match tracker_conn with
  | none => .panic
  | some c =>
    let w1 : World := { w with log := w.log ++ [Event.write c command] }
    match env.write w.log c command with
    | some e => .ret (([], some e), w1)
    | none =>
      let w2 : World := { w1 with log := w1.log ++ [Event.read c] }
      .ret (readString 10 (env.recv w1.log c).1 (env.recv w1.log c).2, w2)

/-- The request line built at line 115:
`command += " " + args.Encode() + "\r\n"`. -/
def requestLine (command : Str) (args : Values) : Str :=
  command ++ lit " " ++ Encode args ++ lit "\r\n"

/-- `MogileFsClient.DoRequest` (lines 111-152): the returned pair
`(values, err)`, or a panic, with the client and the world after the call. -/
def DoRequest (env : Env) (m : MogileFsClient) (w : World) (command : Str) (args : Values) :
    Outcome (Option Values × Option Error) × MogileFsClient × World :=
  let command1 := requestLine command args
  let g := getTrackerConnection env m w
  let tracker_conn := g.1.1
  let m1 := g.2.1
  let w1 := g.2.2
  match g.1.2 with
  | some e =>
    let c := classifyReply [] none (some e) true
    let r := returnTrackerConnection m1 w1 tracker_conn c.2.2
    (.ret (c.1, c.2.1), r.1, r.2)
  | none =>
    match exchange env w1 tracker_conn command1 with
    | .panic => (.panic, m1, w1)
    | .ret (rd, w2) =>
      let c := classifyReply rd.1 none rd.2 true
      let r := returnTrackerConnection m1 w2 tracker_conn c.2.2
      (.ret (c.1, c.2.1), r.1, r.2)

/-! ## The reply payload in the words of the spec -/

/-- The pieces of a string between occurrences of a separator byte. -/
def pieces (sep : Byte) : Str → List Str
  | [] => [[]]
  | c :: rest =>
    if c = sep then [] :: pieces sep rest
    else
      match pieces sep rest with
      | [] => [[c]]
      | p :: ps => (c :: p) :: ps

/-- Every percent sign is followed by two hexadecimal digits. -/
def validEscapes : Str → Bool
  | [] => true
  | c :: rest =>
    if c = 37 then
      match rest with
      | h1 :: h2 :: rest2 => ishex h1 && ishex h2 && validEscapes rest2
      | _ => false
    else validEscapes rest

/-- The value of a hexadecimal digit. -/
def hexValue (c : Byte) : Nat :=
  if 48 ≤ c.val ∧ c.val ≤ 57 then c.val - 48
  else if 97 ≤ c.val ∧ c.val ≤ 102 then c.val - 87
  else c.val - 55

/-- Percent-decoding of a query component: %XY is the byte with hexadecimal
digits X and Y, + is a space, every other byte stands for itself. -/
def pctDecode : Str → Str
  | [] => []
  | c :: h1 :: h2 :: rest2 =>
    if c = 37 then Fin.ofNat (16 * hexValue h1 + hexValue h2) :: pctDecode rest2
    else (if c = 43 then 32 else c) :: pctDecode (h1 :: h2 :: rest2)
  | c :: rest => (if c = 43 then 32 else c) :: pctDecode rest

/-- A well-formed query string: no semicolon, and every percent sign followed
by two hexadecimal digits. -/
def wellFormedQuery (p : Str) : Prop := (59 : Byte) ∉ p ∧ validEscapes p = true

/-- The key/value pairs of a query string in the order they occur: the
non-empty pieces between ampersands, each split at its first equals sign (the
value is empty when there is none), both sides percent-decoded. -/
def queryPairs (p : Str) : List (Str × Str) :=
  ((pieces 38 p).filter (fun s => decide (s ≠ []))).map
    (fun s => (pctDecode (cut 61 s).1, pctDecode (cut 61 s).2))

/-- The values a list of pairs gives to key `k`, in order. -/
def valuesOf (pairs : List (Str × Str)) (k : Str) : List Str :=
  (pairs.filter (fun q => decide (q.1 = k))).map Prod.snd

/-- The (key, value) pairs of a map in the order `Encode` writes them when it
visits the keys `ks`. -/
def pairsOf (v : Values) (ks : List Str) : List (Str × Str) :=
  ks.flatMap (fun k => (Values.get v k).map (fun x => (k, x)))

/-- One step of the string builder in `Encode`: an ampersand unless the
buffer is empty, then the item. -/
def appendItem (buf item : Str) : Str :=
  (if buf.length > 0 then buf ++ [38] else buf) ++ item

/-- The text `Encode` writes for one pair. -/
def encPair (q : Str × Str) : Str := QueryEscape q.1 ++ 61 :: QueryEscape q.2

/-! ## Teardown and event kinds -/

/-- `MogileFsClient.Destroy` (lines 84-86): `m.localConn.Close()`. The error
returned by `Close` is dropped; on a nil connection the call panics. -/
def Destroy (m : MogileFsClient) (w : World) : Outcome Unit × MogileFsClient × World :=
  match m.localConn with
  | none => (.panic, m, w)
  | some c => (.ret (), m, { w with log := w.log ++ [Event.close c] })

/-- The events tracker selection can record: health queries, connect attempts
and blacklistings. -/
def Event.isSelection : Event → Bool
  | .isBad _ _ => true
  | .dial _ _ => true
  | .markBad _ => true
  | _ => false

/-- Connect attempts. -/
def Event.isDial : Event → Bool
  | .dial _ _ => true
  | _ => false

/-- The number of connect attempts in a stretch of history. -/
def dialCount (evs : List Event) : Nat := (evs.filter Event.isDial).length

/-- The last element of a list, or `d` for the empty list. -/
def lastOr (d : String) : List String → String
  | [] => d
  | a :: rest => lastOr a rest

/-- The world a loop state carries. -/
def LoopState.world : LoopState → World
  | .returned _ _ _ w => w
  | .running _ _ _ w => w

/-- What one run of the inner loop over `hosts`, started on client `m` in world
`w`, has done when it ends in state `r` having recorded the events `evs`. -/
def SelectionFacts (env : Env) (ib : Bool) (hosts : List String) (m : MogileFsClient)
    (w : World) (r : LoopState) (evs : List Event) : Prop :=
  r.world.log = w.log ++ evs
    ∧ (∀ e ∈ evs, Event.isSelection e = true)
    ∧ dialCount evs ≤ hosts.length
    ∧ (∀ a, a ∈ r.world.bad ↔ a ∈ w.bad ∨ Event.markBad a ∈ evs)
    ∧ (∀ a, Event.markBad a ∈ evs → a ∈ hosts ∧ ∃ l, (env.dial l a).toBool = false)
    ∧ match r with
      | .returned c1 e1 m1 _ =>
        ∃ t c l, t ∈ hosts ∧ env.dial l t = .ok c ∧ c1 = some c ∧ e1 = none
          ∧ m1 = { m with last_tracker := t, localConn := some c, isInitialized := true,
                          reconnectCounter := 0 }
      | .running _ _ m1 w1 =>
        m1 = { m with last_tracker := lastOr m.last_tracker hosts }
          ∧ (∀ a ∈ hosts, a ∈ w1.bad)
          ∧ (ib = true → ∀ a ∈ hosts,
              Event.dial a false ∈ evs ∧ ∃ l, (env.dial l a).toBool = false)

/-! ## Sample clients and networks -/

/-- A network on which every connect attempt is refused. -/
def envAllDown : Env where
  dial := fun _ _ => .error (Error.net 111)
  write := fun _ _ _ => none
  recv := fun _ _ => ([], Error.net 0)

/-- A fresh client over two trackers. -/
def clientTwo : MogileFsClient where
  trackers := ["10.0.0.1:7001", "10.0.0.2:7001"]
  last_tracker := ""
  localConn := none
  isInitialized := false
  reconnectCounter := 0
  dial_timeout := 5

/-- A fresh client over three trackers. -/
def clientThree : MogileFsClient where
  trackers := ["10.0.0.1:7001", "10.0.0.2:7001", "10.0.0.3:7001"]
  last_tracker := ""
  localConn := none
  isInitialized := false
  reconnectCounter := 0
  dial_timeout := 5

/-- The world before anything happened. -/
def world0 : World where
  bad := []
  log := []

/-- Reachability in which only the third tracker accepts. -/
def reachThird (a : String) : Except Error Conn :=
  if a = "10.0.0.3:7001" then .ok { addr := a, id := 1 } else .error (Error.net 111)

/-- A network with a fixed reachability assignment, a peer that accepts every
write and sends `reply` before closing with end-of-stream (`Error.net 0`). -/
def envFixed (reach : String → Except Error Conn) (reply : Str) : Env where
  dial := fun _ a => reach a
  write := fun _ _ _ => none
  recv := fun _ _ => (reply, Error.net 0)

/-- A client bound to a connection by an earlier acquisition. -/
def clientBound : MogileFsClient where
  trackers := ["10.0.0.1:7001", "10.0.0.2:7001"]
  last_tracker := "10.0.0.2:7001"
  localConn := some { addr := "10.0.0.2:7001", id := 7 }
  isInitialized := true
  reconnectCounter := 0
  dial_timeout := 5

/-- Reachability in which every tracker accepts. -/
def reachAll (a : String) : Except Error Conn := .ok { addr := a, id := 1 }

/-- A network on which every connect is accepted and every write fails. -/
def envWriteFails : Env where
  dial := fun _ a => reachAll a
  write := fun _ _ _ => some (Error.net 32)
  recv := fun _ _ => ([], Error.net 0)

/-- Strings joined by a separator byte. -/
def joinWith (sep : Byte) : List Str → Str
  | [] => []
  | [s] => s
  | s :: rest => s ++ sep :: joinWith sep rest

/-- A map whose only value holds a space and a line break followed by text
that looks like a second command. -/
def argsInjection : Values := [(lit "key", [lit "a b\r\ndelete domain=x"])]

/-- A map with two keys, and the same map with its entries the other way
round. -/
def argsTwo : Values := [(lit "key", [lit "k 1"]), (lit "domain", [lit "d"])]

/-- The map `argsTwo` listed in the other order. -/
def argsTwoSwapped : Values := [(lit "domain", [lit "d"]), (lit "key", [lit "k 1"])]

/-- The number of key=value pairs of a map: the total number of values. -/
def pairCount (v : Values) : Nat := (v.map (fun e => e.2.length)).sum

/-- A payload of ten thousand ampersands: ten thousand and one empty pieces. -/
def manyAmpersands : Str := List.replicate 10000 38

/-- A map with one key and ten thousand and one values. -/
def manyValues : Values := [(lit "a", List.replicate 10001 (lit "1"))]

/-! ## Tracker selection: lemmas -/

theorem mem_markTrackerAsBad (w : World) (a b : String) :
    b ∈ (markTrackerAsBad w a).bad ↔ b = a ∨ b ∈ w.bad := by
  unfold markTrackerAsBad
  by_cases h : a ∈ w.bad
  · simp only [h, if_true]
    constructor
    · intro hb; exact Or.inr hb
    · rintro (rfl | hb)
      · exact h
      · exact hb
  · simp only [h, if_false, List.mem_cons]

theorem trackerLoop_nil (env : Env) (ib : Bool) (conn : Option Conn) (err : Option Error)
    (m : MogileFsClient) (w : World) :
    trackerLoop env ib [] conn err m w = .running conn err m w := rfl

/-- First pass, blacklisted host: skipped after the health query. -/
theorem trackerLoop_skip (env : Env) (host : String) (rest : List String) (conn : Option Conn)
    (err : Option Error) (m : MogileFsClient) (w : World) (h : host ∈ w.bad) :
    trackerLoop env false (host :: rest) conn err m w =
      trackerLoop env false rest conn err { m with last_tracker := host }
        { w with log := w.log ++ [Event.isBad host true] } := by
  simp [trackerLoop, trackerIsBad, h]

/-- First pass, eligible host that accepts. -/
theorem trackerLoop_pass1_ok (env : Env) (host : String) (rest : List String)
    (conn : Option Conn) (err : Option Error) (m : MogileFsClient) (w : World) (c : Conn)
    (h : host ∉ w.bad) (hd : env.dial (w.log ++ [Event.isBad host false]) host = .ok c) :
    trackerLoop env false (host :: rest) conn err m w =
      .returned (some c) none
        { m with last_tracker := host, localConn := some c, isInitialized := true,
                 reconnectCounter := 0 }
        { w with log := w.log ++ [Event.isBad host false, Event.dial host true] } := by
  simp [trackerLoop, trackerIsBad, h, dialTimeout, hd, Except.toBool]

/-- First pass, eligible host that refuses. -/
theorem trackerLoop_pass1_fail (env : Env) (host : String) (rest : List String)
    (conn : Option Conn) (err : Option Error) (m : MogileFsClient) (w : World) (e : Error)
    (h : host ∉ w.bad) (hd : env.dial (w.log ++ [Event.isBad host false]) host = .error e) :
    trackerLoop env false (host :: rest) conn err m w =
      trackerLoop env false rest none (some e) { m with last_tracker := host }
        { bad := host :: w.bad,
          log := w.log ++ [Event.isBad host false, Event.dial host false, Event.markBad host] } := by
  simp [trackerLoop, trackerIsBad, h, dialTimeout, hd, Except.toBool, markTrackerAsBad]

/-- Second pass, host that accepts. -/
theorem trackerLoop_pass2_ok (env : Env) (host : String) (rest : List String)
    (conn : Option Conn) (err : Option Error) (m : MogileFsClient) (w : World) (c : Conn)
    (hd : env.dial w.log host = .ok c) :
    trackerLoop env true (host :: rest) conn err m w =
      .returned (some c) none
        { m with last_tracker := host, localConn := some c, isInitialized := true,
                 reconnectCounter := 0 }
        { w with log := w.log ++ [Event.dial host true] } := by
  simp [trackerLoop, dialTimeout, hd, Except.toBool]

/-- Second pass, host that refuses. -/
theorem trackerLoop_pass2_fail (env : Env) (host : String) (rest : List String)
    (conn : Option Conn) (err : Option Error) (m : MogileFsClient) (w : World) (e : Error)
    (hd : env.dial w.log host = .error e) :
    trackerLoop env true (host :: rest) conn err m w =
      trackerLoop env true rest none (some e) { m with last_tracker := host }
        { bad := if host ∈ w.bad then w.bad else host :: w.bad,
          log := w.log ++ [Event.dial host false, Event.markBad host] } := by
  simp [trackerLoop, dialTimeout, hd, Except.toBool, markTrackerAsBad]

/-- First pass over a list whose first reachable address is not blacklisted:
the loop returns from inside with the connection to that address, the
blacklist has grown by the addresses before it, and the blacklisting calls made
are on addresses before it, on each of them that was not blacklisted already. -/
theorem trackerLoop_first_reachable (env : Env) (reach : String → Except Error Conn)
    (henv : ∀ l a, env.dial l a = reach a) (t : String) (c : Conn) (post : List String)
    (ht : reach t = .ok c) :
    ∀ (pre : List String) (conn : Option Conn) (err : Option Error) (m : MogileFsClient)
      (w : World), (∀ a ∈ pre, ∃ e, reach a = .error e) → t ∉ w.bad →
      ∃ w1 evs, trackerLoop env false (pre ++ t :: post) conn err m w =
          .returned (some c) none
            { m with last_tracker := t, localConn := some c, isInitialized := true,
                     reconnectCounter := 0 } w1
        ∧ w1.log = w.log ++ evs
        ∧ (∀ a, a ∈ w1.bad ↔ a ∈ w.bad ∨ a ∈ pre)
        ∧ (∀ a, Event.markBad a ∈ evs → a ∈ pre)
        ∧ (∀ a ∈ pre, a ∉ w.bad → Event.markBad a ∈ evs) := by
  intro pre
  induction pre with
  | nil =>
    intro conn err m w _ htb
    refine ⟨_, [Event.isBad t false, Event.dial t true],
      trackerLoop_pass1_ok env t post conn err m w c htb ((henv _ _).trans ht), rfl, ?_, ?_, ?_⟩
    · intro a; simp
    · intro a ha; simp at ha
    · intro a ha; cases ha
  | cons x pre ih =>
    intro conn err m w hpre htb
    obtain ⟨e, hx⟩ := hpre x (List.mem_cons_self _ _)
    have hpre2 : ∀ a ∈ pre, ∃ e, reach a = .error e :=
      fun a ha => hpre a (List.mem_cons_of_mem _ ha)
    have hxt : t ≠ x := by
      intro h; rw [h, hx] at ht; cases ht
    by_cases hxb : x ∈ w.bad
    · obtain ⟨w1, evs, h1, h2, h3, h4, h5⟩ := ih conn err { m with last_tracker := x }
        { w with log := w.log ++ [Event.isBad x true] } hpre2 htb
      refine ⟨w1, Event.isBad x true :: evs, ?_, ?_, ?_, ?_, ?_⟩
      · rw [List.cons_append, trackerLoop_skip env x _ conn err m w hxb]
        exact h1
      · rw [h2]; simp
      · intro a
        rw [h3 a]
        simp only [List.mem_cons]
        constructor
        · rintro (h | h)
          · exact Or.inl h
          · exact Or.inr (Or.inr h)
        · rintro (h | h | h)
          · exact Or.inl h
          · exact Or.inl (h ▸ hxb)
          · exact Or.inr h
      · intro a ha
        rcases List.mem_cons.1 ha with h | h
        · cases h
        · exact List.mem_cons_of_mem _ (h4 a h)
      · intro a ha hab
        rcases List.mem_cons.1 ha with h | h
        · exact absurd (h ▸ hxb) hab
        · exact List.mem_cons_of_mem _ (h5 a h hab)
    · obtain ⟨w1, evs, h1, h2, h3, h4, h5⟩ := ih none (some e) { m with last_tracker := x }
        { bad := x :: w.bad,
          log := w.log ++ [Event.isBad x false, Event.dial x false, Event.markBad x] } hpre2
        (by
          simp only [List.mem_cons, not_or]
          exact ⟨hxt, htb⟩)
      refine ⟨w1, Event.isBad x false :: Event.dial x false :: Event.markBad x :: evs,
        ?_, ?_, ?_, ?_, ?_⟩
      · rw [List.cons_append,
          trackerLoop_pass1_fail env x _ conn err m w e hxb ((henv _ _).trans hx)]
        exact h1
      · rw [h2]; simp
      · intro a
        rw [h3 a]
        simp only [List.mem_cons]
        tauto
      · intro a ha
        simp only [List.mem_cons, Event.markBad.injEq] at ha
        rcases ha with h | h | h | h
        · cases h
        · cases h
        · exact h ▸ List.mem_cons_self _ _
        · exact List.mem_cons_of_mem _ (h4 a h)
      · intro a ha hab
        by_cases hax : a = x
        · subst hax
          simp
        · rcases List.mem_cons.1 ha with h | h
          · exact absurd h hax
          · have : Event.markBad a ∈ evs := h5 a h (by
              simp only [List.mem_cons, not_or]
              exact ⟨hax, hab⟩)
            simp [this]

/-! ## Tracker selection: the claims -/

/-- C1 (code evaluated at the failing input): on a fresh client over two
trackers that both refuse the connection, `getTrackerConnection` attempts both,
blacklists both, and returns a nil connection together with a nil error: the
error of the last connect attempt is dropped by the final
`return m.localConn, nil`. -/
theorem getTrackerConnection_all_down_nil_error :
    getTrackerConnection envAllDown clientTwo world0 =
      ((none, none),
       { clientTwo with last_tracker := "10.0.0.2:7001" },
       { bad := ["10.0.0.2:7001", "10.0.0.1:7001"],
         log := [Event.isBad "10.0.0.1:7001" false, Event.dial "10.0.0.1:7001" false,
                 Event.markBad "10.0.0.1:7001",
                 Event.isBad "10.0.0.2:7001" false, Event.dial "10.0.0.2:7001" false,
                 Event.markBad "10.0.0.2:7001",
                 Event.dial "10.0.0.1:7001" false, Event.markBad "10.0.0.1:7001",
                 Event.dial "10.0.0.2:7001" false, Event.markBad "10.0.0.2:7001"] }) := by
  decide

/-- C2 (code evaluated at the failing input): on a fresh client whose trackers
all refuse the connection, `DoRequest` does not return an error: acquisition
hands back a nil connection with a nil error, so the `Write` call is made on the
nil connection and panics. No release call is made: the history ends with the
last failed connect attempt and its blacklisting. -/
theorem DoRequest_all_down_panics :
    DoRequest envAllDown clientTwo world0 (lit "get_paths") [(lit "key", [lit "k1"])] =
      (Outcome.panic,
       { clientTwo with last_tracker := "10.0.0.2:7001" },
       { bad := ["10.0.0.2:7001", "10.0.0.1:7001"],
         log := [Event.isBad "10.0.0.1:7001" false, Event.dial "10.0.0.1:7001" false,
                 Event.markBad "10.0.0.1:7001",
                 Event.isBad "10.0.0.2:7001" false, Event.dial "10.0.0.2:7001" false,
                 Event.markBad "10.0.0.2:7001",
                 Event.dial "10.0.0.1:7001" false, Event.markBad "10.0.0.1:7001",
                 Event.dial "10.0.0.2:7001" false, Event.markBad "10.0.0.2:7001"] }) := by
  rfl

/-- C9: on a client that is not initialized and whose tracker list holds no
blacklisted address, under a fixed reachability assignment in which `t` is the
first reachable address of the list (`pre` before it all refuse),
`getTrackerConnection` returns the connection to `t` with a nil error and
records `t` as last tracker; the addresses it adds to the blacklist are exactly
those of `pre`, and so are the addresses on which it calls
`markTrackerAsBad`. -/
theorem getTrackerConnection_first_reachable (env : Env) (reach : String → Except Error Conn)
    (m : MogileFsClient) (w : World) (pre post : List String) (t : String) (c : Conn)
    (hinit : m.isInitialized = false)
    (hbad : ∀ a ∈ m.trackers, a ∉ w.bad)
    (henv : ∀ l a, env.dial l a = reach a)
    (hsplit : m.trackers = pre ++ t :: post)
    (hpre : ∀ a ∈ pre, (reach a).toBool = false)
    (ht : reach t = .ok c) :
    (getTrackerConnection env m w).1 = (some c, none)
      ∧ (getTrackerConnection env m w).2.1 =
          { m with last_tracker := t, localConn := some c, isInitialized := true,
                   reconnectCounter := 0 }
      ∧ (∀ a, (a ∈ (getTrackerConnection env m w).2.2.bad ∧ a ∉ w.bad) ↔ a ∈ pre)
      ∧ ∃ evs, (getTrackerConnection env m w).2.2.log = w.log ++ evs
          ∧ ∀ a, Event.markBad a ∈ evs ↔ a ∈ pre := by
  have hpre2 : ∀ a ∈ pre, ∃ e, reach a = .error e := by
    intro a ha
    have h := hpre a ha
    cases hr : reach a with
    | error e => exact ⟨e, rfl⟩
    | ok c2 => rw [hr] at h; cases h
  have htb : t ∉ w.bad := hbad t (by rw [hsplit]; simp)
  have hpb : ∀ a ∈ pre, a ∉ w.bad := fun a ha => hbad a (by rw [hsplit]; simp [ha])
  obtain ⟨w1, evs, h1, h2, h3, h4, h5⟩ :=
    trackerLoop_first_reachable env reach henv t c post ht pre none none m w hpre2 htb
  have hg : getTrackerConnection env m w =
      ((some c, none),
        { m with last_tracker := t, localConn := some c, isInitialized := true,
                 reconnectCounter := 0 }, w1) := by
    have h1b := h1
    rw [← hsplit] at h1b
    simp only [getTrackerConnection, hinit, if_true, passLoop, h1b]
  rw [hg]
  refine ⟨rfl, rfl, ?_, evs, h2, fun a => ⟨h4 a, fun ha => h5 a ha (hpb a ha)⟩⟩
  intro a
  simp only
  rw [h3 a]
  constructor
  · rintro ⟨h | h, hn⟩
    · exact absurd h hn
    · exact h
  · intro h
    exact ⟨Or.inr h, hpb a h⟩

/-- C9 at the example of the spec: three trackers, the first two refuse, the
third accepts. -/
theorem getTrackerConnection_first_reachable_witness :
    (getTrackerConnection (envFixed reachThird []) clientThree world0).1
        = (some { addr := "10.0.0.3:7001", id := 1 }, none)
      ∧ (getTrackerConnection (envFixed reachThird []) clientThree world0).2.1 =
          { clientThree with last_tracker := "10.0.0.3:7001",
                             localConn := some { addr := "10.0.0.3:7001", id := 1 },
                             isInitialized := true, reconnectCounter := 0 }
      ∧ (∀ a, (a ∈ (getTrackerConnection (envFixed reachThird []) clientThree world0).2.2.bad
            ∧ a ∉ world0.bad) ↔ a ∈ ["10.0.0.1:7001", "10.0.0.2:7001"])
      ∧ ∃ evs, (getTrackerConnection (envFixed reachThird []) clientThree world0).2.2.log
            = world0.log ++ evs
          ∧ ∀ a, Event.markBad a ∈ evs ↔ a ∈ ["10.0.0.1:7001", "10.0.0.2:7001"] :=
  getTrackerConnection_first_reachable (envFixed reachThird []) reachThird clientThree world0
    ["10.0.0.1:7001", "10.0.0.2:7001"] [] "10.0.0.3:7001" { addr := "10.0.0.3:7001", id := 1 }
    (by decide) (by decide) (fun _ _ => rfl) (by decide) (by decide) rfl

/-- C10: on a client marked initialized, `getTrackerConnection` returns the
stored connection with a nil error and leaves the client, the tracker health
state and the event history exactly as they were: no connect attempt, no health
query, no health change, whatever the blacklist holds. -/
theorem getTrackerConnection_initialized (env : Env) (m : MogileFsClient) (w : World)
    (hinit : m.isInitialized = true) :
    getTrackerConnection env m w = ((m.localConn, none), m, w) := by
  simp [getTrackerConnection, hinit]

/-- C10 on a bound client whose own tracker is blacklisted meanwhile. -/
theorem getTrackerConnection_initialized_witness :
    getTrackerConnection envAllDown clientBound { bad := ["10.0.0.2:7001"], log := [] }
      = ((some { addr := "10.0.0.2:7001", id := 7 }, none), clientBound,
         { bad := ["10.0.0.2:7001"], log := [] }) :=
  getTrackerConnection_initialized envAllDown clientBound
    { bad := ["10.0.0.2:7001"], log := [] } (by decide)

/-! ## Request codec: lemmas -/

/-- What `DoRequest` does once acquisition has handed out a connection. -/
theorem DoRequest_of_conn (env : Env) (m m1 : MogileFsClient) (w w1 : World) (command : Str)
    (args : Values) (c : Conn)
    (hg : getTrackerConnection env m w = ((some c, none), m1, w1)) :
    DoRequest env m w command args =
      match env.write w1.log c (requestLine command args) with
      | some e =>
        (.ret (none, some e), m1,
          markTrackerAsBad
            { w1 with log := w1.log ++ [Event.write c (requestLine command args)] }
            m1.last_tracker)
      | none =>
        let rd := readString 10
          (env.recv (w1.log ++ [Event.write c (requestLine command args)]) c).1
          (env.recv (w1.log ++ [Event.write c (requestLine command args)]) c).2
        let cl := classifyReply rd.1 none rd.2 true
        (.ret (cl.1, cl.2.1),
          returnTrackerConnection m1
            { w1 with log := w1.log ++ [Event.write c (requestLine command args), Event.read c] }
            (some c) cl.2.2) := by
  simp only [DoRequest, hg, exchange]
  cases env.write w1.log c (requestLine command args) with
  | some e => simp [classifyReply, returnTrackerConnection]
  | none => simp

theorem readString_nil_err (d : Byte) (data : Str) (e : Error)
    (h : (readString d data e).1 = []) : (readString d data e).2 = some e := by
  cases data with
  | nil => rfl
  | cons c rest =>
    simp only [readString] at h
    split at h <;> simp at h

/-- A reply is classified by its bytes alone when it is not empty. -/
theorem reMogileOk_ERR (rest : Str) : reMogileOk (69 :: 82 :: 82 :: 32 :: rest) = none := by
  simp [reMogileOk]

theorem reMogileFail_token (tok rest : Str) (htok : tok ≠ [])
    (hns : ∀ b ∈ tok, isSpaceClass b = false) :
    reMogileFail (lit "ERR " ++ tok ++ 32 :: rest) = some tok := by
  have hlit : lit "ERR " = [69, 82, 82, 32] := by decide
  have htw : List.takeWhile (fun c => !isSpaceClass c) (tok ++ 32 :: rest) = tok := by
    rw [List.takeWhile_append_of_pos (by intro b hb; simp [hns b hb])]
    simp [List.takeWhile_cons, isSpaceClass]
  have hdw : List.dropWhile (fun c => !isSpaceClass c) (tok ++ 32 :: rest) = 32 :: rest := by
    rw [List.dropWhile_append_of_pos (by intro b hb; simp [hns b hb])]
    simp [List.dropWhile_cons, isSpaceClass]
  rw [hlit]
  simp only [List.cons_append, List.nil_append, reMogileFail, htw, hdw]
  cases tok with
  | nil => exact absurd rfl htok
  | cons a t => rfl

theorem reMogileOk_of_form (p : Str) (hp : (10 : Byte) ∉ p) :
    reMogileOk (79 :: 75 :: 32 :: (p ++ [13, 10])) = some p := by
  simp [reMogileOk, hp]

theorem reMogileOk_some (s p : Str) (h : reMogileOk s = some p) :
    s = 79 :: 75 :: 32 :: (p ++ [13, 10]) ∧ (10 : Byte) ∉ p := by
  unfold reMogileOk at h
  split at h
  · rename_i rest
    split at h
    · rename_i hc
      obtain ⟨h1, h2, h3⟩ := hc
      simp only [Option.some.injEq] at h
      subst h
      refine ⟨?_, h3⟩
      rw [← h2, List.take_append_drop]
    · cases h
  · cases h

theorem readString_no_delim (d : Byte) (data : Str) (e : Error) (h : d ∉ data) :
    readString d data e = (data, some e) := by
  induction data with
  | nil => rfl
  | cons c rest ih =>
    simp only [List.mem_cons, not_or] at h
    have hc : ¬ c = d := fun hcd => h.1 hcd.symm
    simp [readString, hc, ih h.2]

theorem reMogileOk_no_lf (s : Str) (h : (10 : Byte) ∉ s) : reMogileOk s = none := by
  cases hs : reMogileOk s with
  | none => rfl
  | some p =>
    exfalso
    obtain ⟨h1, _⟩ := reMogileOk_some s p hs
    apply h
    rw [h1]
    simp

theorem mem_markTrackerAsBad_self (w : World) (a : String) : a ∈ (markTrackerAsBad w a).bad :=
  (mem_markTrackerAsBad w a a).2 (Or.inl rfl)

theorem not_mem_markTrackerAsAlive_self (w : World) (a : String) :
    a ∉ (markTrackerAsAlive w a).bad := by
  simp [markTrackerAsAlive]

/-! ## Request codec: the claims -/

/-- C3 (counterexample): the peer sends "ERR x y" and closes the stream before
any line terminator. The read fails with end-of-stream (`Error.net 0`), yet
`DoRequest` returns the application error "mogilefsd:x" and the release call
marks the tracker alive: the transport error is not what the caller gets and
the tracker is not blacklisted. -/
theorem DoRequest_partial_read_counterexample :
    (DoRequest (envFixed reachAll (lit "ERR x y")) clientTwo world0 (lit "get_paths") []).1
        = .ret (none, some (Error.text (lit "mogilefsd:x")))
      ∧ readString 10 (lit "ERR x y") (Error.net 0) = (lit "ERR x y", some (Error.net 0))
      ∧ (DoRequest (envFixed reachAll (lit "ERR x y")) clientTwo world0 (lit "get_paths") []).2.2
        = { bad := [],
            log := [Event.isBad "10.0.0.1:7001" false, Event.dial "10.0.0.1:7001" true,
                    Event.write { addr := "10.0.0.1:7001", id := 1 } (lit "get_paths \r\n"),
                    Event.read { addr := "10.0.0.1:7001", id := 1 },
                    Event.markAlive "10.0.0.1:7001"] } := by
  refine ⟨by rfl, by rfl, by rfl⟩

/-- C3 (amended): once acquisition has handed out a connection, a failed write,
or a read that fails before any byte arrived, makes `DoRequest` return that
transport error with a nil mapping, and the release call blacklists the tracker
recorded as last tracker. A read that fails after some bytes arrived (no line
feed among them) is classified like a complete line: an application error
without blame when the bytes match the failure pattern, else the
invalid-reply error with blame. -/
theorem DoRequest_transport_error (env : Env) (m m1 : MogileFsClient) (w w1 : World)
    (command : Str) (args : Values) (c : Conn)
    (hg : getTrackerConnection env m w = ((some c, none), m1, w1)) :
    (∀ e, env.write w1.log c (requestLine command args) = some e →
      DoRequest env m w command args =
        (.ret (none, some e), m1,
          markTrackerAsBad
            { w1 with log := w1.log ++ [Event.write c (requestLine command args)] }
            m1.last_tracker))
    ∧ (∀ e, env.write w1.log c (requestLine command args) = none →
        env.recv (w1.log ++ [Event.write c (requestLine command args)]) c = ([], e) →
        DoRequest env m w command args =
          (.ret (none, some e), m1,
            markTrackerAsBad
              { w1 with log := w1.log ++ [Event.write c (requestLine command args), Event.read c] }
              m1.last_tracker))
    ∧ (∀ data e, env.write w1.log c (requestLine command args) = none →
        env.recv (w1.log ++ [Event.write c (requestLine command args)]) c = (data, e) →
        data ≠ [] → (10 : Byte) ∉ data →
        DoRequest env m w command args =
          match reMogileFail data with
          | some tok =>
            (.ret (none, some (Error.text (lit "mogilefsd:" ++ tok))), m1,
              markTrackerAsAlive
                { w1 with log := w1.log ++ [Event.write c (requestLine command args), Event.read c] }
                m1.last_tracker)
          | none =>
            (.ret (none, some (Error.text (lit "internal:invalid tracker reply"))), m1,
              markTrackerAsBad
                { w1 with log := w1.log ++ [Event.write c (requestLine command args), Event.read c] }
                m1.last_tracker)) := by
  refine ⟨?_, ?_, ?_⟩
  · intro e hw
    rw [DoRequest_of_conn env m m1 w w1 command args c hg, hw]
  · intro e hw hr
    rw [DoRequest_of_conn env m m1 w w1 command args c hg, hw]
    simp [hr, readString, classifyReply, returnTrackerConnection]
  · intro data e hw hr hne hlf
    rw [DoRequest_of_conn env m m1 w w1 command args c hg, hw]
    have hlen : data.length > 0 := List.length_pos.2 hne
    simp only [hr, readString_no_delim 10 data e hlf, classifyReply, hlen, if_true,
      reMogileOk_no_lf data hlf]
    cases reMogileFail data with
    | none => simp [returnTrackerConnection]
    | some tok => simp [returnTrackerConnection]

/-- C3 (amended) on a network that accepts the connection and fails the write. -/
theorem DoRequest_transport_error_witness :
    DoRequest envWriteFails clientTwo world0 (lit "get_paths") [] =
      (.ret (none, some (Error.net 32)),
        { clientTwo with last_tracker := "10.0.0.1:7001",
                         localConn := some { addr := "10.0.0.1:7001", id := 1 },
                         isInitialized := true, reconnectCounter := 0 },
        markTrackerAsBad
          { bad := [],
            log := [Event.isBad "10.0.0.1:7001" false, Event.dial "10.0.0.1:7001" true,
                    Event.write { addr := "10.0.0.1:7001", id := 1 }
                      (requestLine (lit "get_paths") [])] }
          "10.0.0.1:7001") :=
  (DoRequest_transport_error envWriteFails clientTwo _ world0 _ (lit "get_paths") []
    { addr := "10.0.0.1:7001", id := 1 } rfl).1 (Error.net 32) rfl

/-- C6: when the line read on an acquired connection is "ERR ", a non-empty
token of bytes outside the class `\s`, a space and anything after it,
`DoRequest` returns a nil mapping with the error "mogilefsd:" followed by the
token, and the release call marks the tracker recorded as last tracker alive,
so that it is not blacklisted afterwards. -/
theorem DoRequest_application_error (env : Env) (m m1 : MogileFsClient) (w w1 : World)
    (command : Str) (args : Values) (c : Conn) (tok rest : Str)
    (hg : getTrackerConnection env m w = ((some c, none), m1, w1))
    (hw : env.write w1.log c (requestLine command args) = none)
    (hr : (readString 10
            (env.recv (w1.log ++ [Event.write c (requestLine command args)]) c).1
            (env.recv (w1.log ++ [Event.write c (requestLine command args)]) c).2).1
          = lit "ERR " ++ tok ++ 32 :: rest)
    (htok : tok ≠ []) (hns : ∀ b ∈ tok, isSpaceClass b = false) :
    DoRequest env m w command args =
        (.ret (none, some (Error.text (lit "mogilefsd:" ++ tok))), m1,
          markTrackerAsAlive
            { w1 with log := w1.log ++ [Event.write c (requestLine command args), Event.read c] }
            m1.last_tracker)
      ∧ m1.last_tracker ∉ (DoRequest env m w command args).2.2.bad := by
  have hmain : DoRequest env m w command args =
        (.ret (none, some (Error.text (lit "mogilefsd:" ++ tok))), m1,
          markTrackerAsAlive
            { w1 with log := w1.log ++ [Event.write c (requestLine command args), Event.read c] }
            m1.last_tracker) := by
    rw [DoRequest_of_conn env m m1 w w1 command args c hg, hw]
    have hok : reMogileOk (lit "ERR " ++ tok ++ 32 :: rest) = none := reMogileOk_ERR _
    have hlen : (lit "ERR " ++ tok ++ 32 :: rest).length > 0 := by simp
    simp only [hr, classifyReply, hlen, if_true, hok, reMogileFail_token tok rest htok hns,
      returnTrackerConnection]
    simp
  refine ⟨hmain, ?_⟩
  rw [hmain]
  exact not_mem_markTrackerAsAlive_self _ _

/-- C6 on the reply "ERR unknown_key some text" of the spec. -/
theorem DoRequest_application_error_witness :
    DoRequest (envFixed reachAll (lit "ERR unknown_key some text\r\n")) clientTwo world0
        (lit "get_paths") [] =
        (.ret (none, some (Error.text (lit "mogilefsd:" ++ lit "unknown_key"))),
          { clientTwo with last_tracker := "10.0.0.1:7001",
                           localConn := some { addr := "10.0.0.1:7001", id := 1 },
                           isInitialized := true, reconnectCounter := 0 },
          markTrackerAsAlive
            { bad := [],
              log := [Event.isBad "10.0.0.1:7001" false, Event.dial "10.0.0.1:7001" true] ++
                     [Event.write { addr := "10.0.0.1:7001", id := 1 }
                        (requestLine (lit "get_paths") []),
                      Event.read { addr := "10.0.0.1:7001", id := 1 }] }
            "10.0.0.1:7001")
      ∧ "10.0.0.1:7001" ∉
          (DoRequest (envFixed reachAll (lit "ERR unknown_key some text\r\n")) clientTwo world0
            (lit "get_paths") []).2.2.bad :=
  DoRequest_application_error (envFixed reachAll (lit "ERR unknown_key some text\r\n"))
    clientTwo _ world0 _ (lit "get_paths") [] { addr := "10.0.0.1:7001", id := 1 }
    (lit "unknown_key") (lit "some text\r\n") rfl rfl (by rfl) (by decide) (by decide)

/-- C7: when the line read on an acquired connection is not empty and matches
neither the success pattern nor the failure pattern, `DoRequest` returns a nil
mapping with the error "internal:invalid tracker reply", and the release call
blacklists the tracker recorded as last tracker. -/
theorem DoRequest_invalid_reply (env : Env) (m m1 : MogileFsClient) (w w1 : World)
    (command : Str) (args : Values) (c : Conn) (reply : Str)
    (hg : getTrackerConnection env m w = ((some c, none), m1, w1))
    (hw : env.write w1.log c (requestLine command args) = none)
    (hr : (readString 10
            (env.recv (w1.log ++ [Event.write c (requestLine command args)]) c).1
            (env.recv (w1.log ++ [Event.write c (requestLine command args)]) c).2).1
          = reply)
    (hne : reply ≠ [])
    (hok : reMogileOk reply = none) (hfail : reMogileFail reply = none) :
    DoRequest env m w command args =
        (.ret (none, some (Error.text (lit "internal:invalid tracker reply"))), m1,
          markTrackerAsBad
            { w1 with log := w1.log ++ [Event.write c (requestLine command args), Event.read c] }
            m1.last_tracker)
      ∧ m1.last_tracker ∈ (DoRequest env m w command args).2.2.bad := by
  have hmain : DoRequest env m w command args =
        (.ret (none, some (Error.text (lit "internal:invalid tracker reply"))), m1,
          markTrackerAsBad
            { w1 with log := w1.log ++ [Event.write c (requestLine command args), Event.read c] }
            m1.last_tracker) := by
    rw [DoRequest_of_conn env m m1 w w1 command args c hg, hw]
    have hlen : reply.length > 0 := List.length_pos.2 hne
    simp only [hr, classifyReply, hlen, if_true, hok, hfail, returnTrackerConnection]
  refine ⟨hmain, ?_⟩
  rw [hmain]
  exact mem_markTrackerAsBad_self _ _

/-- C7 on the reply "garbage" of the spec. -/
theorem DoRequest_invalid_reply_witness :
    DoRequest (envFixed reachAll (lit "garbage\r\n")) clientTwo world0 (lit "get_paths") [] =
        (.ret (none, some (Error.text (lit "internal:invalid tracker reply"))),
          { clientTwo with last_tracker := "10.0.0.1:7001",
                           localConn := some { addr := "10.0.0.1:7001", id := 1 },
                           isInitialized := true, reconnectCounter := 0 },
          markTrackerAsBad
            { bad := [],
              log := [Event.isBad "10.0.0.1:7001" false, Event.dial "10.0.0.1:7001" true] ++
                     [Event.write { addr := "10.0.0.1:7001", id := 1 }
                        (requestLine (lit "get_paths") []),
                      Event.read { addr := "10.0.0.1:7001", id := 1 }] }
            "10.0.0.1:7001")
      ∧ "10.0.0.1:7001" ∈
          (DoRequest (envFixed reachAll (lit "garbage\r\n")) clientTwo world0
            (lit "get_paths") []).2.2.bad :=
  DoRequest_invalid_reply (envFixed reachAll (lit "garbage\r\n"))
    clientTwo _ world0 _ (lit "get_paths") [] { addr := "10.0.0.1:7001", id := 1 }
    (lit "garbage\r\n") rfl rfl (by rfl) (by decide) (by decide) (by decide)

/-- A return from inside the loop carries a connection and a nil error. -/
theorem trackerLoop_returned (env : Env) (ib : Bool) :
    ∀ (hosts : List String) (conn : Option Conn) (err : Option Error) (m : MogileFsClient)
      (w : World) (c : Option Conn) (e : Option Error) (m1 : MogileFsClient) (w1 : World),
      trackerLoop env ib hosts conn err m w = .returned c e m1 w1 →
        e = none ∧ ∃ c1, c = some c1 := by
  intro hosts
  induction hosts with
  | nil =>
    intro conn err m w c e m1 w1 h
    rw [trackerLoop_nil] at h
    cases h
  | cons host rest ih =>
    intro conn err m w c e m1 w1 h
    cases ib with
    | false =>
      by_cases hb : host ∈ w.bad
      · rw [trackerLoop_skip env host rest conn err m w hb] at h
        exact ih _ _ _ _ _ _ _ _ h
      · cases hd : env.dial (w.log ++ [Event.isBad host false]) host with
        | ok c2 =>
          rw [trackerLoop_pass1_ok env host rest conn err m w c2 hb hd] at h
          cases h
          exact ⟨rfl, c2, rfl⟩
        | error e2 =>
          rw [trackerLoop_pass1_fail env host rest conn err m w e2 hb hd] at h
          exact ih _ _ _ _ _ _ _ _ h
    | true =>
      cases hd : env.dial w.log host with
      | ok c2 =>
        rw [trackerLoop_pass2_ok env host rest conn err m w c2 hd] at h
        cases h
        exact ⟨rfl, c2, rfl⟩
      | error e2 =>
        rw [trackerLoop_pass2_fail env host rest conn err m w e2 hd] at h
        exact ih _ _ _ _ _ _ _ _ h

/-- The error result of `getTrackerConnection` is nil on every path. -/
theorem getTrackerConnection_err_nil (env : Env) (m : MogileFsClient) (w : World) :
    (getTrackerConnection env m w).1.2 = none := by
  unfold getTrackerConnection
  split
  · simp only [passLoop]
    cases h1 : trackerLoop env false m.trackers none none m w with
    | returned c e m1 w1 =>
      simp only
      exact (trackerLoop_returned env false _ _ _ _ _ _ _ _ _ h1).1
    | running c e m1 w1 =>
      simp only
      cases h2 : trackerLoop env true m1.trackers c e m1 w1 with
      | returned c2 e2 m2 w2 =>
        simp only
        exact (trackerLoop_returned env true _ _ _ _ _ _ _ _ _ h2).1
      | running c2 e2 m2 w2 => rfl
  · rfl

/-- C4 (counterexample): the reply is an OK line whose second pair has an
invalid percent escape. `DoRequest` returns both a non-nil mapping, holding the
pair that decoded, and a non-nil error. -/
theorem DoRequest_both_populated_counterexample :
    (DoRequest (envFixed reachAll (lit "OK a=1&b=%zz\r\n")) clientTwo world0
        (lit "get_paths") []).1
      = .ret (some [(lit "a", [lit "1"])], some (Error.escape (lit "%zz"))) := by
  rfl

/-- C4 (amended): once acquisition has handed out a connection, when the write
fails, or the line read does not match the success pattern, `DoRequest`
returns a nil mapping and a non-nil error; when the line read matches the
success pattern, it returns the pair of `url.ParseQuery` on the payload, a
non-nil mapping together with the parse error, nil or not. So the two results
are never both nil, and they are both non-nil when the payload of an OK line
fails to parse. -/
theorem DoRequest_result_shape (env : Env) (m m1 : MogileFsClient) (w w1 : World)
    (command : Str) (args : Values) (c : Conn)
    (hg : getTrackerConnection env m w = ((some c, none), m1, w1)) :
    (∀ e, env.write w1.log c (requestLine command args) = some e →
        (DoRequest env m w command args).1 = .ret (none, some e))
    ∧ (env.write w1.log c (requestLine command args) = none →
        (∀ payload,
          reMogileOk (readString 10
              (env.recv (w1.log ++ [Event.write c (requestLine command args)]) c).1
              (env.recv (w1.log ++ [Event.write c (requestLine command args)]) c).2).1
            = some payload →
          (DoRequest env m w command args).1
            = .ret (some (ParseQuery payload).1, (ParseQuery payload).2))
        ∧ (reMogileOk (readString 10
              (env.recv (w1.log ++ [Event.write c (requestLine command args)]) c).1
              (env.recv (w1.log ++ [Event.write c (requestLine command args)]) c).2).1
            = none →
          ∃ e, (DoRequest env m w command args).1 = .ret (none, some e))) := by
  have hD := DoRequest_of_conn env m m1 w w1 command args c hg
  refine ⟨?_, ?_⟩
  · intro e hw
    rw [hD, hw]
  · intro hw
    rw [hD, hw]
    simp only
    have hrs := readString_nil_err 10
      (env.recv (w1.log ++ [Event.write c (requestLine command args)]) c).1
      (env.recv (w1.log ++ [Event.write c (requestLine command args)]) c).2
    generalize readString 10 _ _ = rd at hrs ⊢
    refine ⟨?_, ?_⟩
    · intro payload hok
      have hne : rd.1 ≠ [] := by
        intro h0
        rw [h0] at hok
        simp [reMogileOk] at hok
      simp [classifyReply, List.length_pos.2 hne, hok]
    · intro hok
      by_cases hne : rd.1 = []
      · refine ⟨(env.recv (w1.log ++ [Event.write c (requestLine command args)]) c).2, ?_⟩
        simp [classifyReply, hne, hrs hne]
      · cases hf : reMogileFail rd.1 with
        | none =>
          refine ⟨Error.text (lit "internal:invalid tracker reply"), ?_⟩
          simp [classifyReply, List.length_pos.2 hne, hok, hf]
        | some tok =>
          refine ⟨Error.text (lit "mogilefsd:" ++ tok), ?_⟩
          simp [classifyReply, List.length_pos.2 hne, hok, hf]

/-- C4 (amended) on a reply whose payload parses: the mapping is non-nil and
the error is the nil error of `url.ParseQuery`. -/
theorem DoRequest_result_shape_witness :
    (DoRequest (envFixed reachAll (lit "OK a=1\r\n")) clientTwo world0 (lit "get_paths") []).1
      = .ret (some (ParseQuery (lit "a=1")).1, (ParseQuery (lit "a=1")).2) :=
  ((DoRequest_result_shape (envFixed reachAll (lit "OK a=1\r\n")) clientTwo _ world0 _
    (lit "get_paths") [] { addr := "10.0.0.1:7001", id := 1 } rfl).2 rfl).1 (lit "a=1")
    (by rfl)

/-! ## Query escaping: lemmas -/

theorem escape_byte_roundtrip : ∀ c : Byte,
    ishex (upperhex (c.val >>> 4)) = true ∧ ishex (upperhex (c.val &&& 15)) = true
      ∧ (Fin.ofNat ((unhex (upperhex (c.val >>> 4)) <<< 4) ||| unhex (upperhex (c.val &&& 15)))
          : Byte) = c := by
  decide

theorem upperhex_not_sep : ∀ c : Byte,
    upperhex (c.val >>> 4) ≠ 38 ∧ upperhex (c.val >>> 4) ≠ 61 ∧ upperhex (c.val >>> 4) ≠ 59
      ∧ upperhex (c.val &&& 15) ≠ 38 ∧ upperhex (c.val &&& 15) ≠ 61
      ∧ upperhex (c.val &&& 15) ≠ 59 := by
  decide

theorem shouldEscape_seps : ∀ c : Byte, shouldEscape c = false →
    c ≠ 38 ∧ c ≠ 61 ∧ c ≠ 59 ∧ c ≠ 37 ∧ c ≠ 43 := by
  decide

/-- An escaped string holds no ampersand, equals sign or semicolon. -/
theorem QueryEscape_no_sep (s : Str) :
    (38 : Byte) ∉ QueryEscape s ∧ (61 : Byte) ∉ QueryEscape s ∧ (59 : Byte) ∉ QueryEscape s := by
  induction s with
  | nil => simp [QueryEscape]
  | cons c rest ih =>
    obtain ⟨i1, i2, i3⟩ := ih
    obtain ⟨u1, u2, u3, u4, u5, u6⟩ := upperhex_not_sep c
    unfold QueryEscape
    by_cases h32 : c = 32
    · simp only [h32, if_true, List.mem_cons, not_or]
      exact ⟨⟨by decide, i1⟩, ⟨by decide, i2⟩, ⟨by decide, i3⟩⟩
    · simp only [h32, if_false]
      by_cases hse : shouldEscape c = true
      · simp only [hse, if_true, List.mem_cons, not_or]
        exact ⟨⟨by decide, Ne.symm u1, Ne.symm u4, i1⟩, ⟨by decide, Ne.symm u2, Ne.symm u5, i2⟩,
          ⟨by decide, Ne.symm u3, Ne.symm u6, i3⟩⟩
      · have hf : shouldEscape c = false := by simpa using hse
        obtain ⟨s1, s2, s3, _, _⟩ := shouldEscape_seps c hf
        simp only [hf, Bool.false_eq_true, if_false, List.mem_cons, not_or]
        exact ⟨⟨Ne.symm s1, i1⟩, ⟨Ne.symm s2, i2⟩, ⟨Ne.symm s3, i3⟩⟩

/-- Unescaping an escaped string gives the string back. -/
theorem QueryUnescape_QueryEscape (s : Str) : QueryUnescape (QueryEscape s) = .ok s := by
  induction s with
  | nil => rfl
  | cons c rest ih =>
    unfold QueryEscape
    by_cases h32 : c = 32
    · simp only [h32, if_true]
      unfold QueryUnescape
      simp [ih]
    · simp only [h32, if_false]
      by_cases hse : shouldEscape c = true
      · obtain ⟨e1, e2, e3⟩ := escape_byte_roundtrip c
        simp only [hse, if_true]
        unfold QueryUnescape
        simp [ih, e1, e2, e3]
      · have hf : shouldEscape c = false := by simpa using hse
        obtain ⟨_, _, _, s4, s5⟩ := shouldEscape_seps c hf
        simp only [hf, Bool.false_eq_true, if_false]
        unfold QueryUnescape
        simp [ih, s4, s5]

theorem cut_append_sep (sep : Byte) (s t : Str) (h : sep ∉ s) :
    cut sep (s ++ sep :: t) = (s, t) := by
  induction s with
  | nil => simp [cut]
  | cons c rest ih =>
    simp only [List.mem_cons, not_or] at h
    have hc : ¬ c = sep := fun hcs => h.1 hcs.symm
    simp [cut, hc, ih h.2]

theorem cut_no_sep (sep : Byte) (s : Str) (h : sep ∉ s) : cut sep s = (s, []) := by
  induction s with
  | nil => rfl
  | cons c rest ih =>
    simp only [List.mem_cons, not_or] at h
    have hc : ¬ c = sep := fun hcs => h.1 hcs.symm
    simp [cut, hc, ih h.2]

theorem pieces_ne_nil (sep : Byte) (s : Str) : pieces sep s ≠ [] := by
  cases s with
  | nil => simp [pieces]
  | cons c rest =>
    unfold pieces
    split
    · simp
    · split <;> simp

theorem pieces_no_sep (sep : Byte) (s : Str) (h : sep ∉ s) : pieces sep s = [s] := by
  induction s with
  | nil => rfl
  | cons c rest ih =>
    simp only [List.mem_cons, not_or] at h
    have hc : ¬ c = sep := fun hcs => h.1 hcs.symm
    simp [pieces, hc, ih h.2]

theorem pieces_append_sep (sep : Byte) (s t : Str) (h : sep ∉ s) :
    pieces sep (s ++ sep :: t) = s :: pieces sep t := by
  induction s with
  | nil => simp [pieces]
  | cons c rest ih =>
    simp only [List.mem_cons, not_or] at h
    have hc : ¬ c = sep := fun hcs => h.1 hcs.symm
    simp [pieces, hc, ih h.2]

/-- The first piece is what `cut` cuts off, the other pieces are those of the
remainder; without a separator the string is the only piece. -/
theorem pieces_cut (sep : Byte) (s : Str) :
    (sep ∈ s ∧ pieces sep s = (cut sep s).1 :: pieces sep (cut sep s).2)
      ∨ (sep ∉ s ∧ pieces sep s = [(cut sep s).1] ∧ (cut sep s).2 = []) := by
  by_cases h : sep ∈ s
  · left
    refine ⟨h, ?_⟩
    obtain ⟨a, b, hs, ha⟩ : ∃ a b, s = a ++ sep :: b ∧ sep ∉ a := by
      induction s with
      | nil => cases h
      | cons c rest ih =>
        by_cases hc : c = sep
        · exact ⟨[], rest, by simp [hc], by simp⟩
        · have hr : sep ∈ rest := by
            rcases List.mem_cons.1 h with h1 | h1
            · exact absurd h1.symm hc
            · exact h1
          obtain ⟨a, b, hs, ha⟩ := ih hr
          refine ⟨c :: a, b, by simp [hs], ?_⟩
          simp only [List.mem_cons, not_or]
          exact ⟨fun h2 => hc h2.symm, ha⟩
    rw [hs, cut_append_sep sep a b ha, pieces_append_sep sep a b ha]
  · right
    rw [cut_no_sep sep s h, pieces_no_sep sep s h]
    exact ⟨h, rfl, rfl⟩

theorem cut_snd_length_le (sep : Byte) (s : Str) : (cut sep s).2.length ≤ s.length := by
  induction s with
  | nil => simp [cut]
  | cons c rest ih =>
    unfold cut
    split
    · simp
    · simp only [List.length_cons]
      omega

theorem parsePiece_nil (m : Values) (err : Option Error) : parsePiece m err [] = (m, err) := by
  simp [parsePiece]

/-- With fuel for every byte of the query, the loop of `parseQuery` is the
left fold of its body over the pieces between ampersands. -/
theorem parseQueryLoop_eq_foldl :
    ∀ (fuel : Nat) (query : Str) (m : Values) (err : Option Error), query.length ≤ fuel →
      parseQueryLoop fuel m err query =
        (pieces 38 query).foldl (fun st key => parsePiece st.1 st.2 key) (m, err) := by
  intro fuel
  induction fuel with
  | zero =>
    intro query m err h
    have hq : query = [] := List.eq_nil_of_length_eq_zero (Nat.le_zero.1 h)
    subst hq
    simp [parseQueryLoop, pieces, parsePiece_nil]
  | succ n ih =>
    intro query m err h
    cases query with
    | nil => simp [parseQueryLoop, pieces, parsePiece_nil]
    | cons c rest =>
      have hlen : (cut 38 (c :: rest)).2.length ≤ n := by
        have h1 : (cut 38 (c :: rest)).2.length ≤ rest.length := by
          unfold cut
          split
          · simp
          · exact cut_snd_length_le 38 rest
        simp only [List.length_cons] at h
        omega
      simp only [parseQueryLoop, List.cons_ne_nil, if_false]
      rw [ih _ _ _ hlen]
      rcases pieces_cut 38 (c :: rest) with ⟨_, hp⟩ | ⟨_, hp, hnil⟩
      · rw [hp, List.foldl_cons]
      · rw [hp, hnil]
        simp [pieces, parsePiece_nil]

theorem pieces_length (sep : Byte) (s : Str) : (pieces sep s).length = s.count sep + 1 := by
  induction s with
  | nil => rfl
  | cons c rest ih =>
    by_cases hc : c = sep
    · subst hc
      simp [pieces, ih]
    · have hne : (c == sep) = false := by simpa using hc
      simp only [pieces, hc, if_false, List.count_cons, hne]
      cases hp : pieces sep rest with
      | nil => exact absurd hp (pieces_ne_nil sep rest)
      | cons p ps =>
        rw [hp] at ih
        simpa using ih

/-- Within the parameter limit `ParseQuery` is the loop of `parseQuery`. -/
theorem ParseQuery_eq_foldl (query : Str) (hlim : query.count 38 + 1 ≤ 10000) :
    ParseQuery query =
      (pieces 38 query).foldl (fun st key => parsePiece st.1 st.2 key) ([], none) := by
  have h : urlParamsWithinMax (query.count 38 + 1) = true := by
    simp only [urlParamsWithinMax, defaultMaxParams, decide_eq_true_eq]
    exact hlim
  simp only [ParseQuery, h, if_true]
  exact parseQueryLoop_eq_foldl query.length query [] none (Nat.le_refl _)

/-- Beyond the parameter limit `ParseQuery` returns the empty map and the limit
error. -/
theorem ParseQuery_over_limit (query : Str) (hlim : 10000 < query.count 38 + 1) :
    ParseQuery query =
      ([], some (Error.text (lit "number of URL query parameters exceeded limit"))) := by
  have h : urlParamsWithinMax (query.count 38 + 1) = false := by
    simp only [urlParamsWithinMax, defaultMaxParams, decide_eq_false_iff_not]
    omega
  simp [ParseQuery, h]

/-! ## Values: lemmas -/

theorem find_add_self (m : Values) (k v : Str) :
    Values.find (Values.add m k v) k = some ((Values.find m k).getD [] ++ [v]) := by
  induction m with
  | nil => simp [Values.add, Values.find]
  | cons e rest ih =>
    obtain ⟨k1, vs⟩ := e
    by_cases h : k1 = k
    · simp [Values.add, Values.find, h]
    · simp [Values.add, Values.find, h, ih]

theorem find_add_other (m : Values) (k v k2 : Str) (h : k2 ≠ k) :
    Values.find (Values.add m k v) k2 = Values.find m k2 := by
  induction m with
  | nil =>
    have h2 : ¬ k = k2 := fun hk => h hk.symm
    simp [Values.add, Values.find, h2]
  | cons e rest ih =>
    obtain ⟨k1, vs⟩ := e
    by_cases h1 : k1 = k
    · subst h1
      have h2 : ¬ k1 = k2 := fun hk => h hk.symm
      simp [Values.add, Values.find, h2]
    · by_cases h3 : k1 = k2
      · subst h3
        simp [Values.add, Values.find, h1]
      · simp [Values.add, Values.find, h1, h3, ih]

/-- Lookup in a map grown by `m[k] = append(m[k], v)` over a list of pairs. -/
theorem find_foldl_add (pairs : List (Str × Str)) :
    ∀ (m : Values) (k : Str),
      Values.find (pairs.foldl (fun acc q => Values.add acc q.1 q.2) m) k =
        match Values.find m k with
        | some vs => some (vs ++ valuesOf pairs k)
        | none => if valuesOf pairs k = [] then none else some (valuesOf pairs k) := by
  induction pairs with
  | nil =>
    intro m k
    cases h : Values.find m k <;> simp [valuesOf, h]
  | cons q rest ih =>
    intro m k
    rw [List.foldl_cons, ih]
    by_cases hq : q.1 = k
    · subst hq
      rw [find_add_self]
      cases h : Values.find m q.1 <;> simp [valuesOf]
    · rw [find_add_other m q.1 q.2 k (fun h => hq h.symm)]
      have hv : valuesOf (q :: rest) k = valuesOf rest k := by
        simp [valuesOf, List.filter_cons, hq]
      rw [hv]

theorem keys_add (m : Values) (k v : Str) :
    (Values.add m k v).map Prod.fst =
      if k ∈ m.map Prod.fst then m.map Prod.fst else m.map Prod.fst ++ [k] := by
  induction m with
  | nil => simp [Values.add]
  | cons e rest ih =>
    obtain ⟨k1, vs⟩ := e
    by_cases h1 : k1 = k
    · simp [Values.add, h1]
    · have h2 : ¬ k = k1 := fun hk => h1 hk.symm
      simp only [Values.add, h1, if_false, List.map_cons, ih, List.mem_cons, h2, false_or]
      split <;> simp

theorem WF_add (m : Values) (k v : Str) (h : Values.WF m) : Values.WF (Values.add m k v) := by
  unfold Values.WF at *
  rw [keys_add]
  split
  · exact h
  · rename_i hk
    rw [List.nodup_append]
    refine ⟨h, List.nodup_singleton k, ?_⟩
    intro a ha hb
    rw [List.mem_singleton] at hb
    exact hk (hb ▸ ha)

theorem WF_foldl_add (pairs : List (Str × Str)) :
    ∀ m : Values, Values.WF m →
      Values.WF (pairs.foldl (fun acc q => Values.add acc q.1 q.2) m) := by
  induction pairs with
  | nil => intro m h; exact h
  | cons q rest ih => intro m h; exact ih _ (WF_add m q.1 q.2 h)

theorem find_eq_none_of_not_mem (m : Values) (k : Str) (h : k ∉ m.map Prod.fst) :
    Values.find m k = none := by
  induction m with
  | nil => rfl
  | cons e rest ih =>
    obtain ⟨k1, vs⟩ := e
    simp only [List.map_cons, List.mem_cons, not_or] at h
    have h1 : ¬ k1 = k := fun hk => h.1 hk.symm
    simp [Values.find, h1, ih h.2]

/-- The values `pairsOf` lists for key `k` are those the map holds for it. -/
theorem valuesOf_pairsOf (v : Values) (ks : List Str) (hnd : ks.Nodup) (k : Str) :
    valuesOf (pairsOf v ks) k = if k ∈ ks then Values.get v k else [] := by
  induction ks with
  | nil => simp [pairsOf, valuesOf]
  | cons k1 rest ih =>
    rw [List.nodup_cons] at hnd
    have ih2 := ih hnd.2
    simp only [pairsOf, valuesOf, List.flatMap_cons, List.filter_append, List.map_append] at ih2 ⊢
    rw [ih2]
    by_cases h : k1 = k
    · subst h
      simp [hnd.1, List.filter_map, Function.comp_def]
    · have h2 : ¬ k = k1 := fun hk => h hk.symm
      simp [h, h2, List.filter_map, Function.comp_def]

/-! ## Encode and ParseQuery: lemmas -/

theorem encodeVals_eq (ke : Str) (vs : List Str) :
    ∀ buf : Str, encodeVals ke vs buf =
      (vs.map (fun x => ke ++ 61 :: QueryEscape x)).foldl appendItem buf := by
  induction vs with
  | nil => intro buf; rfl
  | cons x rest ih =>
    intro buf
    simp only [encodeVals, List.map_cons, List.foldl_cons, ih, appendItem]
    congr 1
    simp [List.append_assoc]

theorem encodeKeys_eq (v : Values) (ks : List Str) :
    ∀ buf : Str, encodeKeys v ks buf = ((pairsOf v ks).map encPair).foldl appendItem buf := by
  induction ks with
  | nil => intro buf; rfl
  | cons k rest ih =>
    intro buf
    simp only [encodeKeys, ih, encodeVals_eq, pairsOf, List.flatMap_cons, List.map_append,
      List.foldl_append, List.map_map]
    rfl

theorem Encode_eq (v : Values) :
    Encode v = ((pairsOf v (sortedKeys v)).map encPair).foldl appendItem [] := by
  unfold Encode
  split
  · rename_i h
    have hv : v = [] := List.eq_nil_of_length_eq_zero h
    subst hv
    rfl
  · exact encodeKeys_eq v (sortedKeys v) []

theorem pieces_append (sep : Byte) (a b : Str) :
    pieces sep (a ++ sep :: b) = pieces sep a ++ pieces sep b := by
  induction a with
  | nil => simp [pieces]
  | cons c rest ih =>
    by_cases hc : c = sep
    · simp [pieces, hc, ih]
    · simp only [List.cons_append, pieces, hc, if_false]
      have ih2 : pieces sep (rest.append (sep :: b)) = pieces sep rest ++ pieces sep b := ih
      rw [ih2]
      cases hp : pieces sep rest with
      | nil => exact absurd hp (pieces_ne_nil sep rest)
      | cons p ps => simp

theorem pieces_foldl_appendItem (items : List Str) (hit : ∀ s ∈ items, (38 : Byte) ∉ s) :
    ∀ buf : Str, buf ≠ [] →
      pieces 38 (items.foldl appendItem buf) = pieces 38 buf ++ items := by
  induction items with
  | nil => intro buf _; simp
  | cons s rest ih =>
    intro buf hb
    have hlen : buf.length > 0 := List.length_pos.2 hb
    have hstep : appendItem buf s = buf ++ 38 :: s := by
      simp [appendItem, hlen]
    rw [List.foldl_cons, hstep,
      ih (fun x hx => hit x (List.mem_cons_of_mem _ hx)) (buf ++ 38 :: s) (by simp),
      pieces_append, pieces_no_sep 38 s (hit s (List.mem_cons_self _ _))]
    simp

theorem encPair_props (q : Str × Str) :
    (38 : Byte) ∉ encPair q ∧ (59 : Byte) ∉ encPair q ∧ encPair q ≠ []
      ∧ cut 61 (encPair q) = (QueryEscape q.1, QueryEscape q.2) := by
  obtain ⟨a1, a2, a3⟩ := QueryEscape_no_sep q.1
  obtain ⟨b1, _, b3⟩ := QueryEscape_no_sep q.2
  refine ⟨?_, ?_, ?_, cut_append_sep 61 _ _ a2⟩
  · simp only [encPair, List.mem_append, List.mem_cons, not_or]
    exact ⟨a1, by decide, b1⟩
  · simp only [encPair, List.mem_append, List.mem_cons, not_or]
    exact ⟨a3, by decide, b3⟩
  · simp [encPair]

theorem parsePiece_encPair (m : Values) (err : Option Error) (q : Str × Str) :
    parsePiece m err (encPair q) = (Values.add m q.1 q.2, err) := by
  obtain ⟨_, h59, hne, hcut⟩ := encPair_props q
  simp [parsePiece, h59, hne, hcut, QueryUnescape_QueryEscape]

theorem foldl_parsePiece_encPair (pairs : List (Str × Str)) :
    ∀ (m : Values) (err : Option Error),
      (pairs.map encPair).foldl (fun st key => parsePiece st.1 st.2 key) (m, err) =
        (pairs.foldl (fun acc q => Values.add acc q.1 q.2) m, err) := by
  induction pairs with
  | nil => intro m err; rfl
  | cons q rest ih =>
    intro m err
    simp only [List.map_cons, List.foldl_cons, parsePiece_encPair, ih]

/-- The pieces of an encoding are the texts of its pairs. -/
theorem pieces_Encode (v : Values) (q : Str × Str) (rest : List (Str × Str))
    (hp : pairsOf v (sortedKeys v) = q :: rest) :
    pieces 38 (Encode v) = encPair q :: rest.map encPair := by
  rw [Encode_eq, hp]
  have hstep : appendItem [] (encPair q) = encPair q := by simp [appendItem]
  have hit : ∀ s ∈ rest.map encPair, (38 : Byte) ∉ s := by
    intro s hs
    obtain ⟨q2, _, rfl⟩ := List.mem_map.1 hs
    exact (encPair_props q2).1
  rw [List.map_cons, List.foldl_cons, hstep,
    pieces_foldl_appendItem _ hit _ (encPair_props q).2.2.1,
    pieces_no_sep 38 _ (encPair_props q).1]
  rfl

/-- The number of parameters `parseQuery` counts in an encoding is the number
of pairs of the map, or one when the map has no pair. -/
theorem count_Encode (v : Values) :
    (Encode v).count 38 + 1 = max 1 (pairsOf v (sortedKeys v)).length := by
  cases hp : pairsOf v (sortedKeys v) with
  | nil =>
    have he : Encode v = [] := by rw [Encode_eq, hp]; rfl
    rw [he]
    rfl
  | cons q rest =>
    rw [← pieces_length, pieces_Encode v q rest hp]
    simp

/-- Decoding an encoded map of at most ten thousand pairs replays
`m[k] = append(m[k], v)` over the pairs of the map in the order `Encode` wrote
them, without error. -/
theorem ParseQuery_Encode (v : Values) (hlim : (pairsOf v (sortedKeys v)).length ≤ 10000) :
    ParseQuery (Encode v) =
      ((pairsOf v (sortedKeys v)).foldl (fun acc q => Values.add acc q.1 q.2) [], none) := by
  have hc : (Encode v).count 38 + 1 ≤ 10000 := by
    rw [count_Encode]
    omega
  rw [ParseQuery_eq_foldl _ hc]
  cases hp : pairsOf v (sortedKeys v) with
  | nil =>
    have he : Encode v = [] := by rw [Encode_eq, hp]; rfl
    rw [he]
    simp [pieces, parsePiece_nil]
  | cons q rest =>
    rw [pieces_Encode v q rest hp]
    have := foldl_parsePiece_encPair (q :: rest) [] none
    simpa using this

theorem sortedKeys_props (v : Values) (hwf : Values.WF v) :
    (sortedKeys v).Nodup ∧ ∀ k, k ∈ sortedKeys v ↔ k ∈ v.map Prod.fst := by
  have hperm : (sortedKeys v).Perm (v.map Prod.fst) := List.perm_insertionSort _ _
  exact ⟨hperm.nodup_iff.2 hwf, fun k => hperm.mem_iff⟩

/-- Lookup in the decoded encoding: the values of the key in the map, the key
being absent when it has no value. -/
theorem find_ParseQuery_Encode (v : Values) (hwf : Values.WF v)
    (hlim : (pairsOf v (sortedKeys v)).length ≤ 10000) (k : Str) :
    Values.find (ParseQuery (Encode v)).1 k =
      if Values.get v k = [] then none else some (Values.get v k) := by
  obtain ⟨hnd, hmem⟩ := sortedKeys_props v hwf
  rw [ParseQuery_Encode v hlim]
  simp only
  rw [find_foldl_add, valuesOf_pairsOf v _ hnd k]
  simp only [Values.find]
  by_cases hk : k ∈ sortedKeys v
  · simp [hk]
  · have h0 : Values.get v k = [] := by
      simp [Values.get, find_eq_none_of_not_mem v k (fun h => hk ((hmem k).2 h))]
    simp [hk, h0]

/-! ## Decoding a well-formed payload: lemmas -/

theorem unhex_eq_hexValue : ∀ h : Byte, ishex h = true → unhex h = hexValue h ∧ hexValue h < 16 := by
  decide

theorem shift_or_eq : ∀ a b : Fin 16, (a.val <<< 4) ||| b.val = 16 * a.val + b.val := by
  decide

theorem unhex_pair (h1 h2 : Byte) (i1 : ishex h1 = true) (i2 : ishex h2 = true) :
    (unhex h1 <<< 4) ||| unhex h2 = 16 * hexValue h1 + hexValue h2 := by
  obtain ⟨e1, l1⟩ := unhex_eq_hexValue h1 i1
  obtain ⟨e2, l2⟩ := unhex_eq_hexValue h2 i2
  rw [e1, e2]
  exact shift_or_eq ⟨hexValue h1, l1⟩ ⟨hexValue h2, l2⟩

theorem pctDecode_cons_ne (c : Byte) (rest : Str) (hc : c ≠ 37) :
    pctDecode (c :: rest) = (if c = 43 then 32 else c) :: pctDecode rest := by
  match rest with
  | [] => simp [pctDecode]
  | [a] => simp [pctDecode]
  | a :: b :: r => simp [pctDecode, hc]

theorem validEscapes_cons_ne (c : Byte) (rest : Str) (hc : c ≠ 37) :
    validEscapes (c :: rest) = validEscapes rest := by
  conv_lhs => unfold validEscapes
  simp [hc]

theorem QueryUnescape_cons_ne (c : Byte) (rest t : Str) (hc : c ≠ 37)
    (hrec : QueryUnescape rest = .ok t) :
    QueryUnescape (c :: rest) = .ok ((if c = 43 then 32 else c) :: t) := by
  conv_lhs => unfold QueryUnescape
  by_cases h43 : c = 43
  · simp [hc, h43, hrec]
  · simp [hc, h43, hrec]

theorem QueryUnescape_valid :
    ∀ (n : Nat) (s : Str), s.length ≤ n → validEscapes s = true →
      QueryUnescape s = .ok (pctDecode s) := by
  intro n
  induction n using Nat.strong_induction_on with
  | _ n ih =>
    intro s hlen hv
    match s, hlen, hv with
    | [], _, _ => rfl
    | c :: rest, hlen, hv =>
      by_cases hc : c = 37
      · subst hc
        match rest, hlen, hv with
        | [], _, hv => simp [validEscapes] at hv
        | [a], _, hv => simp [validEscapes] at hv
        | h1 :: h2 :: rest2, hlen, hv =>
          simp only [validEscapes, if_true, Bool.and_eq_true] at hv
          obtain ⟨⟨i1, i2⟩, hv2⟩ := hv
          simp only [List.length_cons] at hlen
          have hrec := ih (n - 3) (by omega) rest2 (by omega) hv2
          simp [QueryUnescape, pctDecode, i1, i2, hrec, unhex_pair h1 h2 i1 i2]
      · rw [validEscapes_cons_ne c rest hc] at hv
        simp only [List.length_cons] at hlen
        have hrec := ih (n - 1) (by omega) rest (by omega) hv
        rw [pctDecode_cons_ne c rest hc]
        exact QueryUnescape_cons_ne c rest _ hc hrec

theorem validEscapes_split (sep : Byte) (hs : sep ≠ 37) (hh : ishex sep = false) (b : Str) :
    ∀ (n : Nat) (a : Str), a.length ≤ n → validEscapes (a ++ sep :: b) = true →
      validEscapes a = true ∧ validEscapes b = true := by
  intro n
  induction n using Nat.strong_induction_on with
  | _ n ih =>
    intro a hlen hv
    match a, hlen, hv with
    | [], _, hv =>
      rw [List.nil_append, validEscapes_cons_ne sep b hs] at hv
      exact ⟨rfl, hv⟩
    | c :: rest, hlen, hv =>
      by_cases hc : c = 37
      · subst hc
        match rest, hlen, hv with
        | [], _, hv =>
          exfalso
          cases b with
          | nil => simp [validEscapes] at hv
          | cons b1 b2 => simp [validEscapes, hh] at hv
        | [a1], _, hv =>
          exfalso
          simp [validEscapes, hh] at hv
        | h1 :: h2 :: rest2, hlen, hv =>
          simp only [List.cons_append, validEscapes, if_true, Bool.and_eq_true] at hv
          obtain ⟨⟨i1, i2⟩, hv2⟩ := hv
          simp only [List.length_cons] at hlen
          obtain ⟨r1, r2⟩ := ih (n - 3) (by omega) rest2 (by omega) hv2
          exact ⟨by simp [validEscapes, i1, i2, r1], r2⟩
      · rw [List.cons_append, validEscapes_cons_ne c _ hc] at hv
        simp only [List.length_cons] at hlen
        obtain ⟨r1, r2⟩ := ih (n - 1) (by omega) rest (by omega) hv
        exact ⟨by rw [validEscapes_cons_ne c rest hc]; exact r1, r2⟩

theorem mem_split_first (sep : Byte) (s : Str) (h : sep ∈ s) :
    ∃ a b, s = a ++ sep :: b ∧ sep ∉ a := by
  induction s with
  | nil => cases h
  | cons c rest ih =>
    by_cases hc : c = sep
    · exact ⟨[], rest, by simp [hc], by simp⟩
    · have hr : sep ∈ rest := by
        rcases List.mem_cons.1 h with h1 | h1
        · exact absurd h1.symm hc
        · exact h1
      obtain ⟨a, b, hs, ha⟩ := ih hr
      refine ⟨c :: a, b, by simp [hs], ?_⟩
      simp only [List.mem_cons, not_or]
      exact ⟨fun h2 => hc h2.symm, ha⟩

/-- The loop body on a piece without semicolon and with valid escapes: an empty
piece is skipped, any other adds its decoded pair. -/
theorem parsePiece_valid (m : Values) (err : Option Error) (s : Str) (h59 : (59 : Byte) ∉ s)
    (hv : validEscapes s = true) :
    parsePiece m err s =
      if s = [] then (m, err)
      else (Values.add m (pctDecode (cut 61 s).1) (pctDecode (cut 61 s).2), err) := by
  have hparts : validEscapes (cut 61 s).1 = true ∧ validEscapes (cut 61 s).2 = true := by
    by_cases h61 : (61 : Byte) ∈ s
    · obtain ⟨a, b, hs, ha⟩ := mem_split_first 61 s h61
      rw [hs, cut_append_sep 61 a b ha]
      rw [hs] at hv
      exact validEscapes_split 61 (by decide) (by decide) b a.length a (Nat.le_refl _) hv
    · rw [cut_no_sep 61 s h61]
      exact ⟨hv, rfl⟩
  by_cases hs : s = []
  · simp [parsePiece, hs]
  · simp [parsePiece, h59, hs, QueryUnescape_valid _ _ (Nat.le_refl _) hparts.1,
      QueryUnescape_valid _ _ (Nat.le_refl _) hparts.2]

theorem queryPairs_cons (a : Str) (ps : List Str) :
    ((a :: ps).filter (fun s => decide (s ≠ []))).map
        (fun s => (pctDecode (cut 61 s).1, pctDecode (cut 61 s).2)) =
      (if a = [] then [] else [(pctDecode (cut 61 a).1, pctDecode (cut 61 a).2)]) ++
        (ps.filter (fun s => decide (s ≠ []))).map
          (fun s => (pctDecode (cut 61 s).1, pctDecode (cut 61 s).2)) := by
  by_cases h : a = []
  · simp [List.filter_cons, h]
  · simp [List.filter_cons, h]

/-- On a well-formed query the loop of `parseQuery` adds the decoded pairs in
order and meets no error. -/
theorem foldl_parsePiece_wellFormed :
    ∀ (n : Nat) (p : Str), p.length ≤ n → (59 : Byte) ∉ p → validEscapes p = true →
      ∀ m : Values,
        (pieces 38 p).foldl (fun st key => parsePiece st.1 st.2 key) (m, none) =
          ((queryPairs p).foldl (fun acc q => Values.add acc q.1 q.2) m, none) := by
  intro n
  induction n using Nat.strong_induction_on with
  | _ n ih =>
    intro p hlen h59 hv m
    by_cases h38 : (38 : Byte) ∈ p
    · obtain ⟨a, b, hs, ha⟩ := mem_split_first 38 p h38
      subst hs
      obtain ⟨va, vb⟩ :=
        validEscapes_split 38 (by decide) (by decide) b a.length a (Nat.le_refl _) hv
      have h59a : (59 : Byte) ∉ a := fun h => h59 (by simp [h])
      have h59b : (59 : Byte) ∉ b := fun h => h59 (by simp [h])
      have hlb : b.length ≤ n - 1 := by
        simp only [List.length_append, List.length_cons] at hlen
        omega
      have hn : n - 1 < n := by
        simp only [List.length_append, List.length_cons] at hlen
        omega
      simp only [queryPairs]
      rw [pieces_append_sep 38 a b ha, List.foldl_cons, queryPairs_cons,
        parsePiece_valid m none a h59a va]
      by_cases hae : a = []
      · simp only [hae, if_true, List.nil_append]
        exact ih (n - 1) hn b hlb h59b vb m
      · simp only [hae, if_false, List.singleton_append, List.foldl_cons]
        exact ih (n - 1) hn b hlb h59b vb _
    · simp only [queryPairs]
      rw [pieces_no_sep 38 p h38, queryPairs_cons, List.foldl_cons, List.foldl_nil,
        parsePiece_valid m none p h59 hv]
      by_cases hpe : p = []
      · simp [hpe]
      · simp [hpe]

theorem ParseQuery_wellFormed (p : Str) (hwf : wellFormedQuery p)
    (hlim : p.count 38 + 1 ≤ 10000) :
    ParseQuery p = ((queryPairs p).foldl (fun acc q => Values.add acc q.1 q.2) [], none) := by
  rw [ParseQuery_eq_foldl p hlim]
  exact foldl_parsePiece_wellFormed p.length p (Nat.le_refl _) hwf.1 hwf.2 []

theorem pairsOf_length (v : Values) (ks : List Str) :
    (pairsOf v ks).length = (ks.map (fun k => (Values.get v k).length)).sum := by
  induction ks with
  | nil => rfl
  | cons k rest ih =>
    simp only [pairsOf, List.flatMap_cons, List.length_append, List.length_map, List.map_cons,
      List.sum_cons] at ih ⊢
    rw [ih]

theorem get_cons_of_ne (k1 k : Str) (vs : List Str) (rest : Values) (h : k1 ≠ k) :
    Values.get ((k1, vs) :: rest) k = Values.get rest k := by
  simp [Values.get, Values.find, h]

theorem keys_sum_eq_pairCount (v : Values) (hwf : Values.WF v) :
    ((v.map Prod.fst).map (fun k => (Values.get v k).length)).sum = pairCount v := by
  induction v with
  | nil => rfl
  | cons e rest ih =>
    obtain ⟨k1, vs⟩ := e
    unfold Values.WF at hwf
    simp only [List.map_cons, List.nodup_cons] at hwf
    have hrest : (rest.map Prod.fst).map (fun k => (Values.get ((k1, vs) :: rest) k).length)
        = (rest.map Prod.fst).map (fun k => (Values.get rest k).length) := by
      apply List.map_congr_left
      intro k hk
      rw [get_cons_of_ne k1 k vs rest (fun h => hwf.1 (h ▸ hk))]
    have hhead : Values.get ((k1, vs) :: rest) k1 = vs := by simp [Values.get, Values.find]
    simp only [List.map_cons, List.sum_cons, pairCount, hrest, hhead]
    have := ih hwf.2
    simp only [pairCount] at this
    rw [this]

/-- The pairs `Encode` writes are as many as the values of the map. -/
theorem pairsOf_sortedKeys_length (v : Values) (hwf : Values.WF v) :
    (pairsOf v (sortedKeys v)).length = pairCount v := by
  rw [pairsOf_length, ← keys_sum_eq_pairCount v hwf]
  have hperm : (sortedKeys v).Perm (v.map Prod.fst) := List.perm_insertionSort _ _
  exact (hperm.map _).sum_eq

theorem readString_line (body : Str) (e : Error) (h : (10 : Byte) ∉ body) :
    readString 10 (body ++ [10]) e = (body ++ [10], none) := by
  induction body with
  | nil => simp [readString]
  | cons x rest ih =>
    simp only [List.mem_cons, not_or] at h
    have hx : ¬ x = 10 := fun hx => h.1 hx.symm
    have ih2 : readString 10 (rest.append [10]) e = (rest ++ [10], none) := ih h.2
    simp only [List.cons_append, readString, hx, if_false, ih2]

theorem validEscapes_replicate (n : Nat) : validEscapes (List.replicate n 38) = true := by
  induction n with
  | zero => rfl
  | succ k ih =>
    rw [List.replicate_succ, validEscapes_cons_ne 38 _ (by decide)]
    exact ih

/-- What `DoRequest` returns when the line read on an acquired connection
matches the success pattern with payload `p`: the pair of `url.ParseQuery`. -/
theorem DoRequest_ok_line (env : Env) (m m1 : MogileFsClient) (w w1 : World)
    (command : Str) (args : Values) (c : Conn) (p : Str)
    (hg : getTrackerConnection env m w = ((some c, none), m1, w1))
    (hw : env.write w1.log c (requestLine command args) = none)
    (hr : (readString 10
            (env.recv (w1.log ++ [Event.write c (requestLine command args)]) c).1
            (env.recv (w1.log ++ [Event.write c (requestLine command args)]) c).2).1
          = lit "OK " ++ p ++ lit "\r\n")
    (hlf : (10 : Byte) ∉ p) :
    DoRequest env m w command args =
      (.ret (some (ParseQuery p).1, (ParseQuery p).2),
        returnTrackerConnection m1
          { w1 with log := w1.log ++ [Event.write c (requestLine command args), Event.read c] }
          (some c) false) := by
  have hlit1 : lit "OK " = [79, 75, 32] := by decide
  have hlit2 : lit "\r\n" = [13, 10] := by decide
  have hform : lit "OK " ++ p ++ lit "\r\n" = 79 :: 75 :: 32 :: (p ++ [13, 10]) := by
    rw [hlit1, hlit2]
    simp
  rw [DoRequest_of_conn env m m1 w w1 command args c hg, hw]
  have hlen : (79 :: 75 :: 32 :: (p ++ [13, 10]) : Str).length > 0 := by simp
  simp only [hr, hform, classifyReply, hlen, if_true, reMogileOk_of_form p hlf]

/-! ## Encode, ParseQuery and the success reply: the claims -/

/-- C5 (counterexample): a map in which key "a" has an empty list of values
encodes to the empty string, which decodes to the empty map: the key is lost.
And a map in which key "a" has ten thousand and one values, all non-empty
lists, encodes to more parameters than `url.ParseQuery` accepts: decoding gives
the empty map and an error. -/
theorem ParseQuery_Encode_counterexample :
    (ParseQuery (Encode [(lit "a", [])]) = ([], none)
      ∧ ParseQuery (Encode [(lit "a", [])]) ≠ ([(lit "a", [])], none)
      ∧ Values.find [(lit "a", [])] (lit "a") = some []
      ∧ Values.find (ParseQuery (Encode [(lit "a", [])])).1 (lit "a") = none)
    ∧ (Values.WF manyValues
      ∧ (∀ e ∈ manyValues, e.2 ≠ [])
      ∧ ParseQuery (Encode manyValues)
          = ([], some (Error.text (lit "number of URL query parameters exceeded limit")))
      ∧ Values.find manyValues (lit "a") = some (List.replicate 10001 (lit "1"))) := by
  have hwf : Values.WF manyValues := by
    unfold Values.WF manyValues
    rw [List.map_cons, List.map_nil]
    exact List.nodup_singleton _
  have hcount : pairCount manyValues = 10001 := by
    unfold pairCount manyValues
    rw [List.map_cons, List.map_nil, List.sum_cons, List.sum_nil, List.length_replicate,
      Nat.add_zero]
  have hne : List.replicate 10001 (lit "1") ≠ [] := by
    intro h
    have hl := congrArg List.length h
    rw [List.length_replicate, List.length_nil] at hl
    exact absurd hl (by decide)
  refine ⟨by decide, hwf, ?_, ?_, ?_⟩
  · intro e he
    unfold manyValues at he
    rw [List.mem_singleton] at he
    rw [he]
    exact hne
  · apply ParseQuery_over_limit
    rw [count_Encode, pairsOf_sortedKeys_length manyValues hwf, hcount]
    decide
  · unfold manyValues
    rw [Values.find, if_pos rfl]

/-- C5 (amended): for every argument map (keys pairwise distinct, as in any Go
map) in which every key has at least one value and which has at most ten
thousand values in all, decoding the encoded map gives no error and a map with
the same lookup for every key. -/
theorem ParseQuery_Encode_roundtrip (args : Values) (hwf : Values.WF args)
    (hne : ∀ e ∈ args, e.2 ≠ []) (hlim : pairCount args ≤ 10000) :
    (ParseQuery (Encode args)).2 = none
      ∧ Values.WF (ParseQuery (Encode args)).1
      ∧ ∀ k, Values.find (ParseQuery (Encode args)).1 k = Values.find args k := by
  have hlim2 : (pairsOf args (sortedKeys args)).length ≤ 10000 := by
    rw [pairsOf_sortedKeys_length args hwf]
    exact hlim
  refine ⟨?_, ?_, ?_⟩
  · rw [ParseQuery_Encode args hlim2]
  · rw [ParseQuery_Encode args hlim2]
    exact WF_foldl_add _ [] List.nodup_nil
  · intro k
    rw [find_ParseQuery_Encode args hwf hlim2 k]
    cases hf : Values.find args k with
    | none => simp [Values.get, hf]
    | some vs =>
      have hmem : (k, vs) ∈ args := by
        clear hne hwf hlim hlim2
        induction args with
        | nil => simp [Values.find] at hf
        | cons e rest ih =>
          obtain ⟨k1, vs1⟩ := e
          by_cases h1 : k1 = k
          · simp only [Values.find, h1, if_true, Option.some.injEq] at hf
            simp [h1, hf]
          · simp only [Values.find, h1, if_false] at hf
            exact List.mem_cons_of_mem _ (ih hf)
      have hvs : vs ≠ [] := hne (k, vs) hmem
      simp [Values.get, hf, hvs]

/-- C5 (amended) on a map with two keys, a repeated key and bytes that need
escaping. -/
theorem ParseQuery_Encode_roundtrip_witness :
    (ParseQuery (Encode [(lit "b", [lit "x y", lit "&="]), (lit "a", [lit "1"])])).2 = none
      ∧ Values.WF (ParseQuery (Encode [(lit "b", [lit "x y", lit "&="]), (lit "a", [lit "1"])])).1
      ∧ ∀ k, Values.find
            (ParseQuery (Encode [(lit "b", [lit "x y", lit "&="]), (lit "a", [lit "1"])])).1 k
          = Values.find [(lit "b", [lit "x y", lit "&="]), (lit "a", [lit "1"])] k :=
  ParseQuery_Encode_roundtrip [(lit "b", [lit "x y", lit "&="]), (lit "a", [lit "1"])]
    (by unfold Values.WF; decide) (by decide) (by decide)

/-- C8 (counterexample): the payload of ten thousand ampersands has no line
feed and is a well-formed query string, yet on the reply "OK ", that payload,
"\r\n" `DoRequest` returns an error, with an empty map: the payload has more
parameters than `url.ParseQuery` accepts. -/
theorem DoRequest_ok_reply_limit_counterexample :
    (10 : Byte) ∉ manyAmpersands
      ∧ wellFormedQuery manyAmpersands
      ∧ (DoRequest (envFixed reachAll (lit "OK " ++ manyAmpersands ++ lit "\r\n")) clientTwo
            world0 (lit "get_paths") []).1
          = .ret (some [],
              some (Error.text (lit "number of URL query parameters exceeded limit"))) := by
  have h10 : (10 : Byte) ∉ manyAmpersands :=
    fun h => absurd (List.eq_of_mem_replicate h) (by decide)
  have h59 : (59 : Byte) ∉ manyAmpersands :=
    fun h => absurd (List.eq_of_mem_replicate h) (by decide)
  have hlit2 : lit "\r\n" = [13, 10] := by decide
  have hlit1 : lit "OK " = [79, 75, 32] := by decide
  have hbody : (10 : Byte) ∉ lit "OK " ++ manyAmpersands ++ [13] := by
    rw [hlit1]
    intro h
    rcases List.mem_append.1 h with h1 | h1
    · rcases List.mem_append.1 h1 with h2 | h2
      · exact absurd h2 (by decide)
      · exact h10 h2
    · exact absurd h1 (by decide)
  have hline : lit "OK " ++ manyAmpersands ++ lit "\r\n"
      = (lit "OK " ++ manyAmpersands ++ [13]) ++ [10] := by
    rw [hlit2, List.append_assoc (lit "OK " ++ manyAmpersands) [13] [10]]
    rfl
  have hover : ParseQuery manyAmpersands
      = ([], some (Error.text (lit "number of URL query parameters exceeded limit"))) := by
    apply ParseQuery_over_limit
    rw [manyAmpersands, List.count_replicate_self]
    exact Nat.lt_succ_self _
  refine ⟨h10, ⟨h59, validEscapes_replicate 10000⟩, ?_⟩
  have hD := DoRequest_ok_line (envFixed reachAll (lit "OK " ++ manyAmpersands ++ lit "\r\n"))
    clientTwo
    { clientTwo with last_tracker := "10.0.0.1:7001",
                     localConn := some { addr := "10.0.0.1:7001", id := 1 },
                     isInitialized := true, reconnectCounter := 0 }
    world0
    { bad := [],
      log := [Event.isBad "10.0.0.1:7001" false, Event.dial "10.0.0.1:7001" true] }
    (lit "get_paths") [] { addr := "10.0.0.1:7001", id := 1 } manyAmpersands rfl rfl
    (by
      show (readString 10 (lit "OK " ++ manyAmpersands ++ lit "\r\n") (Error.net 0)).1
        = lit "OK " ++ manyAmpersands ++ lit "\r\n"
      rw [hline, readString_line _ _ hbody])
    h10
  rw [hD, hover]

/-- C8 (amended): when the line read on an acquired connection is "OK ", a
well-formed query string `p` without line feed and with at most ten thousand
pieces between ampersands, and "\r\n", `DoRequest` returns a nil error and the
map `url.ParseQuery` builds from `p`. In that map every key is looked
up to the percent-decoded values of the pairs of `p` with that key, in the
order they occur in `p`, and a key without pair is absent. The release call
marks the tracker recorded as last tracker alive, so that it is not blacklisted
afterwards. -/
theorem DoRequest_ok_reply (env : Env) (m m1 : MogileFsClient) (w w1 : World)
    (command : Str) (args : Values) (c : Conn) (p : Str)
    (hg : getTrackerConnection env m w = ((some c, none), m1, w1))
    (hw : env.write w1.log c (requestLine command args) = none)
    (hr : (readString 10
            (env.recv (w1.log ++ [Event.write c (requestLine command args)]) c).1
            (env.recv (w1.log ++ [Event.write c (requestLine command args)]) c).2).1
          = lit "OK " ++ p ++ lit "\r\n")
    (hlf : (10 : Byte) ∉ p) (hwf : wellFormedQuery p) (hlim : p.count 38 + 1 ≤ 10000) :
    DoRequest env m w command args =
        (.ret (some (ParseQuery p).1, none), m1,
          markTrackerAsAlive
            { w1 with log := w1.log ++ [Event.write c (requestLine command args), Event.read c] }
            m1.last_tracker)
      ∧ (∀ k, Values.find (ParseQuery p).1 k =
          if valuesOf (queryPairs p) k = [] then none else some (valuesOf (queryPairs p) k))
      ∧ Values.WF (ParseQuery p).1
      ∧ m1.last_tracker ∉ (DoRequest env m w command args).2.2.bad := by
  have hlit1 : lit "OK " = [79, 75, 32] := by decide
  have hlit2 : lit "\r\n" = [13, 10] := by decide
  have hform : lit "OK " ++ p ++ lit "\r\n" = 79 :: 75 :: 32 :: (p ++ [13, 10]) := by
    rw [hlit1, hlit2]
    simp
  have hpq := ParseQuery_wellFormed p hwf hlim
  have hmain : DoRequest env m w command args =
        (.ret (some (ParseQuery p).1, none), m1,
          markTrackerAsAlive
            { w1 with log := w1.log ++ [Event.write c (requestLine command args), Event.read c] }
            m1.last_tracker) := by
    rw [DoRequest_of_conn env m m1 w w1 command args c hg, hw]
    have hlen : (79 :: 75 :: 32 :: (p ++ [13, 10]) : Str).length > 0 := by simp
    simp only [hr, hform, classifyReply, hlen, if_true, reMogileOk_of_form p hlf,
      returnTrackerConnection]
    rw [hpq]
    simp
  refine ⟨hmain, ?_, ?_, ?_⟩
  · intro k
    rw [hpq]
    simp only
    rw [find_foldl_add]
    simp [Values.find]
  · rw [hpq]
    exact WF_foldl_add _ [] List.nodup_nil
  · rw [hmain]
    exact not_mem_markTrackerAsAlive_self _ _

/-- C8 on the reply "OK a=1&b=2" of the spec: the map is {a:[1], b:[2]}. -/
theorem DoRequest_ok_reply_witness :
    (DoRequest (envFixed reachAll (lit "OK a=1&b=2\r\n")) clientTwo world0
        (lit "get_paths") [] =
        (.ret (some (ParseQuery (lit "a=1&b=2")).1, none),
          { clientTwo with last_tracker := "10.0.0.1:7001",
                           localConn := some { addr := "10.0.0.1:7001", id := 1 },
                           isInitialized := true, reconnectCounter := 0 },
          markTrackerAsAlive
            { bad := [],
              log := [Event.isBad "10.0.0.1:7001" false, Event.dial "10.0.0.1:7001" true] ++
                     [Event.write { addr := "10.0.0.1:7001", id := 1 }
                        (requestLine (lit "get_paths") []),
                      Event.read { addr := "10.0.0.1:7001", id := 1 }] }
            "10.0.0.1:7001")
      ∧ (∀ k, Values.find (ParseQuery (lit "a=1&b=2")).1 k =
          if valuesOf (queryPairs (lit "a=1&b=2")) k = [] then none
          else some (valuesOf (queryPairs (lit "a=1&b=2")) k))
      ∧ Values.WF (ParseQuery (lit "a=1&b=2")).1
      ∧ "10.0.0.1:7001" ∉
          (DoRequest (envFixed reachAll (lit "OK a=1&b=2\r\n")) clientTwo world0
            (lit "get_paths") []).2.2.bad)
    ∧ ParseQuery (lit "a=1&b=2") = ([(lit "a", [lit "1"]), (lit "b", [lit "2"])], none) :=
  ⟨DoRequest_ok_reply (envFixed reachAll (lit "OK a=1&b=2\r\n"))
    clientTwo _ world0 _ (lit "get_paths") [] { addr := "10.0.0.1:7001", id := 1 }
    (lit "a=1&b=2") rfl rfl (by rfl) (by decide) ⟨by decide, by decide⟩ (by decide),
    by decide⟩

/-! ## Release and teardown: the claims -/

/-- C11: `returnTrackerConnection` leaves the client as it is and records one
health call on the address stored as last tracker and nothing else (the
connection is not closed): with `hadError` true the address is blacklisted
afterwards, with `hadError` false it is not, and the blacklist status of every
other address is what it was. -/
theorem returnTrackerConnection_frame (m : MogileFsClient) (w : World) (conn : Option Conn)
    (hadError : Bool) :
    (returnTrackerConnection m w conn hadError).1 = m
      ∧ (returnTrackerConnection m w conn hadError).2.log =
          w.log ++ [if hadError = true then Event.markBad m.last_tracker
                    else Event.markAlive m.last_tracker]
      ∧ (m.last_tracker ∈ (returnTrackerConnection m w conn hadError).2.bad ↔ hadError = true)
      ∧ ∀ a, a ≠ m.last_tracker →
          (a ∈ (returnTrackerConnection m w conn hadError).2.bad ↔ a ∈ w.bad) := by
  cases hadError with
  | true =>
    refine ⟨rfl, rfl, ?_, ?_⟩
    · simp only [returnTrackerConnection, if_true, iff_true]
      exact mem_markTrackerAsBad_self _ _
    · intro a ha
      simp only [returnTrackerConnection, if_true]
      rw [mem_markTrackerAsBad]
      simp [ha]
  | false =>
    refine ⟨rfl, rfl, ?_, ?_⟩
    · simp only [returnTrackerConnection, Bool.false_eq_true, if_false, iff_false]
      exact not_mem_markTrackerAsAlive_self _ _
    · intro a ha
      simp [returnTrackerConnection, markTrackerAsAlive, ha]

/-- C13: on a client bound to connection `c` (the connection is stored together
with the initialized flag, lines 67-68), `Destroy` closes `c` and changes
neither the client nor the tracker health state; the next
`getTrackerConnection` hands out the same, now closed, connection with a nil
error and records no selection event. -/
theorem Destroy_keeps_binding (env : Env) (m : MogileFsClient) (w : World) (c : Conn)
    (hconn : m.localConn = some c) (hinit : m.isInitialized = true) :
    Destroy m w = (.ret (), m, { bad := w.bad, log := w.log ++ [Event.close c] })
      ∧ getTrackerConnection env (Destroy m w).2.1 (Destroy m w).2.2 =
          ((some c, none), m, { bad := w.bad, log := w.log ++ [Event.close c] }) := by
  have hd : Destroy m w = (.ret (), m, { bad := w.bad, log := w.log ++ [Event.close c] }) := by
    simp [Destroy, hconn]
  refine ⟨hd, ?_⟩
  rw [hd]
  simp [getTrackerConnection, hinit, hconn]

/-- C13 on a bound client. -/
theorem Destroy_keeps_binding_witness :
    Destroy clientBound world0 =
        (.ret (), clientBound,
          { bad := [], log := [Event.close { addr := "10.0.0.2:7001", id := 7 }] })
      ∧ getTrackerConnection envAllDown (Destroy clientBound world0).2.1
            (Destroy clientBound world0).2.2 =
          ((some { addr := "10.0.0.2:7001", id := 7 }, none), clientBound,
            { bad := [], log := [Event.close { addr := "10.0.0.2:7001", id := 7 }] }) :=
  Destroy_keeps_binding envAllDown clientBound world0 { addr := "10.0.0.2:7001", id := 7 }
    rfl rfl

/-! ## Reply classification, second part: lemmas and claims -/

theorem reMogileFail_no_space (tok rest : Str) (b : Byte)
    (hns : ∀ x ∈ tok, isSpaceClass x = false) (hb : isSpaceClass b = true) (hb32 : b ≠ 32) :
    reMogileFail (lit "ERR " ++ tok ++ b :: rest) = none := by
  have hlit : lit "ERR " = [69, 82, 82, 32] := by decide
  have hdw : List.dropWhile (fun c => !isSpaceClass c) (tok ++ b :: rest) = b :: rest := by
    rw [List.dropWhile_append_of_pos (by intro x hx; simp [hns x hx])]
    simp [List.dropWhile_cons, hb]
  rw [hlit]
  simp only [List.cons_append, List.nil_append, reMogileFail, hdw]
  split
  · rename_i h1 h2
    simp only [List.cons.injEq] at h2
    exact absurd h2.1 hb32
  · rfl

theorem readString_err_none (d : Byte) (data : Str) (e : Error)
    (h : d ∈ (readString d data e).1) : (readString d data e).2 = none := by
  induction data with
  | nil => simp [readString] at h
  | cons c rest ih =>
    by_cases hc : c = d
    · simp [readString, hc]
    · simp only [readString, hc, if_false, List.mem_cons] at h ⊢
      rcases h with h | h
      · exact absurd h.symm hc
      · exact ih h

/-- C16 (counterexample): the failure reply "ERR unknown_key" with nothing
after the code but the line terminator is not classified as an application
error: the result is the invalid-reply error and the tracker is blacklisted. -/
theorem DoRequest_ERR_without_text_counterexample :
    (DoRequest (envFixed reachAll (lit "ERR unknown_key\r\n")) clientTwo world0
        (lit "get_paths") []).1
        = .ret (none, some (Error.text (lit "internal:invalid tracker reply")))
      ∧ (DoRequest (envFixed reachAll (lit "ERR unknown_key\r\n")) clientTwo world0
          (lit "get_paths") []).2.2.bad = ["10.0.0.1:7001"]
      ∧ reMogileFail (lit "ERR unknown_key\r\n") = none := by
  refine ⟨by rfl, by rfl, by decide⟩

/-- C16 (amended): for a non-empty error code `tok` of bytes outside `\s`, the
reply "ERR tok" followed at once by the line terminator matches neither
pattern: `DoRequest` returns the invalid-reply error and blacklists the
tracker. The reply is an application error with code `tok`, the tracker marked
alive, when a space follows the code, whatever text (possibly none) comes
after the space. -/
theorem DoRequest_ERR_needs_space (env : Env) (m m1 : MogileFsClient) (w w1 : World)
    (command : Str) (args : Values) (c : Conn) (tok : Str)
    (hg : getTrackerConnection env m w = ((some c, none), m1, w1))
    (hw : env.write w1.log c (requestLine command args) = none)
    (htok : tok ≠ []) (hns : ∀ b ∈ tok, isSpaceClass b = false) :
    ((readString 10
          (env.recv (w1.log ++ [Event.write c (requestLine command args)]) c).1
          (env.recv (w1.log ++ [Event.write c (requestLine command args)]) c).2).1
        = lit "ERR " ++ tok ++ lit "\r\n" →
      DoRequest env m w command args =
        (.ret (none, some (Error.text (lit "internal:invalid tracker reply"))), m1,
          markTrackerAsBad
            { w1 with log := w1.log ++ [Event.write c (requestLine command args), Event.read c] }
            m1.last_tracker))
    ∧ (∀ text : Str,
        (readString 10
          (env.recv (w1.log ++ [Event.write c (requestLine command args)]) c).1
          (env.recv (w1.log ++ [Event.write c (requestLine command args)]) c).2).1
        = lit "ERR " ++ tok ++ lit " " ++ text ++ lit "\r\n" →
      DoRequest env m w command args =
        (.ret (none, some (Error.text (lit "mogilefsd:" ++ tok))), m1,
          markTrackerAsAlive
            { w1 with log := w1.log ++ [Event.write c (requestLine command args), Event.read c] }
            m1.last_tracker)) := by
  have hcrlf : lit "\r\n" = [13, 10] := by decide
  have hsp : lit " " = [32] := by decide
  refine ⟨?_, ?_⟩
  · intro hr
    rw [DoRequest_of_conn env m m1 w w1 command args c hg, hw]
    have hform : lit "ERR " ++ tok ++ lit "\r\n" = lit "ERR " ++ tok ++ 13 :: [10] := by
      rw [hcrlf]
    have hfail : reMogileFail (lit "ERR " ++ tok ++ 13 :: [10]) = none :=
      reMogileFail_no_space tok [10] 13 hns (by decide) (by decide)
    have hok : reMogileOk (lit "ERR " ++ tok ++ 13 :: [10]) = none := reMogileOk_ERR _
    have hlen : (lit "ERR " ++ tok ++ 13 :: [10]).length > 0 := by simp
    simp only [hr, hform, classifyReply, hlen, if_true, hok, hfail, returnTrackerConnection]
  · intro text hr
    rw [DoRequest_of_conn env m m1 w w1 command args c hg, hw]
    have hform : lit "ERR " ++ tok ++ lit " " ++ text ++ lit "\r\n"
        = lit "ERR " ++ tok ++ 32 :: (text ++ [13, 10]) := by
      rw [hcrlf, hsp]
      simp
    have hok : reMogileOk (lit "ERR " ++ tok ++ 32 :: (text ++ [13, 10])) = none :=
      reMogileOk_ERR _
    have hlen : (lit "ERR " ++ tok ++ 32 :: (text ++ [13, 10])).length > 0 := by simp
    simp only [hr, hform, classifyReply, hlen, if_true, hok,
      reMogileFail_token tok (text ++ [13, 10]) htok hns, returnTrackerConnection]
    simp

/-- C16 (amended) on the reply "ERR unknown_key" without text. -/
theorem DoRequest_ERR_needs_space_witness :
    DoRequest (envFixed reachAll (lit "ERR unknown_key\r\n")) clientTwo world0
        (lit "get_paths") [] =
      (.ret (none, some (Error.text (lit "internal:invalid tracker reply"))),
        { clientTwo with last_tracker := "10.0.0.1:7001",
                         localConn := some { addr := "10.0.0.1:7001", id := 1 },
                         isInitialized := true, reconnectCounter := 0 },
        markTrackerAsBad
          { bad := [],
            log := [Event.isBad "10.0.0.1:7001" false, Event.dial "10.0.0.1:7001" true] ++
                   [Event.write { addr := "10.0.0.1:7001", id := 1 }
                      (requestLine (lit "get_paths") []),
                    Event.read { addr := "10.0.0.1:7001", id := 1 }] }
          "10.0.0.1:7001") :=
  (DoRequest_ERR_needs_space (envFixed reachAll (lit "ERR unknown_key\r\n"))
    clientTwo _ world0 _ (lit "get_paths") [] { addr := "10.0.0.1:7001", id := 1 }
    (lit "unknown_key") rfl rfl (by decide) (by decide)).1 (by rfl)

/-- C17: when the line read on an acquired connection is "OK ", a payload `p`
without line feed, and "\r\n", and `url.ParseQuery` reports error `e` on `p`,
`DoRequest` returns `e` (with the map of the pairs that decoded), and the
release call is made with `hadError` false: the tracker recorded as last tracker
is marked alive and is not blacklisted afterwards. -/
theorem DoRequest_ok_parse_error (env : Env) (m m1 : MogileFsClient) (w w1 : World)
    (command : Str) (args : Values) (c : Conn) (p : Str) (e : Error)
    (hg : getTrackerConnection env m w = ((some c, none), m1, w1))
    (hw : env.write w1.log c (requestLine command args) = none)
    (hr : (readString 10
            (env.recv (w1.log ++ [Event.write c (requestLine command args)]) c).1
            (env.recv (w1.log ++ [Event.write c (requestLine command args)]) c).2).1
          = lit "OK " ++ p ++ lit "\r\n")
    (hlf : (10 : Byte) ∉ p) (hperr : (ParseQuery p).2 = some e) :
    DoRequest env m w command args =
        (.ret (some (ParseQuery p).1, some e),
          returnTrackerConnection m1
            { w1 with log := w1.log ++ [Event.write c (requestLine command args), Event.read c] }
            (some c) false)
      ∧ (DoRequest env m w command args).2.2.log =
          w1.log ++ [Event.write c (requestLine command args), Event.read c,
                     Event.markAlive m1.last_tracker]
      ∧ m1.last_tracker ∉ (DoRequest env m w command args).2.2.bad := by
  have hlit1 : lit "OK " = [79, 75, 32] := by decide
  have hlit2 : lit "\r\n" = [13, 10] := by decide
  have hform : lit "OK " ++ p ++ lit "\r\n" = 79 :: 75 :: 32 :: (p ++ [13, 10]) := by
    rw [hlit1, hlit2]
    simp
  have hmain : DoRequest env m w command args =
        (.ret (some (ParseQuery p).1, some e),
          returnTrackerConnection m1
            { w1 with log := w1.log ++ [Event.write c (requestLine command args), Event.read c] }
            (some c) false) := by
    rw [DoRequest_of_conn env m m1 w w1 command args c hg, hw]
    have hlen : (79 :: 75 :: 32 :: (p ++ [13, 10]) : Str).length > 0 := by simp
    simp only [hr, hform, classifyReply, hlen, if_true, reMogileOk_of_form p hlf, hperr]
  refine ⟨hmain, ?_, ?_⟩
  · rw [hmain]
    simp [returnTrackerConnection, markTrackerAsAlive]
  · rw [hmain]
    simp only [returnTrackerConnection, Bool.false_eq_true, if_false]
    exact not_mem_markTrackerAsAlive_self _ _

/-- C17 on a payload with an invalid percent escape. -/
theorem DoRequest_ok_parse_error_witness :
    DoRequest (envFixed reachAll (lit "OK a=%zz\r\n")) clientTwo world0 (lit "get_paths") [] =
        (.ret (some (ParseQuery (lit "a=%zz")).1, some (Error.escape (lit "%zz"))),
          returnTrackerConnection
            { clientTwo with last_tracker := "10.0.0.1:7001",
                             localConn := some { addr := "10.0.0.1:7001", id := 1 },
                             isInitialized := true, reconnectCounter := 0 }
            { bad := [],
              log := [Event.isBad "10.0.0.1:7001" false, Event.dial "10.0.0.1:7001" true] ++
                     [Event.write { addr := "10.0.0.1:7001", id := 1 }
                        (requestLine (lit "get_paths") []),
                      Event.read { addr := "10.0.0.1:7001", id := 1 }] }
            (some { addr := "10.0.0.1:7001", id := 1 }) false)
      ∧ (DoRequest (envFixed reachAll (lit "OK a=%zz\r\n")) clientTwo world0
          (lit "get_paths") []).2.2.log =
          [Event.isBad "10.0.0.1:7001" false, Event.dial "10.0.0.1:7001" true] ++
            [Event.write { addr := "10.0.0.1:7001", id := 1 } (requestLine (lit "get_paths") []),
             Event.read { addr := "10.0.0.1:7001", id := 1 },
             Event.markAlive "10.0.0.1:7001"]
      ∧ "10.0.0.1:7001" ∉
          (DoRequest (envFixed reachAll (lit "OK a=%zz\r\n")) clientTwo world0
            (lit "get_paths") []).2.2.bad :=
  DoRequest_ok_parse_error (envFixed reachAll (lit "OK a=%zz\r\n"))
    clientTwo _ world0 _ (lit "get_paths") [] { addr := "10.0.0.1:7001", id := 1 }
    (lit "a=%zz") (Error.escape (lit "%zz")) rfl rfl (by rfl) (by decide) (by decide)

/-- C18: whenever `DoRequest` returns a non-nil mapping, a connection was
acquired, the write succeeded, and the one-line read returned a nil error and
a line of the form "OK ", payload, "\r\n" with no line feed in the payload. A
line cut short by end-of-stream or a read error, or ended by a line feed
without carriage return, gives a nil mapping. -/
theorem DoRequest_success_needs_full_line (env : Env) (m : MogileFsClient) (w : World)
    (command : Str) (args : Values) (v : Values) (e : Option Error)
    (h : (DoRequest env m w command args).1 = .ret (some v, e)) :
    ∃ c p, (getTrackerConnection env m w).1.1 = some c
      ∧ env.write (getTrackerConnection env m w).2.2.log c (requestLine command args) = none
      ∧ readString 10
          (env.recv ((getTrackerConnection env m w).2.2.log
            ++ [Event.write c (requestLine command args)]) c).1
          (env.recv ((getTrackerConnection env m w).2.2.log
            ++ [Event.write c (requestLine command args)]) c).2
          = (lit "OK " ++ p ++ lit "\r\n", none)
      ∧ (10 : Byte) ∉ p := by
  have hge := getTrackerConnection_err_nil env m w
  cases hc : (getTrackerConnection env m w).1.1 with
  | none =>
    exfalso
    have hp : (DoRequest env m w command args).1 = .panic := by
      simp [DoRequest, hge, hc, exchange]
    rw [hp] at h
    cases h
  | some c =>
    have hg : getTrackerConnection env m w =
        ((some c, none), (getTrackerConnection env m w).2.1, (getTrackerConnection env m w).2.2) := by
      rw [← hc, ← hge]
    have hD := DoRequest_of_conn env m _ w _ command args c hg
    cases hw : env.write (getTrackerConnection env m w).2.2.log c (requestLine command args) with
    | some e2 =>
      exfalso
      rw [hD, hw] at h
      simp at h
    | none =>
      rw [hD, hw] at h
      simp only at h
      suffices hs : ∃ p, readString 10
          (env.recv ((getTrackerConnection env m w).2.2.log
            ++ [Event.write c (requestLine command args)]) c).1
          (env.recv ((getTrackerConnection env m w).2.2.log
            ++ [Event.write c (requestLine command args)]) c).2
          = (lit "OK " ++ p ++ lit "\r\n", none) ∧ (10 : Byte) ∉ p by
        obtain ⟨p, h1, h2⟩ := hs
        exact ⟨c, p, rfl, hw, h1, h2⟩
      have hrs := readString_err_none 10
        (env.recv ((getTrackerConnection env m w).2.2.log
          ++ [Event.write c (requestLine command args)]) c).1
        (env.recv ((getTrackerConnection env m w).2.2.log
          ++ [Event.write c (requestLine command args)]) c).2
      generalize readString 10 _ _ = rd at hrs h ⊢
      obtain ⟨line, rerr⟩ := rd
      simp only at hrs h
      have hlit1 : lit "OK " = [79, 75, 32] := by decide
      have hlit2 : lit "\r\n" = [13, 10] := by decide
      cases hok : reMogileOk line with
      | none =>
        exfalso
        by_cases hne : line = []
        · simp [classifyReply, hne] at h
        · cases hf : reMogileFail line <;>
            simp [classifyReply, List.length_pos.2 hne, hok, hf] at h
      | some p =>
        obtain ⟨hline, hlf⟩ := reMogileOk_some line p hok
        have hmem : (10 : Byte) ∈ line := by rw [hline]; simp
        refine ⟨p, ?_, hlf⟩
        rw [Prod.mk.injEq]
        refine ⟨?_, hrs hmem⟩
        rw [hline, hlit1, hlit2]
        simp

/-- C18 on the reply "OK a=1&b=2". -/
theorem DoRequest_success_needs_full_line_witness :
    ∃ c p, (getTrackerConnection (envFixed reachAll (lit "OK a=1&b=2\r\n")) clientTwo world0).1.1
        = some c
      ∧ (envFixed reachAll (lit "OK a=1&b=2\r\n")).write
          (getTrackerConnection (envFixed reachAll (lit "OK a=1&b=2\r\n")) clientTwo world0).2.2.log
          c (requestLine (lit "get_paths") []) = none
      ∧ readString 10
          ((envFixed reachAll (lit "OK a=1&b=2\r\n")).recv
            ((getTrackerConnection (envFixed reachAll (lit "OK a=1&b=2\r\n")) clientTwo
                world0).2.2.log
              ++ [Event.write c (requestLine (lit "get_paths") [])]) c).1
          ((envFixed reachAll (lit "OK a=1&b=2\r\n")).recv
            ((getTrackerConnection (envFixed reachAll (lit "OK a=1&b=2\r\n")) clientTwo
                world0).2.2.log
              ++ [Event.write c (requestLine (lit "get_paths") [])]) c).2
          = (lit "OK " ++ p ++ lit "\r\n", none)
      ∧ (10 : Byte) ∉ p :=
  DoRequest_success_needs_full_line (envFixed reachAll (lit "OK a=1&b=2\r\n")) clientTwo world0
    (lit "get_paths") [] [(lit "a", [lit "1"]), (lit "b", [lit "2"])] none (by rfl)

/-! ## Tracker selection, second part: lemmas -/

theorem dialCount_append (a b : List Event) : dialCount (a ++ b) = dialCount a + dialCount b := by
  simp [dialCount, List.filter_append]

/-- One round of the inner loop that goes on to the next host: the facts of the
remaining rounds extend to the whole run. -/
theorem SelectionFacts_step (env : Env) (ib : Bool) (host : String) (rest : List String)
    (m : MogileFsClient) (w w1 : World) (r : LoopState) (pre evs : List Event)
    (hlog : w1.log = w.log ++ pre)
    (hsel : ∀ e ∈ pre, Event.isSelection e = true)
    (hcount : dialCount pre ≤ 1)
    (hbad : ∀ a, a ∈ w1.bad ↔ a ∈ w.bad ∨ Event.markBad a ∈ pre)
    (hmark : ∀ a, Event.markBad a ∈ pre → a = host ∧ ∃ l, (env.dial l a).toBool = false)
    (hhost : host ∈ w1.bad)
    (hpass2 : ib = true → Event.dial host false ∈ pre ∧ ∃ l, (env.dial l host).toBool = false)
    (h : SelectionFacts env ib rest { m with last_tracker := host } w1 r evs) :
    SelectionFacts env ib (host :: rest) m w r (pre ++ evs) := by
  obtain ⟨f1, f2, f3, f4, f5, f6⟩ := h
  refine ⟨?_, ?_, ?_, ?_, ?_, ?_⟩
  · rw [f1, hlog, List.append_assoc]
  · intro e he
    rcases List.mem_append.1 he with h1 | h1
    · exact hsel e h1
    · exact f2 e h1
  · rw [dialCount_append, List.length_cons]
    omega
  · intro a
    rw [f4 a, hbad a, List.mem_append]
    tauto
  · intro a ha
    rcases List.mem_append.1 ha with h1 | h1
    · obtain ⟨e1, e2⟩ := hmark a h1
      exact ⟨e1 ▸ List.mem_cons_self _ _, e2⟩
    · obtain ⟨e1, e2⟩ := f5 a h1
      exact ⟨List.mem_cons_of_mem _ e1, e2⟩
  · cases r with
    | returned c1 e1 m1 w2 =>
      obtain ⟨t, c, l, ht, hd, hc, he, hm⟩ := f6
      exact ⟨t, c, l, List.mem_cons_of_mem _ ht, hd, hc, he, hm⟩
    | running c1 e1 m1 w2 =>
      obtain ⟨hm, hb, hp⟩ := f6
      refine ⟨hm, ?_, ?_⟩
      · intro a ha
        rcases List.mem_cons.1 ha with h1 | h1
        · have hw2 : a ∈ w2.bad ↔ a ∈ w1.bad ∨ Event.markBad a ∈ evs := f4 a
          exact hw2.2 (Or.inl (h1 ▸ hhost))
        · exact hb a h1
      · intro hib a ha
        rcases List.mem_cons.1 ha with h1 | h1
        · obtain ⟨p1, p2⟩ := hpass2 hib
          exact ⟨List.mem_append.2 (Or.inl (h1 ▸ p1)), h1 ▸ p2⟩
        · obtain ⟨p1, p2⟩ := hp hib a h1
          exact ⟨List.mem_append.2 (Or.inr p1), p2⟩

/-- Every run of the inner loop satisfies `SelectionFacts`, on any network. -/
theorem trackerLoop_facts (env : Env) (ib : Bool) :
    ∀ (hosts : List String) (conn : Option Conn) (err : Option Error) (m : MogileFsClient)
      (w : World),
      ∃ evs, SelectionFacts env ib hosts m w (trackerLoop env ib hosts conn err m w) evs := by
  intro hosts
  induction hosts with
  | nil =>
    intro conn err m w
    refine ⟨[], ?_⟩
    rw [trackerLoop_nil]
    refine ⟨by simp [LoopState.world], by simp, by simp [dialCount], by simp [LoopState.world],
      by simp, rfl, by simp, by simp⟩
  | cons host rest ih =>
    intro conn err m w
    cases ib with
    | false =>
      by_cases hb : host ∈ w.bad
      · rw [trackerLoop_skip env host rest conn err m w hb]
        obtain ⟨evs, h⟩ := ih conn err { m with last_tracker := host }
          { w with log := w.log ++ [Event.isBad host true] }
        refine ⟨[Event.isBad host true] ++ evs,
          SelectionFacts_step env false host rest m w
            { w with log := w.log ++ [Event.isBad host true] } _ [Event.isBad host true] evs rfl
            ?_ ?_ ?_ ?_ hb ?_ h⟩
        · intro e he; simp at he; subst he; rfl
        · simp [dialCount, Event.isDial]
        · intro a; simp
        · intro a ha; simp at ha
        · intro hc; cases hc
      · cases hd : env.dial (w.log ++ [Event.isBad host false]) host with
        | ok c2 =>
          rw [trackerLoop_pass1_ok env host rest conn err m w c2 hb hd]
          refine ⟨[Event.isBad host false, Event.dial host true], ?_⟩
          refine ⟨by simp [LoopState.world], ?_, by simp [dialCount, Event.isDial],
            by simp [LoopState.world], by simp, ?_⟩
          · intro e he
            simp at he
            rcases he with rfl | rfl <;> rfl
          · exact ⟨host, c2, _, List.mem_cons_self _ _, hd, rfl, rfl, rfl⟩
        | error e2 =>
          rw [trackerLoop_pass1_fail env host rest conn err m w e2 hb hd]
          obtain ⟨evs, h⟩ := ih none (some e2) { m with last_tracker := host }
            { bad := host :: w.bad,
              log := w.log ++ [Event.isBad host false, Event.dial host false,
                               Event.markBad host] }
          refine ⟨[Event.isBad host false, Event.dial host false, Event.markBad host] ++ evs,
            SelectionFacts_step env false host rest m w
              { bad := host :: w.bad,
                log := w.log ++ [Event.isBad host false, Event.dial host false,
                                 Event.markBad host] } _
              [Event.isBad host false, Event.dial host false, Event.markBad host] evs rfl
              ?_ ?_ ?_ ?_ (List.mem_cons_self _ _) ?_ h⟩
          · intro e he
            simp at he
            rcases he with rfl | rfl | rfl <;> rfl
          · simp [dialCount, Event.isDial]
          · intro a; simp only [List.mem_cons, Event.markBad.injEq]; simp; tauto
          · intro a ha
            simp at ha
            exact ⟨ha, _, by rw [ha, hd]; rfl⟩
          · intro hc; cases hc
    | true =>
      cases hd : env.dial w.log host with
      | ok c2 =>
        rw [trackerLoop_pass2_ok env host rest conn err m w c2 hd]
        refine ⟨[Event.dial host true], ?_⟩
        refine ⟨by simp [LoopState.world], ?_, by simp [dialCount, Event.isDial],
          by simp [LoopState.world], by simp, ?_⟩
        · intro e he
          simp at he
          subst he
          rfl
        · exact ⟨host, c2, _, List.mem_cons_self _ _, hd, rfl, rfl, rfl⟩
      | error e2 =>
        rw [trackerLoop_pass2_fail env host rest conn err m w e2 hd]
        obtain ⟨evs, h⟩ := ih none (some e2) { m with last_tracker := host }
          { bad := if host ∈ w.bad then w.bad else host :: w.bad,
            log := w.log ++ [Event.dial host false, Event.markBad host] }
        have hfail : (env.dial w.log host).toBool = false := by rw [hd]; rfl
        refine ⟨[Event.dial host false, Event.markBad host] ++ evs,
          SelectionFacts_step env true host rest m w
            { bad := if host ∈ w.bad then w.bad else host :: w.bad,
              log := w.log ++ [Event.dial host false, Event.markBad host] } _
            [Event.dial host false, Event.markBad host] evs rfl ?_ ?_ ?_ ?_ ?_ ?_ h⟩
        · intro e he
          simp at he
          rcases he with rfl | rfl <;> rfl
        · simp [dialCount, Event.isDial]
        · intro a
          by_cases hh : host ∈ w.bad
          · simp only [hh, if_true, List.mem_cons, Event.markBad.injEq]
            simp
            intro hah
            exact hah ▸ hh
          · simp only [hh, if_false, List.mem_cons, Event.markBad.injEq]
            simp
            tauto
        · intro a ha
          simp at ha
          exact ⟨ha, _, ha ▸ hfail⟩
        · by_cases hh : host ∈ w.bad
          · simp [hh]
          · simp [hh]
        · intro _
          exact ⟨by simp, _, hfail⟩

theorem lastOr_cons_indep (x y : String) (l : List String) (h : l ≠ []) :
    lastOr x l = lastOr y l := by
  cases l with
  | nil => exact absurd rfl h
  | cons a rest => rfl

theorem lastOr_idem (d : String) (l : List String) : lastOr (lastOr d l) l = lastOr d l := by
  cases l with
  | nil => rfl
  | cons a rest => rfl

theorem lastOr_append_singleton (d z : String) (l : List String) : lastOr d (l ++ [z]) = z := by
  induction l generalizing d with
  | nil => rfl
  | cons a rest ih => exact ih a

/-- What `getTrackerConnection` has done on a client that is not initialized,
on any network: the events it recorded are selection events, at most two
connect attempts per tracker; the blacklist grew by the addresses it marked,
each after a failed attempt; and either one attempt succeeded and bound the
client, or every tracker was attempted, failed and is blacklisted, and the
client only had its last tracker changed. -/
theorem getTrackerConnection_facts (env : Env) (m : MogileFsClient) (w : World)
    (hinit : m.isInitialized = false) :
    ∃ evs, (getTrackerConnection env m w).2.2.log = w.log ++ evs
      ∧ (∀ e ∈ evs, Event.isSelection e = true)
      ∧ dialCount evs ≤ 2 * m.trackers.length
      ∧ (∀ a, a ∈ (getTrackerConnection env m w).2.2.bad ↔ a ∈ w.bad ∨ Event.markBad a ∈ evs)
      ∧ (∀ a, Event.markBad a ∈ evs → a ∈ m.trackers ∧ ∃ l, (env.dial l a).toBool = false)
      ∧ ((∃ t c l, t ∈ m.trackers ∧ env.dial l t = .ok c
            ∧ (getTrackerConnection env m w).1 = (some c, none)
            ∧ (getTrackerConnection env m w).2.1 =
                { m with last_tracker := t, localConn := some c, isInitialized := true,
                         reconnectCounter := 0 })
        ∨ ((getTrackerConnection env m w).1 = (m.localConn, none)
            ∧ (getTrackerConnection env m w).2.1 =
                { m with last_tracker := lastOr m.last_tracker m.trackers }
            ∧ ∀ a ∈ m.trackers, a ∈ (getTrackerConnection env m w).2.2.bad
                ∧ Event.dial a false ∈ evs ∧ ∃ l, (env.dial l a).toBool = false)) := by
  obtain ⟨evs1, f1⟩ := trackerLoop_facts env false m.trackers none none m w
  simp only [getTrackerConnection, hinit, if_true, passLoop]
  cases h1 : trackerLoop env false m.trackers none none m w with
  | returned c1 e1 m1 w1 =>
    rw [h1] at f1
    obtain ⟨a1, a2, a3, a4, a5, t, c, l, ht, hd, hc, he, hm⟩ := f1
    refine ⟨evs1, a1, a2, by omega, a4, a5, Or.inl ⟨t, c, l, ht, hd, ?_, hm⟩⟩
    simp only [hc, he]
  | running c1 e1 m1 w1 =>
    rw [h1] at f1
    obtain ⟨a1, a2, a3, a4, a5, hm1, _, _⟩ := f1
    simp only [LoopState.world] at a1 a4
    have htr : m1.trackers = m.trackers := by rw [hm1]
    obtain ⟨evs2, f2⟩ := trackerLoop_facts env true m1.trackers c1 e1 m1 w1
    simp only
    cases h2 : trackerLoop env true m1.trackers c1 e1 m1 w1 with
    | returned c2 e2 m2 w2 =>
      rw [h2] at f2
      obtain ⟨b1, b2, b3, b4, b5, t, c, l, ht, hd, hc, he, hm⟩ := f2
      simp only [LoopState.world] at b1 b4
      rw [htr] at b3 b5 ht
      refine ⟨evs1 ++ evs2, ?_, ?_, ?_, ?_, ?_, Or.inl ⟨t, c, l, ht, hd, ?_, ?_⟩⟩
      · simp only; rw [b1, a1, List.append_assoc]
      · intro e he2
        rcases List.mem_append.1 he2 with h | h
        · exact a2 e h
        · exact b2 e h
      · rw [dialCount_append]; omega
      · intro a
        simp only
        rw [b4 a, a4 a, List.mem_append]
        tauto
      · intro a ha
        rcases List.mem_append.1 ha with h | h
        · exact a5 a h
        · exact b5 a h
      · simp only [hc, he]
      · simp only
        rw [hm, hm1]
    | running c2 e2 m2 w2 =>
      rw [h2] at f2
      obtain ⟨b1, b2, b3, b4, b5, hm2, hb, hp⟩ := f2
      simp only [LoopState.world] at b1 b4
      rw [htr] at b3 b5 hm2 hb hp
      have hm2b : m2 = { m with last_tracker := lastOr m.last_tracker m.trackers } := by
        rw [hm2, hm1]
        simp only [lastOr_idem]
      refine ⟨evs1 ++ evs2, ?_, ?_, ?_, ?_, ?_, Or.inr ⟨?_, ?_, ?_⟩⟩
      · simp only; rw [b1, a1, List.append_assoc]
      · intro e he2
        rcases List.mem_append.1 he2 with h | h
        · exact a2 e h
        · exact b2 e h
      · rw [dialCount_append]; omega
      · intro a
        simp only
        rw [b4 a, a4 a, List.mem_append]
        tauto
      · intro a ha
        rcases List.mem_append.1 ha with h | h
        · exact a5 a h
        · exact b5 a h
      · simp only
        rw [hm2b]
      · simp only
        rw [hm2b, hinit]
      · intro a ha
        obtain ⟨p1, p2⟩ := hp rfl a ha
        exact ⟨hb a ha, List.mem_append.2 (Or.inr p1), p2⟩

theorem lastOr_getLast? (d : String) (l : List String) (h : l ≠ []) :
    l.getLast? = some (lastOr d l) := by
  induction l generalizing d with
  | nil => exact absurd rfl h
  | cons a rest ih =>
    cases rest with
    | nil => rfl
    | cons b rest2 =>
      rw [List.getLast?_cons_cons]
      exact ih a (by simp)

/-! ## Tracker selection, second part: the claims -/

/-- C19: on a client that is not initialized, with a non-empty tracker list,
on a network where every connect attempt fails, `getTrackerConnection`
returns the stored connection (nil on a client that never connected) with a nil
error; the client is unchanged but for the last tracker, which is the last
address of the list, so it is still not initialized; every address of the list
has a failed connect attempt in the history of the call and is blacklisted; the
call made at most two connect attempts per address; and the next call runs
selection again, attempting every address once more. -/
theorem getTrackerConnection_all_fail (env : Env) (m : MogileFsClient) (w : World)
    (hinit : m.isInitialized = false) (hne : m.trackers ≠ [])
    (hdown : ∀ l a, (env.dial l a).toBool = false) :
    (getTrackerConnection env m w).1 = (m.localConn, none)
      ∧ (getTrackerConnection env m w).2.1 =
          { m with last_tracker := lastOr m.last_tracker m.trackers }
      ∧ m.trackers.getLast? = some (getTrackerConnection env m w).2.1.last_tracker
      ∧ (getTrackerConnection env m w).2.1.isInitialized = false
      ∧ (getTrackerConnection env m w).2.1.localConn = m.localConn
      ∧ (∃ evs, (getTrackerConnection env m w).2.2.log = w.log ++ evs
          ∧ dialCount evs ≤ 2 * m.trackers.length
          ∧ ∀ a ∈ m.trackers, Event.dial a false ∈ evs
              ∧ a ∈ (getTrackerConnection env m w).2.2.bad)
      ∧ ∃ evs2,
          (getTrackerConnection env (getTrackerConnection env m w).2.1
              (getTrackerConnection env m w).2.2).2.2.log
            = (getTrackerConnection env m w).2.2.log ++ evs2
          ∧ ∀ a ∈ m.trackers, Event.dial a false ∈ evs2 := by
  have key : ∀ (m0 : MogileFsClient) (w0 : World), m0.isInitialized = false →
      (getTrackerConnection env m0 w0).1 = (m0.localConn, none)
        ∧ (getTrackerConnection env m0 w0).2.1 =
            { m0 with last_tracker := lastOr m0.last_tracker m0.trackers }
        ∧ ∃ evs, (getTrackerConnection env m0 w0).2.2.log = w0.log ++ evs
            ∧ dialCount evs ≤ 2 * m0.trackers.length
            ∧ ∀ a ∈ m0.trackers, Event.dial a false ∈ evs
                ∧ a ∈ (getTrackerConnection env m0 w0).2.2.bad := by
    intro m0 w0 h0
    obtain ⟨evs, e1, _, e3, _, _, e6⟩ := getTrackerConnection_facts env m0 w0 h0
    rcases e6 with ⟨t, c, l, _, hd, _, _⟩ | ⟨r1, r2, r3⟩
    · exfalso
      have := hdown l t
      rw [hd] at this
      cases this
    · exact ⟨r1, r2, evs, e1, e3, fun a ha => ⟨(r3 a ha).2.1, (r3 a ha).1⟩⟩
  obtain ⟨k1, k2, evs, k3, k4, k5⟩ := key m w hinit
  have hinit2 : (getTrackerConnection env m w).2.1.isInitialized = false := by
    rw [k2]; exact hinit
  have htr : (getTrackerConnection env m w).2.1.trackers = m.trackers := by rw [k2]
  obtain ⟨_, _, evs2, j3, _, j5⟩ :=
    key (getTrackerConnection env m w).2.1 (getTrackerConnection env m w).2.2 hinit2
  rw [htr] at j5
  refine ⟨k1, k2, ?_, hinit2, by rw [k2], ⟨evs, k3, k4, k5⟩, evs2, j3, fun a ha => (j5 a ha).1⟩
  rw [k2]
  exact lastOr_getLast? m.last_tracker m.trackers hne

/-- C19 on two trackers that both refuse. -/
theorem getTrackerConnection_all_fail_witness :
    (getTrackerConnection envAllDown clientTwo world0).1 = (clientTwo.localConn, none)
      ∧ (getTrackerConnection envAllDown clientTwo world0).2.1 =
          { clientTwo with last_tracker := lastOr clientTwo.last_tracker clientTwo.trackers }
      ∧ clientTwo.trackers.getLast?
          = some (getTrackerConnection envAllDown clientTwo world0).2.1.last_tracker
      ∧ (getTrackerConnection envAllDown clientTwo world0).2.1.isInitialized = false
      ∧ (getTrackerConnection envAllDown clientTwo world0).2.1.localConn = clientTwo.localConn
      ∧ (∃ evs, (getTrackerConnection envAllDown clientTwo world0).2.2.log = world0.log ++ evs
          ∧ dialCount evs ≤ 2 * clientTwo.trackers.length
          ∧ ∀ a ∈ clientTwo.trackers, Event.dial a false ∈ evs
              ∧ a ∈ (getTrackerConnection envAllDown clientTwo world0).2.2.bad)
      ∧ ∃ evs2,
          (getTrackerConnection envAllDown (getTrackerConnection envAllDown clientTwo world0).2.1
              (getTrackerConnection envAllDown clientTwo world0).2.2).2.2.log
            = (getTrackerConnection envAllDown clientTwo world0).2.2.log ++ evs2
          ∧ ∀ a ∈ clientTwo.trackers, Event.dial a false ∈ evs2 :=
  getTrackerConnection_all_fail envAllDown clientTwo world0 rfl (by decide) (fun _ _ => rfl)

/-- Where the successful connect attempts are in the history of one run of the
inner loop: a run that returns records exactly one, as its last event, on the
address it leaves as last tracker; a run that goes to its end records none. -/
theorem trackerLoop_dial_trace (env : Env) (ib : Bool) :
    ∀ (hosts : List String) (conn : Option Conn) (err : Option Error) (m : MogileFsClient)
      (w : World),
      (∀ c1 e1 m1 w1, trackerLoop env ib hosts conn err m w = .returned c1 e1 m1 w1 →
        ∃ pre t c, w1.log = w.log ++ (pre ++ [Event.dial t true])
          ∧ (∀ a, Event.dial a true ∉ pre)
          ∧ env.dial (w.log ++ pre) t = .ok c
          ∧ c1 = some c ∧ m1.last_tracker = t ∧ m1.isInitialized = true)
      ∧ (∀ c1 e1 m1 w1, trackerLoop env ib hosts conn err m w = .running c1 e1 m1 w1 →
        ∃ evs, w1.log = w.log ++ evs ∧ (∀ a, Event.dial a true ∉ evs)
          ∧ m1.isInitialized = m.isInitialized ∧ m1.trackers = m.trackers) := by
  intro hosts
  induction hosts with
  | nil =>
    intro conn err m w
    rw [trackerLoop_nil]
    refine ⟨fun c1 e1 m1 w1 h => (by cases h), fun c1 e1 m1 w1 h => ?_⟩
    cases h
    exact ⟨[], by simp, by simp, rfl, rfl⟩
  | cons host rest ih =>
    intro conn err m w
    -- a round that goes on: the events `step` are recorded, none a successful connect
    have hstep : ∀ (conn2 : Option Conn) (err2 : Option Error) (w2 : World) (step : List Event),
        w2.log = w.log ++ step → (∀ a, Event.dial a true ∉ step) →
        trackerLoop env ib (host :: rest) conn err m w
          = trackerLoop env ib rest conn2 err2 { m with last_tracker := host } w2 →
        (∀ c1 e1 m1 w1, trackerLoop env ib (host :: rest) conn err m w
            = .returned c1 e1 m1 w1 →
          ∃ pre t c, w1.log = w.log ++ (pre ++ [Event.dial t true])
            ∧ (∀ a, Event.dial a true ∉ pre)
            ∧ env.dial (w.log ++ pre) t = .ok c
            ∧ c1 = some c ∧ m1.last_tracker = t ∧ m1.isInitialized = true)
        ∧ (∀ c1 e1 m1 w1, trackerLoop env ib (host :: rest) conn err m w
            = .running c1 e1 m1 w1 →
          ∃ evs, w1.log = w.log ++ evs ∧ (∀ a, Event.dial a true ∉ evs)
            ∧ m1.isInitialized = m.isInitialized ∧ m1.trackers = m.trackers) := by
      intro conn2 err2 w2 step hlog hno heq
      obtain ⟨i1, i2⟩ := ih conn2 err2 { m with last_tracker := host } w2
      rw [heq]
      refine ⟨?_, ?_⟩
      · intro c1 e1 m1 w1 h
        obtain ⟨pre, t, c, p1, p2, p3, p4, p5, p6⟩ := i1 c1 e1 m1 w1 h
        refine ⟨step ++ pre, t, c, ?_, ?_, ?_, p4, p5, p6⟩
        · rw [p1, hlog]; simp
        · intro a ha
          rcases List.mem_append.1 ha with h1 | h1
          · exact hno a h1
          · exact p2 a h1
        · rw [← List.append_assoc, ← hlog]
          exact p3
      · intro c1 e1 m1 w1 h
        obtain ⟨evs, p1, p2, p3, p4⟩ := i2 c1 e1 m1 w1 h
        refine ⟨step ++ evs, ?_, ?_, p3, p4⟩
        · rw [p1, hlog]; simp
        · intro a ha
          rcases List.mem_append.1 ha with h1 | h1
          · exact hno a h1
          · exact p2 a h1
    cases ib with
    | false =>
      by_cases hb : host ∈ w.bad
      · exact hstep conn err { w with log := w.log ++ [Event.isBad host true] }
          [Event.isBad host true] rfl (by simp)
          (trackerLoop_skip env host rest conn err m w hb)
      · cases hd : env.dial (w.log ++ [Event.isBad host false]) host with
        | ok c2 =>
          rw [trackerLoop_pass1_ok env host rest conn err m w c2 hb hd]
          refine ⟨fun c1 e1 m1 w1 h => ?_, fun c1 e1 m1 w1 h => (by cases h)⟩
          cases h
          exact ⟨[Event.isBad host false], host, c2, by simp, by simp, hd, rfl, rfl, rfl⟩
        | error e2 =>
          exact hstep none (some e2)
            { bad := host :: w.bad,
              log := w.log ++ [Event.isBad host false, Event.dial host false,
                               Event.markBad host] }
            [Event.isBad host false, Event.dial host false, Event.markBad host] rfl (by simp)
            (trackerLoop_pass1_fail env host rest conn err m w e2 hb hd)
    | true =>
      cases hd : env.dial w.log host with
      | ok c2 =>
        rw [trackerLoop_pass2_ok env host rest conn err m w c2 hd]
        refine ⟨fun c1 e1 m1 w1 h => ?_, fun c1 e1 m1 w1 h => (by cases h)⟩
        cases h
        exact ⟨[], host, c2, by simp, by simp, by simpa using hd, rfl, rfl, rfl⟩
      | error e2 =>
        exact hstep none (some e2)
          { bad := if host ∈ w.bad then w.bad else host :: w.bad,
            log := w.log ++ [Event.dial host false, Event.markBad host] }
          [Event.dial host false, Event.markBad host] rfl (by simp)
          (trackerLoop_pass2_fail env host rest conn err m w e2 hd)

/-- Where the successful connect attempts are in the history of
`getTrackerConnection` on a client that is not initialized: either exactly
one, as the last event, on the address left as last tracker, the call returning
its connection and the client being initialized; or none, the client staying
not initialized. -/
theorem getTrackerConnection_dial_trace (env : Env) (m : MogileFsClient) (w : World)
    (hinit : m.isInitialized = false) :
    (∃ pre t c, (getTrackerConnection env m w).2.2.log = w.log ++ (pre ++ [Event.dial t true])
        ∧ (∀ a, Event.dial a true ∉ pre)
        ∧ env.dial (w.log ++ pre) t = .ok c
        ∧ (getTrackerConnection env m w).1.1 = some c
        ∧ (getTrackerConnection env m w).2.1.last_tracker = t
        ∧ (getTrackerConnection env m w).2.1.isInitialized = true)
    ∨ (∃ evs, (getTrackerConnection env m w).2.2.log = w.log ++ evs
        ∧ (∀ a, Event.dial a true ∉ evs)
        ∧ (getTrackerConnection env m w).2.1.isInitialized = false) := by
  obtain ⟨a1, a2⟩ := trackerLoop_dial_trace env false m.trackers none none m w
  rw [getTrackerConnection, if_pos hinit]
  simp only [passLoop]
  cases h1 : trackerLoop env false m.trackers none none m w with
  | returned c1 e1 m1 w1 =>
    obtain ⟨pre, t, c, p1, p2, p3, p4, p5, p6⟩ := a1 c1 e1 m1 w1 h1
    exact Or.inl ⟨pre, t, c, p1, p2, p3, p4, p5, p6⟩
  | running c1 e1 m1 w1 =>
    obtain ⟨evs1, q1, q2, q3, q4⟩ := a2 c1 e1 m1 w1 h1
    obtain ⟨b1, b2⟩ := trackerLoop_dial_trace env true m1.trackers c1 e1 m1 w1
    simp only
    cases h2 : trackerLoop env true m1.trackers c1 e1 m1 w1 with
    | returned c2 e2 m2 w2 =>
      obtain ⟨pre, t, c, p1, p2, p3, p4, p5, p6⟩ := b1 c2 e2 m2 w2 h2
      refine Or.inl ⟨evs1 ++ pre, t, c, ?_, ?_, ?_, p4, p5, p6⟩
      · simp only
        rw [p1, q1]
        simp
      · intro a ha
        rcases List.mem_append.1 ha with h | h
        · exact q2 a h
        · exact p2 a h
      · rw [← List.append_assoc, ← q1]
        exact p3
    | running c2 e2 m2 w2 =>
      obtain ⟨evs2, r1, r2, r3, _⟩ := b2 c2 e2 m2 w2 h2
      refine Or.inr ⟨evs1 ++ evs2, ?_, ?_, ?_⟩
      · simp only
        rw [r1, q1]
        simp
      · intro a ha
        rcases List.mem_append.1 ha with h | h
        · exact q2 a h
        · exact r2 a h
      · simp only
        rw [r3, q3, hinit]

/-- C15: on a client that is not initialized, on any network, let `evs` be the
events `getTrackerConnection` adds to the history. Whenever `evs` holds a
successful connect attempt to an address `t`, it is the last event of the call
and the only successful attempt, `t` is an address of the list, and the call
returns the connection `c` of that attempt with a nil error, the client having
`c` as active connection, the initialized flag set, the reconnect counter zero
and `t` as last tracker. When `evs` holds no successful attempt, every address
of the list has a failed attempt in `evs` and the client is still not
initialized. The call records no mark-alive event, and the blacklist grows only
by addresses marked in `evs`, each of which had a failing attempt. Under a
fixed reachability assignment the address `t` of a successful attempt is not
marked, so its blacklist status after the call is its status before; and a
reachable address in the list makes an attempt succeed. -/
theorem getTrackerConnection_success_state (env : Env) (m : MogileFsClient) (w : World)
    (hinit : m.isInitialized = false) :
    ∃ evs, (getTrackerConnection env m w).2.2.log = w.log ++ evs
      ∧ (∀ a, Event.markAlive a ∉ evs)
      ∧ (∀ a, a ∈ (getTrackerConnection env m w).2.2.bad ↔ a ∈ w.bad ∨ Event.markBad a ∈ evs)
      ∧ (∀ a, Event.markBad a ∈ evs → ∃ l2, (env.dial l2 a).toBool = false)
      ∧ (∀ t, Event.dial t true ∈ evs →
          ∃ c pre, evs = pre ++ [Event.dial t true]
            ∧ (∀ a, Event.dial a true ∉ pre)
            ∧ env.dial (w.log ++ pre) t = .ok c
            ∧ t ∈ m.trackers
            ∧ (getTrackerConnection env m w).1 = (some c, none)
            ∧ (getTrackerConnection env m w).2.1 =
                { m with last_tracker := t, localConn := some c, isInitialized := true,
                         reconnectCounter := 0 })
      ∧ ((∀ t, Event.dial t true ∉ evs) →
          (getTrackerConnection env m w).1 = (m.localConn, none)
            ∧ (getTrackerConnection env m w).2.1.isInitialized = false
            ∧ ∀ a ∈ m.trackers, Event.dial a false ∈ evs)
      ∧ ∀ reach : String → Except Error Conn, (∀ l2 a, env.dial l2 a = reach a) →
          (∀ t, Event.dial t true ∈ evs →
            Event.markBad t ∉ evs
              ∧ (t ∈ (getTrackerConnection env m w).2.2.bad ↔ t ∈ w.bad))
          ∧ ((∃ a ∈ m.trackers, (reach a).toBool = true) → ∃ t, Event.dial t true ∈ evs) := by
  obtain ⟨evs, e1, e2, _, e4, e5, e6⟩ := getTrackerConnection_facts env m w hinit
  have hnoalive : ∀ a, Event.markAlive a ∉ evs := by
    intro a ha
    have := e2 _ ha
    cases this
  rcases getTrackerConnection_dial_trace env m w hinit with
    ⟨pre, t, c, p1, p2, p3, p4, p5, p6⟩ | ⟨evs2, q1, q2, q3⟩
  · -- one attempt succeeded
    have hev : evs = pre ++ [Event.dial t true] :=
      List.append_cancel_left (e1.symm.trans p1)
    have hsucc : ∃ l, t ∈ m.trackers ∧ env.dial l t = .ok c
        ∧ (getTrackerConnection env m w).1 = (some c, none)
        ∧ (getTrackerConnection env m w).2.1 =
            { m with last_tracker := t, localConn := some c, isInitialized := true,
                     reconnectCounter := 0 } := by
      rcases e6 with ⟨t2, c2, l, ht, hd, r1, r2⟩ | ⟨_, r2, _⟩
      · have hc : c2 = c := by
          have := p4
          rw [r1] at this
          simpa using this
        have ht2 : t2 = t := by
          have := p5
          rw [r2] at this
          simpa using this
        subst hc
        subst ht2
        exact ⟨l, ht, hd, r1, r2⟩
      · exfalso
        rw [r2] at p6
        simp only at p6
        rw [hinit] at p6
        cases p6
    obtain ⟨l, ht, hd, r1, r2⟩ := hsucc
    have honly : ∀ t0, Event.dial t0 true ∈ evs → t0 = t := by
      intro t0 h0
      rw [hev] at h0
      rcases List.mem_append.1 h0 with h | h
      · exact absurd h (p2 t0)
      · simp at h
        exact h
    refine ⟨evs, e1, hnoalive, e4, fun a ha => (e5 a ha).2, ?_, ?_, ?_⟩
    · intro t0 h0
      have := honly t0 h0
      subst this
      exact ⟨c, pre, hev, p2, p3, ht, r1, r2⟩
    · intro hnone
      exfalso
      exact hnone t (by rw [hev]; simp)
    · intro reach henv
      have hnm : Event.markBad t ∉ evs := by
        intro hmem
        obtain ⟨_, l2, hl2⟩ := e5 t hmem
        rw [henv l2 t, ← henv l t, hd] at hl2
        cases hl2
      refine ⟨?_, fun _ => ⟨t, by rw [hev]; simp⟩⟩
      intro t0 h0
      have := honly t0 h0
      subst this
      refine ⟨hnm, ?_⟩
      rw [e4 t0]
      constructor
      · rintro (h | h)
        · exact h
        · exact absurd h hnm
      · exact Or.inl
  · -- no attempt succeeded
    have hev : evs = evs2 := List.append_cancel_left (e1.symm.trans q1)
    have hfail : (getTrackerConnection env m w).1 = (m.localConn, none)
        ∧ ∀ a ∈ m.trackers, Event.dial a false ∈ evs
            ∧ ∃ l, (env.dial l a).toBool = false := by
      rcases e6 with ⟨t2, c2, l, _, _, _, r2⟩ | ⟨r1, _, r3⟩
      · exfalso
        rw [r2] at q3
        cases q3
      · exact ⟨r1, fun a ha => ⟨(r3 a ha).2.1, (r3 a ha).2.2⟩⟩
    obtain ⟨r1, r3⟩ := hfail
    have hnone : ∀ t0, Event.dial t0 true ∉ evs := by
      intro t0
      rw [hev]
      exact q2 t0
    refine ⟨evs, e1, hnoalive, e4, fun a ha => (e5 a ha).2, ?_, ?_, ?_⟩
    · intro t0 h0
      exact absurd h0 (hnone t0)
    · intro _
      exact ⟨r1, q3, fun a ha => (r3 a ha).1⟩
    · intro reach henv
      refine ⟨fun t0 h0 => absurd h0 (hnone t0), ?_⟩
      rintro ⟨a, ha, hr⟩
      exfalso
      obtain ⟨_, l, hl⟩ := r3 a ha
      rw [henv l a, hr] at hl
      cases hl

/-- C15 on three trackers of which only the third accepts. -/
theorem getTrackerConnection_success_state_witness :
    ∃ evs, (getTrackerConnection (envFixed reachThird []) clientThree world0).2.2.log
        = world0.log ++ evs
      ∧ (∀ a, Event.markAlive a ∉ evs)
      ∧ (∀ a, a ∈ (getTrackerConnection (envFixed reachThird []) clientThree world0).2.2.bad
          ↔ a ∈ world0.bad ∨ Event.markBad a ∈ evs)
      ∧ (∀ a, Event.markBad a ∈ evs →
          ∃ l2, ((envFixed reachThird []).dial l2 a).toBool = false)
      ∧ (∀ t, Event.dial t true ∈ evs →
          ∃ c pre, evs = pre ++ [Event.dial t true]
            ∧ (∀ a, Event.dial a true ∉ pre)
            ∧ (envFixed reachThird []).dial (world0.log ++ pre) t = .ok c
            ∧ t ∈ clientThree.trackers
            ∧ (getTrackerConnection (envFixed reachThird []) clientThree world0).1
                = (some c, none)
            ∧ (getTrackerConnection (envFixed reachThird []) clientThree world0).2.1 =
                { clientThree with last_tracker := t, localConn := some c,
                                   isInitialized := true, reconnectCounter := 0 })
      ∧ ((∀ t, Event.dial t true ∉ evs) →
          (getTrackerConnection (envFixed reachThird []) clientThree world0).1
              = (clientThree.localConn, none)
            ∧ (getTrackerConnection (envFixed reachThird []) clientThree world0).2.1.isInitialized
                = false
            ∧ ∀ a ∈ clientThree.trackers, Event.dial a false ∈ evs)
      ∧ ∀ reach : String → Except Error Conn,
          (∀ l2 a, (envFixed reachThird []).dial l2 a = reach a) →
          (∀ t, Event.dial t true ∈ evs →
            Event.markBad t ∉ evs
              ∧ (t ∈ (getTrackerConnection (envFixed reachThird []) clientThree world0).2.2.bad
                  ↔ t ∈ world0.bad))
          ∧ ((∃ a ∈ clientThree.trackers, (reach a).toBool = true) →
              ∃ t, Event.dial t true ∈ evs) :=
  getTrackerConnection_success_state (envFixed reachThird []) clientThree world0 rfl

/-- First pass up to the first address that is neither blacklisted nor
unreachable: the loop returns there, and no address blacklisted at the start
got a connect attempt. -/
theorem trackerLoop_pass1_first_eligible (env : Env) (reach : String → Except Error Conn)
    (henv : ∀ l a, env.dial l a = reach a) (t : String) (c : Conn) (post : List String)
    (ht : reach t = .ok c) :
    ∀ (pre : List String) (conn : Option Conn) (err : Option Error) (m : MogileFsClient)
      (w : World), (∀ a ∈ pre, a ∈ w.bad ∨ (reach a).toBool = false) → t ∉ w.bad →
      ∃ w1 evs, trackerLoop env false (pre ++ t :: post) conn err m w =
          .returned (some c) none
            { m with last_tracker := t, localConn := some c, isInitialized := true,
                     reconnectCounter := 0 } w1
        ∧ w1.log = w.log ++ evs
        ∧ ∀ a b, Event.dial a b ∈ evs → a ∉ w.bad := by
  intro pre
  induction pre with
  | nil =>
    intro conn err m w _ htb
    refine ⟨_, [Event.isBad t false, Event.dial t true],
      trackerLoop_pass1_ok env t post conn err m w c htb ((henv _ _).trans ht), rfl, ?_⟩
    intro a b hab
    simp at hab
    exact hab.1 ▸ htb
  | cons x pre ih =>
    intro conn err m w hpre htb
    by_cases hxb : x ∈ w.bad
    · obtain ⟨w1, evs, h1, h2, h3⟩ := ih conn err { m with last_tracker := x }
        { w with log := w.log ++ [Event.isBad x true] }
        (fun a ha => hpre a (List.mem_cons_of_mem _ ha)) htb
      refine ⟨w1, Event.isBad x true :: evs, ?_, ?_, ?_⟩
      · rw [List.cons_append, trackerLoop_skip env x _ conn err m w hxb]
        exact h1
      · rw [h2]; simp
      · intro a b hab
        rcases List.mem_cons.1 hab with h | h
        · cases h
        · exact h3 a b h
    · have hx : (reach x).toBool = false := by
        rcases hpre x (List.mem_cons_self _ _) with h | h
        · exact absurd h hxb
        · exact h
      obtain ⟨e, hxe⟩ : ∃ e, reach x = .error e := by
        cases hr : reach x with
        | error e => exact ⟨e, rfl⟩
        | ok c2 => rw [hr] at hx; cases hx
      have hxt : t ≠ x := by
        intro h; rw [h, hxe] at ht; cases ht
      obtain ⟨w1, evs, h1, h2, h3⟩ := ih none (some e) { m with last_tracker := x }
        { bad := x :: w.bad,
          log := w.log ++ [Event.isBad x false, Event.dial x false, Event.markBad x] }
        (fun a ha => by
          rcases hpre a (List.mem_cons_of_mem _ ha) with h | h
          · exact Or.inl (List.mem_cons_of_mem _ h)
          · exact Or.inr h)
        (by
          simp only [List.mem_cons, not_or]
          exact ⟨hxt, htb⟩)
      refine ⟨w1, Event.isBad x false :: Event.dial x false :: Event.markBad x :: evs,
        ?_, ?_, ?_⟩
      · rw [List.cons_append,
          trackerLoop_pass1_fail env x _ conn err m w e hxb ((henv _ _).trans hxe)]
        exact h1
      · rw [h2]; simp
      · intro a b hab
        simp only [List.mem_cons, Event.dial.injEq] at hab
        rcases hab with h | h | h | h
        · cases h
        · exact h.1 ▸ hxb
        · cases h
        · exact fun hb => h3 a b h (List.mem_cons_of_mem _ hb)

/-- First pass over addresses that are all blacklisted or unreachable: the
loop runs to its end, having skipped the addresses blacklisted at the start. -/
theorem trackerLoop_pass1_exhaust (env : Env) (reach : String → Except Error Conn)
    (henv : ∀ l a, env.dial l a = reach a) :
    ∀ (hosts : List String) (conn : Option Conn) (err : Option Error) (m : MogileFsClient)
      (w : World), (∀ a ∈ hosts, a ∈ w.bad ∨ (reach a).toBool = false) →
      ∃ c1 e1 w1 evs, trackerLoop env false hosts conn err m w =
          .running c1 e1 { m with last_tracker := lastOr m.last_tracker hosts } w1
        ∧ w1.log = w.log ++ evs
        ∧ ∀ a ∈ hosts, a ∈ w.bad → Event.isBad a true ∈ evs := by
  intro hosts
  induction hosts with
  | nil =>
    intro conn err m w _
    exact ⟨conn, err, w, [], rfl, by simp, by simp⟩
  | cons x rest ih =>
    intro conn err m w hh
    by_cases hxb : x ∈ w.bad
    · obtain ⟨c1, e1, w1, evs, h1, h2, h3⟩ := ih conn err { m with last_tracker := x }
        { w with log := w.log ++ [Event.isBad x true] }
        (fun a ha => hh a (List.mem_cons_of_mem _ ha))
      refine ⟨c1, e1, w1, Event.isBad x true :: evs, ?_, ?_, ?_⟩
      · rw [trackerLoop_skip env x _ conn err m w hxb]
        exact h1
      · rw [h2]; simp
      · intro a ha hab
        rcases List.mem_cons.1 ha with h | h
        · exact h ▸ List.mem_cons_self _ _
        · exact List.mem_cons_of_mem _ (h3 a h hab)
    · have hx : (reach x).toBool = false := by
        rcases hh x (List.mem_cons_self _ _) with h | h
        · exact absurd h hxb
        · exact h
      obtain ⟨e, hxe⟩ : ∃ e, reach x = .error e := by
        cases hr : reach x with
        | error e => exact ⟨e, rfl⟩
        | ok c2 => rw [hr] at hx; cases hx
      obtain ⟨c1, e1, w1, evs, h1, h2, h3⟩ := ih none (some e) { m with last_tracker := x }
        { bad := x :: w.bad,
          log := w.log ++ [Event.isBad x false, Event.dial x false, Event.markBad x] }
        (fun a ha => by
          rcases hh a (List.mem_cons_of_mem _ ha) with h | h
          · exact Or.inl (List.mem_cons_of_mem _ h)
          · exact Or.inr h)
      refine ⟨c1, e1, w1, Event.isBad x false :: Event.dial x false :: Event.markBad x :: evs,
        ?_, ?_, ?_⟩
      · rw [trackerLoop_pass1_fail env x _ conn err m w e hxb ((henv _ _).trans hxe)]
        exact h1
      · rw [h2]; simp
      · intro a ha hab
        rcases List.mem_cons.1 ha with h | h
        · exact absurd (h ▸ hab) hxb
        · have := h3 a h (List.mem_cons_of_mem _ hab)
          simp [this]

/-- Second pass up to the first reachable address: the loop returns there. -/
theorem trackerLoop_pass2_first_reachable (env : Env) (reach : String → Except Error Conn)
    (henv : ∀ l a, env.dial l a = reach a) (t : String) (c : Conn) (post : List String)
    (ht : reach t = .ok c) :
    ∀ (pre : List String) (conn : Option Conn) (err : Option Error) (m : MogileFsClient)
      (w : World), (∀ a ∈ pre, (reach a).toBool = false) →
      ∃ w1 evs, trackerLoop env true (pre ++ t :: post) conn err m w =
          .returned (some c) none
            { m with last_tracker := t, localConn := some c, isInitialized := true,
                     reconnectCounter := 0 } w1
        ∧ w1.log = w.log ++ evs ∧ Event.dial t true ∈ evs := by
  intro pre
  induction pre with
  | nil =>
    intro conn err m w _
    exact ⟨_, [Event.dial t true],
      trackerLoop_pass2_ok env t post conn err m w c ((henv _ _).trans ht), rfl, by simp⟩
  | cons x pre ih =>
    intro conn err m w hpre
    have hx : (reach x).toBool = false := hpre x (List.mem_cons_self _ _)
    obtain ⟨e, hxe⟩ : ∃ e, reach x = .error e := by
      cases hr : reach x with
      | error e => exact ⟨e, rfl⟩
      | ok c2 => rw [hr] at hx; cases hx
    obtain ⟨w1, evs, h1, h2, h3⟩ := ih none (some e) { m with last_tracker := x }
      { bad := if x ∈ w.bad then w.bad else x :: w.bad,
        log := w.log ++ [Event.dial x false, Event.markBad x] }
      (fun a ha => hpre a (List.mem_cons_of_mem _ ha))
    refine ⟨w1, Event.dial x false :: Event.markBad x :: evs, ?_, ?_, ?_⟩
    · rw [List.cons_append, trackerLoop_pass2_fail env x _ conn err m w e ((henv _ _).trans hxe)]
      exact h1
    · rw [h2]; simp
    · simp [h3]

/-- C14: on a client that is not initialized, under a fixed reachability
assignment, let `t` be an address of the tracker list that accepts, `pre` the
addresses before it. If `t` is not blacklisted and every address of `pre` is
blacklisted or refuses, `getTrackerConnection` connects to `t`, and no address
blacklisted on entry gets a connect attempt. If every address of the list that
is not blacklisted refuses and every address of `pre` refuses, it connects to
`t` as well, in the second pass: `t` was skipped as blacklisted before its
connect attempt. -/
theorem getTrackerConnection_two_pass (env : Env) (reach : String → Except Error Conn)
    (m : MogileFsClient) (w : World) (pre post : List String) (t : String) (c : Conn)
    (hinit : m.isInitialized = false)
    (henv : ∀ l a, env.dial l a = reach a)
    (hsplit : m.trackers = pre ++ t :: post)
    (ht : reach t = .ok c) :
    ((t ∉ w.bad ∧ ∀ a ∈ pre, a ∈ w.bad ∨ (reach a).toBool = false) →
        (getTrackerConnection env m w).1 = (some c, none)
          ∧ (getTrackerConnection env m w).2.1 =
              { m with last_tracker := t, localConn := some c, isInitialized := true,
                       reconnectCounter := 0 }
          ∧ ∃ evs, (getTrackerConnection env m w).2.2.log = w.log ++ evs
              ∧ ∀ a b, Event.dial a b ∈ evs → a ∉ w.bad)
    ∧ (((∀ a ∈ m.trackers, a ∉ w.bad → (reach a).toBool = false)
          ∧ ∀ a ∈ pre, (reach a).toBool = false) →
        (getTrackerConnection env m w).1 = (some c, none)
          ∧ (getTrackerConnection env m w).2.1 =
              { m with last_tracker := t, localConn := some c, isInitialized := true,
                       reconnectCounter := 0 }
          ∧ ∃ evs, (getTrackerConnection env m w).2.2.log = w.log ++ evs
              ∧ Event.isBad t true ∈ evs ∧ Event.dial t true ∈ evs) := by
  refine ⟨?_, ?_⟩
  · rintro ⟨htb, hpre⟩
    obtain ⟨w1, evs, h1, h2, h3⟩ :=
      trackerLoop_pass1_first_eligible env reach henv t c post ht pre none none m w hpre htb
    rw [← hsplit] at h1
    have hg : getTrackerConnection env m w =
        ((some c, none),
          { m with last_tracker := t, localConn := some c, isInitialized := true,
                   reconnectCounter := 0 }, w1) := by
      simp only [getTrackerConnection, hinit, if_true, passLoop, h1]
    rw [hg]
    exact ⟨rfl, rfl, evs, h2, h3⟩
  · rintro ⟨hall, hpre⟩
    have hall2 : ∀ a ∈ m.trackers, a ∈ w.bad ∨ (reach a).toBool = false := by
      intro a ha
      by_cases hb : a ∈ w.bad
      · exact Or.inl hb
      · exact Or.inr (hall a ha hb)
    have htm : t ∈ m.trackers := by rw [hsplit]; simp
    have htb : t ∈ w.bad := by
      rcases hall2 t htm with h | h
      · exact h
      · rw [ht] at h; cases h
    obtain ⟨c1, e1, w1, evs1, h1, h2, h3⟩ :=
      trackerLoop_pass1_exhaust env reach henv m.trackers none none m w hall2
    obtain ⟨w2, evs2, j1, j2, j3⟩ :=
      trackerLoop_pass2_first_reachable env reach henv t c post ht pre c1 e1
        { m with last_tracker := lastOr m.last_tracker m.trackers } w1 hpre
    have j1b : trackerLoop env true m.trackers c1 e1
        { m with last_tracker := lastOr m.last_tracker m.trackers } w1 =
        .returned (some c) none
          { m with last_tracker := t, localConn := some c, isInitialized := true,
                   reconnectCounter := 0 } w2 := by
      rw [hsplit]
      rw [hsplit] at j1
      exact j1
    have hg : getTrackerConnection env m w =
        ((some c, none),
          { m with last_tracker := t, localConn := some c, isInitialized := true,
                   reconnectCounter := 0 }, w2) := by
      rw [getTrackerConnection, if_pos hinit]
      simp only [passLoop, h1, j1b]
    rw [hg]
    refine ⟨rfl, rfl, evs1 ++ evs2, ?_, ?_, ?_⟩
    · simp only
      rw [j2, h2, List.append_assoc]
    · exact List.mem_append.2 (Or.inl (h3 t htm htb))
    · exact List.mem_append.2 (Or.inr j3)

/-- C14 on three reachable trackers of which the first is blacklisted on entry:
the second is selected and the first gets no connect attempt. -/
theorem getTrackerConnection_two_pass_witness :
    (getTrackerConnection (envFixed reachAll []) clientThree
        { bad := ["10.0.0.1:7001"], log := [] }).1
        = (some { addr := "10.0.0.2:7001", id := 1 }, none)
      ∧ (getTrackerConnection (envFixed reachAll []) clientThree
          { bad := ["10.0.0.1:7001"], log := [] }).2.1 =
          { clientThree with last_tracker := "10.0.0.2:7001",
                             localConn := some { addr := "10.0.0.2:7001", id := 1 },
                             isInitialized := true, reconnectCounter := 0 }
      ∧ ∃ evs, (getTrackerConnection (envFixed reachAll []) clientThree
            { bad := ["10.0.0.1:7001"], log := [] }).2.2.log
            = (World.mk ["10.0.0.1:7001"] []).log ++ evs
          ∧ ∀ a b, Event.dial a b ∈ evs → a ∉ (World.mk ["10.0.0.1:7001"] []).bad :=
  (getTrackerConnection_two_pass (envFixed reachAll []) reachAll clientThree
    { bad := ["10.0.0.1:7001"], log := [] } ["10.0.0.1:7001"] ["10.0.0.3:7001"]
    "10.0.0.2:7001" { addr := "10.0.0.2:7001", id := 1 } rfl (fun _ _ => rfl) rfl rfl).1
    ⟨by decide, by decide⟩

/-! ## The request line: lemmas and claims -/

theorem upperhex_not_ws : ∀ c : Byte,
    (upperhex (c.val >>> 4) ≠ 32 ∧ upperhex (c.val >>> 4) ≠ 13 ∧ upperhex (c.val >>> 4) ≠ 10)
      ∧ (upperhex (c.val &&& 15) ≠ 32 ∧ upperhex (c.val &&& 15) ≠ 13
          ∧ upperhex (c.val &&& 15) ≠ 10) := by
  decide

theorem shouldEscape_ws : ∀ c : Byte, shouldEscape c = false → c ≠ 32 ∧ c ≠ 13 ∧ c ≠ 10 := by
  decide

/-- An escaped string holds no space, carriage return or line feed. -/
theorem QueryEscape_no_ws (s : Str) :
    ∀ b ∈ QueryEscape s, b ≠ 32 ∧ b ≠ 13 ∧ b ≠ 10 := by
  induction s with
  | nil => intro b hb; simp [QueryEscape] at hb
  | cons c rest ih =>
    intro b hb
    unfold QueryEscape at hb
    by_cases h32 : c = 32
    · simp only [h32, if_true, List.mem_cons] at hb
      rcases hb with h | h
      · subst h; decide
      · exact ih b h
    · simp only [h32, if_false] at hb
      by_cases hse : shouldEscape c = true
      · obtain ⟨u1, u2⟩ := upperhex_not_ws c
        simp only [hse, if_true, List.mem_cons] at hb
        rcases hb with h | h | h | h
        · subst h; decide
        · subst h; exact u1
        · subst h; exact u2
        · exact ih b h
      · have hf : shouldEscape c = false := by simpa using hse
        simp only [hf, Bool.false_eq_true, if_false, List.mem_cons] at hb
        rcases hb with h | h
        · subst h; exact shouldEscape_ws b hf
        · exact ih b h

theorem foldl_appendItem_all (P : Byte → Prop) (h38 : P 38) (items : List Str)
    (hit : ∀ s ∈ items, ∀ b ∈ s, P b) :
    ∀ buf : Str, (∀ b ∈ buf, P b) → ∀ b ∈ items.foldl appendItem buf, P b := by
  induction items with
  | nil => intro buf hbuf b hb; exact hbuf b hb
  | cons s rest ih =>
    intro buf hbuf
    rw [List.foldl_cons]
    apply ih (fun x hx => hit x (List.mem_cons_of_mem _ hx))
    intro b hb
    unfold appendItem at hb
    rcases List.mem_append.1 hb with h | h
    · split at h
      · rcases List.mem_append.1 h with h1 | h1
        · exact hbuf b h1
        · simp at h1; exact h1 ▸ h38
      · exact hbuf b h
    · exact hit s (List.mem_cons_self _ _) b h

theorem Encode_no_ws (args : Values) : ∀ b ∈ Encode args, b ≠ 32 ∧ b ≠ 13 ∧ b ≠ 10 := by
  rw [Encode_eq]
  apply foldl_appendItem_all (fun b => b ≠ 32 ∧ b ≠ 13 ∧ b ≠ 10) (by decide)
  · intro s hs b hb
    obtain ⟨q, _, rfl⟩ := List.mem_map.1 hs
    unfold encPair at hb
    rcases List.mem_append.1 hb with h | h
    · exact QueryEscape_no_ws q.1 b h
    · rcases List.mem_cons.1 h with h1 | h1
      · subst h1; decide
      · exact QueryEscape_no_ws q.2 b h1
  · intro b hb; cases hb

/-- C20: the encoded argument string holds no space, carriage return or line
feed. Hence, for a command without these bytes, the request line is the
command, one space, the encoded arguments and "\r\n": no carriage return or
line feed occurs before the final two bytes, the first space is the one after
the command, and a reader of one line gets the whole request. -/
theorem requestLine_single_line (args : Values) :
    (∀ b ∈ Encode args, b ≠ 32 ∧ b ≠ 13 ∧ b ≠ 10)
      ∧ ∀ command : Str, (∀ b ∈ command, b ≠ 32 ∧ b ≠ 13 ∧ b ≠ 10) →
          requestLine command args = (command ++ 32 :: Encode args) ++ [13, 10]
            ∧ (∀ b ∈ command ++ 32 :: Encode args, b ≠ 13 ∧ b ≠ 10)
            ∧ cut 32 (requestLine command args) = (command, Encode args ++ [13, 10])
            ∧ ∀ e, readString 10 (requestLine command args) e
                = (requestLine command args, none) := by
  refine ⟨Encode_no_ws args, ?_⟩
  intro command hc
  have hsp : lit " " = [32] := by decide
  have hcrlf : lit "\r\n" = [13, 10] := by decide
  have hline : requestLine command args = (command ++ 32 :: Encode args) ++ [13, 10] := by
    simp [requestLine, hsp, hcrlf]
  have hbody : ∀ b ∈ command ++ 32 :: Encode args, b ≠ 13 ∧ b ≠ 10 := by
    intro b hb
    rcases List.mem_append.1 hb with h | h
    · exact (hc b h).2
    · rcases List.mem_cons.1 h with h1 | h1
      · subst h1; decide
      · exact (Encode_no_ws args b h1).2
  refine ⟨hline, hbody, ?_, ?_⟩
  · have hno : (32 : Byte) ∉ command := fun h => (hc 32 h).1 rfl
    have : requestLine command args = command ++ 32 :: (Encode args ++ [13, 10]) := by
      rw [hline]; simp
    rw [this, cut_append_sep 32 command _ hno]
  · intro e
    have hno : (10 : Byte) ∉ (command ++ 32 :: Encode args) ++ [13] := by
      intro h
      rcases List.mem_append.1 h with h1 | h1
      · exact (hbody 10 h1).2 rfl
      · simp at h1
    have hform : requestLine command args = ((command ++ 32 :: Encode args) ++ [13]) ++ [10] := by
      rw [hline]; simp
    rw [hform]
    generalize (command ++ 32 :: Encode args) ++ [13] = body at hno
    induction body with
    | nil => simp [readString]
    | cons x rest ih =>
      simp only [List.mem_cons, not_or] at hno
      have hx : ¬ x = 10 := fun h => hno.1 h.symm
      have ih2 : readString 10 (rest.append [10]) e = (rest ++ [10], none) := ih hno.2
      simp only [List.cons_append, readString, hx, if_false, ih2]

/-- C20 on a value that holds a space, a line break and a second command. -/
theorem requestLine_single_line_witness :
    requestLine (lit "get_paths") argsInjection
        = (lit "get_paths" ++ 32 :: Encode argsInjection) ++ [13, 10]
      ∧ (∀ b ∈ lit "get_paths" ++ 32 :: Encode argsInjection, b ≠ 13 ∧ b ≠ 10)
      ∧ cut 32 (requestLine (lit "get_paths") argsInjection)
          = (lit "get_paths", Encode argsInjection ++ [13, 10])
      ∧ ∀ e, readString 10 (requestLine (lit "get_paths") argsInjection) e
          = (requestLine (lit "get_paths") argsInjection, none) :=
  (requestLine_single_line argsInjection).2 (lit "get_paths") (by decide)

theorem strLe_cons (a b : Byte) (as bs : Str) :
    strLe (a :: as) (b :: bs) = if a < b then true else if b < a then false else strLe as bs :=
  rfl

theorem strLe_total (a b : Str) : strLe a b = true ∨ strLe b a = true := by
  induction a generalizing b with
  | nil => left; cases b <;> rfl
  | cons x xs ih =>
    cases b with
    | nil => right; rfl
    | cons y ys =>
      rw [strLe_cons, strLe_cons]
      rcases lt_trichotomy x y with h | h | h
      · left; simp [h]
      · subst h
        simp only [lt_irrefl, if_false]
        exact ih ys
      · right; simp [h]

theorem strLe_antisymm (a b : Str) (h1 : strLe a b = true) (h2 : strLe b a = true) : a = b := by
  induction a generalizing b with
  | nil =>
    cases b with
    | nil => rfl
    | cons y ys => simp [strLe] at h2
  | cons x xs ih =>
    cases b with
    | nil => simp [strLe] at h1
    | cons y ys =>
      rw [strLe_cons] at h1 h2
      rcases lt_trichotomy x y with h | h | h
      · simp [h, lt_asymm h] at h2
      · subst h
        simp only [lt_irrefl, if_false] at h1 h2
        rw [ih ys h1 h2]
      · simp [h, lt_asymm h] at h1

theorem strLe_trans (a b c : Str) (h1 : strLe a b = true) (h2 : strLe b c = true) :
    strLe a c = true := by
  induction a generalizing b c with
  | nil => cases c <;> rfl
  | cons x xs ih =>
    cases b with
    | nil => simp [strLe] at h1
    | cons y ys =>
      cases c with
      | nil => simp [strLe] at h2
      | cons z zs =>
        rw [strLe_cons] at h1 h2 ⊢
        rcases lt_trichotomy x y with hxy | hxy | hxy
        · rcases lt_trichotomy y z with hyz | hyz | hyz
          · simp [lt_trans hxy hyz]
          · subst hyz; simp [hxy]
          · simp [hyz, lt_asymm hyz] at h2
        · subst hxy
          simp only [lt_irrefl, if_false] at h1
          rcases lt_trichotomy x z with hxz | hxz | hxz
          · simp [hxz]
          · subst hxz
            simp only [lt_irrefl, if_false] at h2 ⊢
            exact ih ys zs h1 h2
          · simp [hxz, lt_asymm hxz] at h2
        · simp [hxy, lt_asymm hxy] at h1

theorem sortedKeys_sorted (v : Values) :
    List.Sorted (fun a b => strLe a b = true) (sortedKeys v) := by
  haveI : IsTotal Str (fun a b => strLe a b = true) := ⟨strLe_total⟩
  haveI : IsTrans Str (fun a b => strLe a b = true) := ⟨strLe_trans⟩
  exact List.sorted_insertionSort _ _

theorem joinWith_cons_cons (sep : Byte) (s r : Str) (rs : List Str) :
    joinWith sep (s :: r :: rs) = s ++ sep :: joinWith sep (r :: rs) := rfl

theorem foldl_appendItem_join (items : List Str) :
    ∀ buf : Str, buf ≠ [] → items.foldl appendItem buf = joinWith 38 (buf :: items) := by
  induction items with
  | nil => intro buf _; rfl
  | cons s rest ih =>
    intro buf hb
    have hlen : buf.length > 0 := List.length_pos.2 hb
    have hstep : appendItem buf s = buf ++ 38 :: s := by simp [appendItem, hlen]
    rw [List.foldl_cons, hstep, ih (buf ++ 38 :: s) (by simp), joinWith_cons_cons]
    cases rest with
    | nil => rfl
    | cons r rs =>
      rw [joinWith_cons_cons, joinWith_cons_cons]
      simp

/-- The encoding is the pairs "key=value", both sides escaped, joined by
ampersands, keys in the order of `sortedKeys`. -/
theorem Encode_join (v : Values) :
    Encode v = joinWith 38 ((pairsOf v (sortedKeys v)).map encPair) := by
  rw [Encode_eq]
  cases hp : pairsOf v (sortedKeys v) with
  | nil => rfl
  | cons q rest =>
    have hstep : appendItem [] (encPair q) = encPair q := by simp [appendItem]
    rw [List.map_cons, List.foldl_cons, hstep,
      foldl_appendItem_join _ _ (encPair_props q).2.2.1]

theorem mem_keys_iff_find (m : Values) (k : Str) :
    k ∈ m.map Prod.fst ↔ Values.find m k ≠ none := by
  induction m with
  | nil => simp [Values.find]
  | cons e rest ih =>
    obtain ⟨k1, vs⟩ := e
    by_cases h : k1 = k
    · simp [Values.find, h]
    · have h2 : ¬ k = k1 := fun hk => h hk.symm
      simp [Values.find, h, h2, ih]

/-- Maps with the same lookups encode to the same string. -/
theorem Encode_congr (a b : Values) (ha : Values.WF a) (hb : Values.WF b)
    (h : ∀ k, Values.find a k = Values.find b k) : Encode a = Encode b := by
  haveI : IsAntisymm Str (fun x y => strLe x y = true) := ⟨strLe_antisymm⟩
  have hperm : (a.map Prod.fst).Perm (b.map Prod.fst) := by
    rw [List.perm_ext_iff_of_nodup ha hb]
    intro k
    rw [mem_keys_iff_find, mem_keys_iff_find, h k]
  have hkeys : sortedKeys a = sortedKeys b := by
    apply List.eq_of_perm_of_sorted _ (sortedKeys_sorted a) (sortedKeys_sorted b)
    exact ((List.perm_insertionSort _ _).trans hperm).trans (List.perm_insertionSort _ _).symm
  have hpairs : ∀ ks, pairsOf a ks = pairsOf b ks := by
    intro ks
    simp only [pairsOf, Values.get, h]
  rw [Encode_eq, Encode_eq, hkeys, hpairs]

/-- Acquisition records no write. -/
theorem getTrackerConnection_no_write (env : Env) (m : MogileFsClient) (w : World) (c : Conn)
    (d : Str) (h : Event.write c d ∈ (getTrackerConnection env m w).2.2.log) :
    Event.write c d ∈ w.log := by
  by_cases hinit : m.isInitialized = false
  · obtain ⟨evs, e1, e2, _⟩ := getTrackerConnection_facts env m w hinit
    rw [e1] at h
    rcases List.mem_append.1 h with h1 | h1
    · exact h1
    · have := e2 _ h1
      cases this
  · have hi : m.isInitialized = true := by simpa using hinit
    simp only [getTrackerConnection, hi, Bool.true_eq_false, if_false] at h
    exact h

/-- C12: the request line is the command, a space, `Encode args` and "\r\n",
where `Encode args` is the pairs "key=value", both sides percent-escaped, joined
by ampersands with the keys in sorted order (a sorted rearrangement of the keys
of the map). Every write `DoRequest` records carries that line, and once
acquisition hands out a connection it records exactly one write, on that
connection. Two maps with the same lookups give the same request line. -/
theorem DoRequest_request_line (env : Env) (m : MogileFsClient) (w : World) (command : Str)
    (args : Values) :
    requestLine command args = command ++ lit " " ++ Encode args ++ lit "\r\n"
      ∧ Encode args = joinWith 38 ((pairsOf args (sortedKeys args)).map encPair)
      ∧ List.Sorted (fun a b => strLe a b = true) (sortedKeys args)
      ∧ (sortedKeys args).Perm (args.map Prod.fst)
      ∧ (∀ c d, Event.write c d ∈ (DoRequest env m w command args).2.2.log →
          Event.write c d ∈ w.log ∨ d = requestLine command args)
      ∧ (∀ c m1 w1, getTrackerConnection env m w = ((some c, none), m1, w1) →
          ∃ tail, (DoRequest env m w command args).2.2.log
              = w1.log ++ Event.write c (requestLine command args) :: tail
            ∧ ∀ c2 d, Event.write c2 d ∉ tail)
      ∧ ∀ args2, Values.WF args → Values.WF args2 →
          (∀ k, Values.find args k = Values.find args2 k) →
          requestLine command args = requestLine command args2 := by
  have hB : ∀ c m1 w1, getTrackerConnection env m w = ((some c, none), m1, w1) →
      ∃ tail, (DoRequest env m w command args).2.2.log
          = w1.log ++ Event.write c (requestLine command args) :: tail
        ∧ ∀ c2 d, Event.write c2 d ∉ tail := by
    intro c m1 w1 hg
    rw [DoRequest_of_conn env m m1 w w1 command args c hg]
    cases env.write w1.log c (requestLine command args) with
    | some e =>
      exact ⟨[Event.markBad m1.last_tracker], by simp [markTrackerAsBad], by simp⟩
    | none =>
      simp only
      generalize (classifyReply _ none _ true).2.2 = blame
      cases blame with
      | true =>
        exact ⟨[Event.read c, Event.markBad m1.last_tracker],
          by simp [returnTrackerConnection, markTrackerAsBad], by simp⟩
      | false =>
        exact ⟨[Event.read c, Event.markAlive m1.last_tracker],
          by simp [returnTrackerConnection, markTrackerAsAlive], by simp⟩
  refine ⟨rfl, Encode_join args, sortedKeys_sorted args, List.perm_insertionSort _ _, ?_, hB, ?_⟩
  · intro c d hmem
    have hge := getTrackerConnection_err_nil env m w
    cases hc : (getTrackerConnection env m w).1.1 with
    | none =>
      left
      have hD : (DoRequest env m w command args).2.2 = (getTrackerConnection env m w).2.2 := by
        simp [DoRequest, hge, hc, exchange]
      rw [hD] at hmem
      exact getTrackerConnection_no_write env m w c d hmem
    | some c0 =>
      have hg : getTrackerConnection env m w =
          ((some c0, none), (getTrackerConnection env m w).2.1,
            (getTrackerConnection env m w).2.2) := by
        rw [← hc, ← hge]
      obtain ⟨tail, ht1, ht2⟩ := hB c0 _ _ hg
      rw [ht1] at hmem
      rcases List.mem_append.1 hmem with h | h
      · exact Or.inl (getTrackerConnection_no_write env m w c d h)
      · rcases List.mem_cons.1 h with h1 | h1
        · right
          cases h1
          rfl
        · exact absurd h1 (ht2 c d)
  · intro args2 ha hb h
    simp only [requestLine, Encode_congr args args2 ha hb h]

/-- C12 on a map and the same map listed in the other order. -/
theorem DoRequest_request_line_witness :
    requestLine (lit "get_paths") argsTwo = requestLine (lit "get_paths") argsTwoSwapped
      ∧ requestLine (lit "get_paths") argsTwo = lit "get_paths domain=d&key=k+1\r\n" :=
  ⟨(DoRequest_request_line envAllDown clientTwo world0 (lit "get_paths") argsTwo).2.2.2.2.2.2
      argsTwoSwapped (by unfold Values.WF; decide) (by unfold Values.WF; decide)
      (by
        intro k
        simp only [argsTwo, argsTwoSwapped, Values.find]
        by_cases h1 : lit "key" = k
        · by_cases h2 : lit "domain" = k
          · exact absurd (h1.trans h2.symm) (by decide)
          · simp [h1, h2]
        · by_cases h2 : lit "domain" = k
          · simp [h1, h2]
          · simp [h1, h2]),
    by decide⟩

end Mogilefs
